import Mathlib

/-!
Verification of the SQP maze client/server against its specification.

This file gives a shallow embedding, in Lean 4, of the algorithmic core of the
SQP-server and SQP-client Rust crates:

* the custom 6-bit symbol codec (SQP-server/src/encoder.rs and
  SQP-client/src/decoder.rs; the two crates carry the same decode function),
* the radar-view binary format (encode_radar_view in SQP-server/src/main.rs,
  parse_passages in SQP-client/src/player.rs),
* the maze generator (SQP-server/src/maze_generator.rs),
* the client map builder and navigator (update_map and find_closest_open in
  SQP-client/src/player.rs),
* the server move clamp (process_move in SQP-server/src/main.rs).

Machine integers (u8, u32, u64, usize) are embedded as Nat.  Bit operations on
byte-sized quantities are translated to division / remainder / multiplication
by powers of two; where the Rust code ors together bit ranges that are disjoint
for every value the machine type can hold, the or is written as addition.
Randomness (rand::thread_rng) is embedded as an explicit tape of naturals; a
call of gen_range(0..n) or SliceRandom::choose reads the head of the tape
modulo n and passes the tail on.  Loops whose termination is not structural
carry an explicit fuel parameter.
-/

namespace SQP

/-! ## Generic two-dimensional grids

`Vec<Vec<T>>` values are embedded as `List (List t)`, indexed `grid[y][x]`
exactly as in the Rust sources.  Out-of-range reads return an explicit default
(the Rust code only ever indexes in bounds); out-of-range writes are dropped.
-/

/-- Read `g[y][x]`, with default `d` out of range. -/
def getG (g : List (List α)) (d : α) (y x : Nat) : α :=
  (g.getD y []).getD x d

/-- Write `g[y][x] := v` (no-op out of range, like `List.set`). -/
def setG (g : List (List α)) (y x : Nat) (v : α) : List (List α) :=
  g.set y ((g.getD y []).set x v)

/-- Update `g[y][x]` through `f` (reading with default `d`). -/
def modG (g : List (List α)) (d : α) (y x : Nat) (f : α → α) : List (List α) :=
  setG g y x (f (getG g d y x))

/-- The grid has `h` rows of `w` entries each. -/
def Dims (g : List (List α)) (w h : Nat) : Prop :=
  g.length = h ∧ ∀ y, y < h → (g.getD y []).length = w

/-- All coordinate pairs `(y, x)` with `y < h`, `x < w`, row by row. -/
def pairs (w : Nat) : Nat → List (Nat × Nat)
  | 0 => []
  | h + 1 => pairs w h ++ (List.range w).map (fun x => (h, x))

/-- Count the cells of a `w × h` grid satisfying `p`. -/
def gridCount (g : List (List α)) (d : α) (w h : Nat) (p : α → Bool) : Nat :=
  (pairs w h).countP (fun yx => p (getG g d yx.1 yx.2))

/-- One random draw: `rng.gen_range(0..n)` reads the head of the tape mod `n`. -/
def takeRand (tape : List Nat) (n : Nat) : Nat × List Nat :=
  (tape.headD 0 % n, tape.tail)

/-! ## Symbol codec

From SQP-server/src/encoder.rs (encode, and decode copied from the client) and
SQP-client/src/decoder.rs (decode, char_to_value).  Bytes are Nat values below
256; the 6-bit symbol values are Nat values below 64.
-/

namespace Codec

/-- The 64-character alphabet of encoder.rs line 4. -/
def alphabet : List Char :=
  "abcdefghijklmnopqrstuvwxyzABCDEFGHIJKLMNOPQRSTUVWXYZ0123456789+/".toList

/-- char_to_value from decoder.rs: map an alphabet character to its 6-bit value. -/
def char_to_value (c : Char) : Option Nat :=
  if 'a' ≤ c ∧ c ≤ 'z' then some (c.toNat - 'a'.toNat)
  else if 'A' ≤ c ∧ c ≤ 'Z' then some (c.toNat - 'A'.toNat + 26)
  else if '0' ≤ c ∧ c ≤ '9' then some (c.toNat - '0'.toNat + 52)
  else if c = '+' then some 62
  else if c = '/' then some 63
  else none

/-- The four 6-bit values the encoder extracts from a 3-byte chunk
`b0 b1 b2` (encoder.rs lines 17-20), for bytes below 256:
`c0 = (b0 >> 2) & 0x3F`, `c1 = ((b0 & 0x03) << 4) | ((b1 >> 4) & 0x0F)`,
`c2 = ((b1 & 0x0F) << 2) | ((b2 >> 6) & 0x03)`, `c3 = b2 & 0x3F`
(the or-ed ranges are disjoint, so or is addition). -/
def chunkVals (b0 b1 b2 : Nat) : List Nat :=
  [b0 / 4 % 64, b0 % 4 * 16 + b1 / 16 % 16, b1 % 16 * 4 + b2 / 64 % 4, b2 % 64]

/-- The 6-bit symbol values of the encoding of a byte list: the encoder's main
loop (encoder.rs lines 10-37) emits 4, 3 or 2 of the chunk values according to
whether 3, 2 or 1 input bytes remain (absent bytes read as 0). -/
def byteVals : List Nat → List Nat
  | [] => []
  | [b0] => (chunkVals b0 0 0).take 2
  | [b0, b1] => (chunkVals b0 b1 0).take 3
  | b0 :: b1 :: b2 :: rest => chunkVals b0 b1 b2 ++ byteVals rest

/-- encode from encoder.rs: 6-bit values rendered through the alphabet. -/
def encode (input : List Nat) : List Char :=
  (byteVals input).map (fun v => alphabet.getD v ' ')

/-- DecodeError from encoder.rs / SQP-client error.rs. -/
inductive DecodeError where
  | InvalidSize : DecodeError
  | UnauthorizedCharacter : Char → DecodeError
  | InvalidSegmentSize : DecodeError
deriving DecidableEq

/-- The character-to-value pass of decode (decoder.rs lines 19-25): fail on
the first character outside the alphabet. -/
def toValues : List Char → Except DecodeError (List Nat)
  | [] => .ok []
  | c :: cs =>
    match char_to_value c with
    | none => .error (.UnauthorizedCharacter c)
    | some v =>
      match toValues cs with
      | .error e => .error e
      | .ok vs => .ok (v :: vs)

/-- The 4-value chunk loop of decode (decoder.rs lines 30-55): a chunk of
fewer than 2 values is an InvalidSegmentSize error; 2, 3 and 4 values yield
1, 2 and 3 bytes, missing trailing values reading as 0:
`b0 = (v0 << 2) | (v1 >> 4)`, `b1 = ((v1 & 0x0F) << 4) | (v2 >> 2)`,
`b2 = ((v2 & 0x03) << 6) | v3` (disjoint or written as addition, the values
being below 64). -/
def decodeValues : List Nat → Except DecodeError (List Nat)
  | [] => .ok []
  | [_] => .error .InvalidSegmentSize
  | [v0, v1] => .ok [v0 * 4 + v1 / 16]
  | [v0, v1, v2] => .ok [v0 * 4 + v1 / 16, v1 % 16 * 16 + v2 / 4]
  | v0 :: v1 :: v2 :: v3 :: rest =>
    match decodeValues rest with
    | .error e => .error e
    | .ok bs => .ok ([v0 * 4 + v1 / 16, v1 % 16 * 16 + v2 / 4, v2 % 4 * 64 + v3] ++ bs)

/-- decode from decoder.rs (also duplicated in encoder.rs for the server's
tests): length check, character mapping, then the chunk loop. -/
def decode (input : List Char) : Except DecodeError (List Nat) :=
  if input.length % 4 = 1 then .error .InvalidSize
  else
    match toValues input with
    | .error e => .error e
    | .ok values => decodeValues values

end Codec

/-! ## Client-side radar parsing

From SQP-client/src/player.rs.  Boundary is the client's five-state boundary
enum (the specification names Undefined "Unknown" and Error "Invalid").
-/

namespace Client

/-- Boundary from player.rs lines 22-28. -/
inductive Boundary where
  | Undefined : Boundary
  | Open : Boundary
  | Checked : Boundary
  | Wall : Boundary
  | Error : Boundary
deriving DecidableEq

/-- parse_passages from player.rs lines 1330-1383: reassemble the three bytes
as `(byte2 << 16) | (byte1 << 8) | byte0` and cut 2-bit codes from the most
significant pair down, mapping 00, 01, 10, 11 to Undefined, Open, Wall, Error.
Empty input or a zero count yields the empty list. -/
def parse_passages (bytes : List Nat) (num_passages : Nat) : List Boundary :=
  if bytes = [] ∨ num_passages = 0 then []
  else
    let bits := bytes.getD 2 0 * 65536 + bytes.getD 1 0 * 256 + bytes.getD 0 0
    (List.range num_passages).map (fun i =>
      let shift := (num_passages - 1 - i) * 2
      match bits / 2 ^ shift % 4 with
      | 0 => Boundary.Undefined
      | 1 => Boundary.Open
      | 2 => Boundary.Wall
      | _ => Boundary.Error)

end Client

/-! ## Server radar encoding and move processing

From SQP-server/src/main.rs: the Labyrinth/Cell structures (lines 27-42),
MapDirection (lines 67-73), encode_cell (lines 1005-1035), encode_radar_view
(lines 1044-1221) and process_move (lines 829-881).
-/

/-- MapDirection from SQP-server/src/main.rs lines 67-73 (the client uses an
identical four-variant compass type). -/
inductive MapDirection where
  | North : MapDirection
  | South : MapDirection
  | East : MapDirection
  | West : MapDirection
deriving DecidableEq

/-- Direction (relative moves) from SQP-server/src/server_request_models.rs,
identical to SQP-client/src/models.rs lines 7-12. -/
inductive Direction where
  | Front : Direction
  | Back : Direction
  | Left : Direction
  | Right : Direction
deriving DecidableEq

namespace Server

/-- Cell from SQP-server/src/main.rs lines 34-42. -/
structure Cell where
  north_wall : Bool
  east_wall : Bool
  south_wall : Bool
  west_wall : Bool
  has_hint : Bool
  has_exit : Bool
deriving DecidableEq

/-- Labyrinth from SQP-server/src/main.rs lines 27-32. -/
structure Labyrinth where
  width : Nat
  height : Nat
  cells : List (List Cell)
  exit_position : Nat × Nat
deriving DecidableEq

/-- A default cell for out-of-range grid reads (never reached by the embedded
code on the inputs the theorems use). -/
def defCell : Cell :=
  ⟨true, true, true, true, false, false⟩

/-- encode_cell from main.rs lines 1005-1035: 0xF outside the labyrinth,
otherwise item bits (exit 10, hint 01, none 00) shifted left of two zero
entity bits.  Coordinates are Int because the caller offsets by -1. -/
def encode_cell (labyrinth : Labyrinth) (x y : Int) : Nat :=
  if x < 0 ∨ y < 0 ∨ labyrinth.width ≤ x.toNat ∨ labyrinth.height ≤ y.toNat then 15
  else
    let cell := getG labyrinth.cells defCell y.toNat x.toNat
    let item_bits := if cell.has_exit then 2 else if cell.has_hint then 1 else 0
    item_bits * 4

/-- Clear the two bits at `shift` of `v`: `v &= !(0b11 << shift)` on u32. -/
def clear2 (v shift : Nat) : Nat :=
  v - v / 2 ^ shift % 4 * 2 ^ shift

/-- The two passage words of encode_radar_view (main.rs lines 1055-1143):
both start from 0x555555 (01 repeated twelve times) and, per facing
direction, each of the four center-cell walls that is present clears one
2-bit field (to 00).  Returns (horizontal, vertical). -/
def radarPassages (center : Cell) (dir : MapDirection) : Nat × Nat :=
  let h0 := 5592405
  let v0 := 5592405
  match dir with
  | .North =>
    let h1 := if center.north_wall then clear2 h0 6 else h0
    let v1 := if center.east_wall then clear2 v0 6 else v0
    let h2 := if center.south_wall then clear2 h1 8 else h1
    let v2 := if center.west_wall then clear2 v1 4 else v1
    (h2, v2)
  | .South =>
    let h1 := if center.south_wall then clear2 h0 6 else h0
    let v1 := if center.west_wall then clear2 v0 6 else v0
    let h2 := if center.north_wall then clear2 h1 8 else h1
    let v2 := if center.east_wall then clear2 v1 4 else v1
    (h2, v2)
  | .East =>
    let h1 := if center.east_wall then clear2 h0 6 else h0
    let v1 := if center.south_wall then clear2 v0 6 else v0
    let h2 := if center.west_wall then clear2 h1 8 else h1
    let v2 := if center.north_wall then clear2 v1 4 else v1
    (h2, v2)
  | .West =>
    let h1 := if center.west_wall then clear2 h0 6 else h0
    let v1 := if center.north_wall then clear2 v0 6 else v0
    let h2 := if center.east_wall then clear2 h1 8 else h1
    let v2 := if center.south_wall then clear2 v1 4 else v1
    (h2, v2)

/-- encode_radar_view from main.rs lines 1044-1221: passage words from the
center cell's walls, the 3x3 cell nibbles packed little-endian (cell i at bit
4*i, each nibble below 16 so the ors are disjoint and written as addition)
then shifted left by 4, the 11 bytes laid out little-endian per word, and the
result text-encoded with the symbol codec. -/
def encode_radar_view (player_position : Nat × Nat) (player_direction : MapDirection)
    (labyrinth : Labyrinth) : List Char :=
  let x_center := player_position.1
  let y_center := player_position.2
  let center := getG labyrinth.cells defCell y_center x_center
  let hv := radarPassages center player_direction
  let horizontal_passages := hv.1
  let vertical_passages := hv.2
  let offsets : List Int := [-1, 0, 1]
  let cell_values := offsets.flatMap (fun y_offset =>
    offsets.map (fun x_offset =>
      encode_cell labyrinth ((x_center : Int) + x_offset) ((y_center : Int) + y_offset)))
  let packed_cells :=
    (List.range 9).foldl (fun acc i => acc + cell_values.getD i 0 * 16 ^ i) 0
  let packed := packed_cells * 16
  let data :=
    [horizontal_passages % 256, horizontal_passages / 256 % 256,
     horizontal_passages / 65536 % 256,
     vertical_passages % 256, vertical_passages / 256 % 256,
     vertical_passages / 65536 % 256,
     packed % 256, packed / 2 ^ 8 % 256, packed / 2 ^ 16 % 256,
     packed / 2 ^ 24 % 256, packed / 2 ^ 32 % 256]
  Codec.encode data

/-- process_move from main.rs lines 829-881: translate a relative move into a
signed step for the current absolute direction, then clamp each coordinate to
the hard-coded 0..4 range. -/
def process_move (x y : Nat) (current_direction : MapDirection)
    (move_direction : Direction) : Nat × Nat × MapDirection :=
  let step : Int × Int × MapDirection :=
    match current_direction, move_direction with
    | .North, .Front => (0, -1, .North)
    | .South, .Front => (0, 1, .South)
    | .East, .Front => (1, 0, .East)
    | .West, .Front => (-1, 0, .West)
    | .North, .Back => (0, 1, .North)
    | .South, .Back => (0, -1, .South)
    | .East, .Back => (-1, 0, .East)
    | .West, .Back => (1, 0, .West)
    | .North, .Left => (-1, 0, .West)
    | .South, .Left => (1, 0, .East)
    | .East, .Left => (0, -1, .North)
    | .West, .Left => (0, 1, .South)
    | .North, .Right => (1, 0, .East)
    | .South, .Right => (-1, 0, .West)
    | .East, .Right => (0, 1, .South)
    | .West, .Right => (0, -1, .North)
  let dx := step.1
  let dy := step.2.1
  let new_direction := step.2.2
  let new_x := if dx < 0 ∧ 0 < x then x - 1 else if 0 < dx ∧ x < 4 then x + 1 else x
  let new_y := if dy < 0 ∧ 0 < y then y - 1 else if 0 < dy ∧ y < 4 then y + 1 else y
  (new_x, new_y, new_direction)

/-- Iterated move processing: the position and direction after a sequence of
relative moves (used to state that the 5x5 clamp confines every trajectory). -/
def run_moves (start : Nat × Nat × MapDirection) (moves : List Direction) :
    Nat × Nat × MapDirection :=
  moves.foldl (fun st m => process_move st.1 st.2.1 st.2.2 m) start

end Server

/-! ## Client map builder and navigator

From SQP-client/src/player.rs: MapCell (lines 79-85), Coordinates (68-71),
NextDirection (91-94), update_map (865-1024) and find_closest_open (597-802).
The client's map is a `Vec<Vec<MapCell>>` indexed `map[x][y]` whose OUTER
index moves north/south; the embedding keeps the source's variable names.
-/

namespace Client

/-- MapCell from player.rs lines 79-85. -/
structure MapCell where
  north : Boundary
  east : Boundary
  south : Boundary
  west : Boundary
  is_player_here : Bool
deriving DecidableEq

/-- Coordinates from player.rs lines 68-71. -/
structure Coordinates where
  position_x : Nat
  position_y : Nat
deriving DecidableEq

/-- NextDirection from player.rs lines 91-94 (steps is a u64). -/
structure NextDirection where
  direction : MapDirection
  steps : Nat
deriving DecidableEq

/-- Default cell for out-of-range reads: all boundaries Undefined, no player. -/
def defMapCell : MapCell :=
  ⟨.Undefined, .Undefined, .Undefined, .Undefined, false⟩

abbrev MapGrid := List (List MapCell)

/-- The row-major index pairs of a (possibly ragged) grid, each row's indices
running over that row's length less `shrink` (the update_map movement scan
stops one short of each bound, the full scans use `shrink = 0`). -/
def gridIdx (map : List (List α)) (shrink : Nat) : List (Nat × Nat) :=
  (List.range (map.length - shrink)).foldr
    (fun i acc => ((List.range ((map.getD i []).length - shrink)).map (fun j => (i, j))) ++ acc) []

/-- The double scan at the top of find_closest_open (player.rs lines 612-619)
and after growth in update_map (lines 998-1005): the position of the LAST cell
marked is_player_here in row-major order, defaulting to (0, 0). -/
def locate_player (map : MapGrid) : Nat × Nat :=
  (gridIdx map 0).foldl
    (fun acc ij => if (getG map defMapCell ij.1 ij.2).is_player_here then ij else acc) (0, 0)

/-- The movement scan of update_map (lines 873-910): the FIRST is_player_here
hit, ranging only over indices strictly below length - 1 in both dimensions
(the player_moved flag makes later hits inert). -/
def first_player (map : MapGrid) : Option (Nat × Nat) :=
  (gridIdx map 1).find? (fun ij => (getG map defMapCell ij.1 ij.2).is_player_here)

/-- The movement phase body of update_map (lines 875-907): drop the player
flag at (i, j), raise it on the neighbor in the move direction, and mark the
two boundary fields along the traversed edge Checked.  Returns the new grid
and the updated player position. -/
def apply_move (map : MapGrid) (i j : Nat) (direction : MapDirection) :
    MapGrid × Nat × Nat :=
  let m0 := modG map defMapCell i j (fun c => { c with is_player_here := false })
  match direction with
  | .North =>
    let m1 := modG m0 defMapCell (i - 1) j
      (fun c => { c with is_player_here := true, south := Boundary.Checked })
    (modG m1 defMapCell i j (fun c => { c with north := Boundary.Checked }), i - 1, j)
  | .East =>
    let m1 := modG m0 defMapCell i (j + 1)
      (fun c => { c with is_player_here := true, west := Boundary.Checked })
    (modG m1 defMapCell i j (fun c => { c with east := Boundary.Checked }), i, j + 1)
  | .South =>
    let m1 := modG m0 defMapCell (i + 1) j
      (fun c => { c with is_player_here := true, north := Boundary.Checked })
    (modG m1 defMapCell i j (fun c => { c with south := Boundary.Checked }), i + 1, j)
  | .West =>
    let m1 := modG m0 defMapCell i (j - 1)
      (fun c => { c with is_player_here := true, east := Boundary.Checked })
    (modG m1 defMapCell i j (fun c => { c with west := Boundary.Checked }), i, j - 1)

/-- The growth phase of update_map (lines 912-996): when the move put the
player on the map's edge, insert one blank row or column on that side
(rows are assumed rectangular, as they are throughout the client). -/
def grow (map : MapGrid) (direction : MapDirection) (player_x player_y : Nat) : MapGrid :=
  match direction with
  | .North =>
    if player_x = 0 then List.replicate (map.getD 0 []).length defMapCell :: map else map
  | .East =>
    if player_y = (map.getD 0 []).length - 1 then map.map (fun row => row ++ [defMapCell]) else map
  | .South =>
    if player_x = map.length - 1 then map ++ [List.replicate (map.getD 0 []).length defMapCell] else map
  | .West =>
    if player_y = 0 then map.map (fun row => defMapCell :: row) else map

/-- One cell of the merge phase of update_map (lines 1007-1022): each of the
four boundary fields of the target cell takes the patch value only if it is
currently Undefined. -/
def merge_cell (map : MapGrid) (y x : Nat) (patch : MapCell) : MapGrid :=
  modG map defMapCell y x (fun c =>
    { c with
      north := if c.north = Boundary.Undefined then patch.north else c.north,
      east := if c.east = Boundary.Undefined then patch.east else c.east,
      south := if c.south = Boundary.Undefined then patch.south else c.south,
      west := if c.west = Boundary.Undefined then patch.west else c.west })

/-- The merge phase of update_map (lines 1007-1022): write the 3x3 patch
around the player, offset by -1 in both coordinates. -/
def merge_patch (map : MapGrid) (new_map : MapGrid) (player_x player_y : Nat) : MapGrid :=
  (gridIdx new_map 0).foldl
    (fun m ij =>
      merge_cell m (player_x + ij.1 - 1) (player_y + ij.2 - 1)
        (getG new_map defMapCell ij.1 ij.2))
    map

/-- update_map from player.rs lines 865-1024: movement phase, growth phase,
player relocation, then the merge phase. -/
def update_map (map : MapGrid) (new_map : MapGrid) (direction : MapDirection) : MapGrid :=
  let moved :=
    match first_player map with
    | some ij => apply_move map ij.1 ij.2 direction
    | none => (map, 0, 0)
  let map2 := grow moved.1 direction moved.2.1 moved.2.2
  let p := locate_player map2
  merge_patch map2 new_map p.1 p.2

/-- Membership test of the visited-coordinate list threaded through
find_closest_open (the four inner for loops, e.g. lines 672-679). -/
def contains_coord (l : List Coordinates) (x y : Nat) : Bool :=
  l.any (fun c => c.position_x == x && c.position_y == y)

/-- Move the player flag from one cell to another on a cloned map, as done
before each recursive call of find_closest_open (e.g. lines 681-683). -/
def move_player (map : MapGrid) (fx fy tx ty : Nat) : MapGrid :=
  let m1 := modG map defMapCell fx fy (fun c => { c with is_player_here := false })
  modG m1 defMapCell tx ty (fun c => { c with is_player_here := true })

/-- One candidate recursion of find_closest_open (e.g. lines 668-688): if the
boundary is Open or Checked, the target is in range and not on the visited
list, recurse from the moved position; otherwise keep the 999-step default. -/
def fco_try (recurse : MapGrid → NextDirection) (map : MapGrid) (cpm : List Coordinates)
    (px py : Nat) (b : Boundary) (inb : Bool) (tx ty : Nat) (dflt : NextDirection) :
    NextDirection :=
  if (b == Boundary.Open || b == Boundary.Checked) && inb && !contains_coord cpm tx ty
  then recurse (move_player map px py tx ty) else dflt

/-- The selection cascade of find_closest_open (lines 753-801), flattened:
each direction returns if its cost is minimal and nonzero, in the order
North, West, South, East, else fall through to the 0-step default. -/
def fco_select (n w s e : NextDirection) : NextDirection :=
  if n.steps ≤ s.steps ∧ n.steps ≤ e.steps ∧ n.steps ≤ w.steps ∧ n.steps ≠ 0
  then ⟨.North, n.steps + 1⟩
  else if w.steps ≤ n.steps ∧ w.steps ≤ s.steps ∧ w.steps ≤ e.steps ∧ w.steps ≠ 0
  then ⟨.West, w.steps + 1⟩
  else if s.steps ≤ n.steps ∧ s.steps ≤ e.steps ∧ s.steps ≤ w.steps ∧ s.steps ≠ 0
  then ⟨.South, s.steps + 1⟩
  else if e.steps ≤ n.steps ∧ e.steps ≤ s.steps ∧ e.steps ≤ w.steps ∧ e.steps ≠ 0
  then ⟨.East, e.steps + 1⟩
  else ⟨.North, 0⟩

/-- The body of find_closest_open below the depth guard (player.rs lines
609-801), over an abstract recursive call.  Order of the immediate-Open
returns: North, East, South, West (lines 621-641); order of the candidate
recursions: North, West, South, East (lines 668-751). -/
def fco_body (recurse : MapGrid → List Coordinates → Nat → NextDirection)
    (map : MapGrid) (previous_move : List Coordinates) (how_deep : Nat) : NextDirection :=
  let p := locate_player map
  let player_x := p.1
  let player_y := p.2
  let cur := getG map defMapCell player_x player_y
  if cur.north = Boundary.Open then ⟨.North, 1⟩
  else if cur.east = Boundary.Open then ⟨.East, 1⟩
  else if cur.south = Boundary.Open then ⟨.South, 1⟩
  else if cur.west = Boundary.Open then ⟨.West, 1⟩
  else
    let cpm := previous_move ++ [⟨player_x, player_y⟩]
    let lmN := fco_try (fun m => recurse m cpm (how_deep + 1)) map cpm player_x player_y
      cur.north (decide (player_x ≠ 0)) (player_x - 1) player_y ⟨.North, 999⟩
    let lmW := fco_try (fun m => recurse m cpm (how_deep + 1)) map cpm player_x player_y
      cur.west (decide (player_y ≠ 0)) player_x (player_y - 1) ⟨.West, 999⟩
    let lmS := fco_try (fun m => recurse m cpm (how_deep + 1)) map cpm player_x player_y
      cur.south (decide (player_x ≠ map.length - 1)) (player_x + 1) player_y ⟨.South, 999⟩
    let lmE := fco_try (fun m => recurse m cpm (how_deep + 1)) map cpm player_x player_y
      cur.east (decide (player_y ≠ (map.getD 0 []).length - 1)) player_x (player_y + 1)
      ⟨.East, 999⟩
    fco_select lmN lmW lmS lmE

/-- find_closest_open's recursion with structural fuel.  The source guards
the recursion with how_deep > 20; invoked with fuel = 21 - how_deep (as the
wrapper below always does) running out of fuel coincides exactly with that
guard, so the fuel-zero sentinel is the source's depth sentinel. -/
def fco_go : Nat → MapGrid → List Coordinates → Nat → NextDirection
  | 0, _, _, _ => ⟨.North, 999⟩
  | fuel + 1, map, previous_move, how_deep =>
    if 20 < how_deep then ⟨.North, 999⟩
    else fco_body (fun m c d => fco_go fuel m c d) map previous_move how_deep

/-- find_closest_open from player.rs lines 597-802. -/
def find_closest_open (map : MapGrid) (previous_move : List Coordinates)
    (how_deep : Nat) : NextDirection :=
  fco_go (21 - how_deep) map previous_move how_deep

/-- The specification's selection rule for the recursive case of the
navigator: the direction of minimum cost among the four sub-searches, ties
broken in the priority order North, West, South, East, at the minimum cost
plus one. -/
def priority_min (n w s e : Nat) : MapDirection × Nat :=
  let m := min (min n w) (min s e)
  (if n = m then .North else if w = m then .West else if s = m then .South else .East, m + 1)

/-- The cost of one direction's recursive sub-search of find_closest_open,
expressed through find_closest_open itself (the source recursion at depth
how_deep + 1): 999 when the direction is not tried at all. -/
def fco_candidate (map : MapGrid) (prev : List Coordinates) (how_deep px py : Nat)
    (b : Boundary) (inb : Bool) (tx ty : Nat) (dfltDir : MapDirection) : NextDirection :=
  fco_try (fun m => find_closest_open m (prev ++ [⟨px, py⟩]) (how_deep + 1))
    map (prev ++ [⟨px, py⟩]) px py b inb tx ty ⟨dfltDir, 999⟩

end Client

/-! ## Maze generator

From SQP-server/src/maze_generator.rs: Cell (lines 5-13), Maze (29-34),
Direction (38-43), generate_maze (58-151), find_farthest_point (154-204) and
place_hints (207-227).  The carving loop and the rejection-sampling hint loop
carry explicit fuel; the random tape is threaded through every draw.
-/

namespace MazeGen

/-- Cell from maze_generator.rs lines 5-13 (visited is the transient
generation marker). -/
structure Cell where
  north_wall : Bool
  east_wall : Bool
  south_wall : Bool
  west_wall : Bool
  has_hint : Bool
  has_exit : Bool
  visited : Bool
deriving DecidableEq

/-- Cell::new from maze_generator.rs lines 16-26. -/
def Cell.new : Cell :=
  ⟨true, true, true, true, false, false, false⟩

/-- Maze from maze_generator.rs lines 29-34. -/
structure Maze where
  width : Nat
  height : Nat
  cells : List (List Cell)
  exit_position : Nat × Nat
deriving DecidableEq

/-- Direction from maze_generator.rs lines 38-43. -/
inductive Direction where
  | North : Direction
  | East : Direction
  | South : Direction
  | West : Direction
deriving DecidableEq

abbrev Grid := List (List Cell)

/-- The unvisited-neighbor collection of the carving loop (generate_maze
lines 76-96), in source order North, East, South, West. -/
def unvisited_neighbors (cells : Grid) (w h cx cy : Nat) : List (Nat × Nat × Direction) :=
  (if 0 < cy ∧ (getG cells Cell.new (cy - 1) cx).visited = false
   then [(cx, cy - 1, Direction.North)] else []) ++
  (if cx < w - 1 ∧ (getG cells Cell.new cy (cx + 1)).visited = false
   then [(cx + 1, cy, Direction.East)] else []) ++
  (if cy < h - 1 ∧ (getG cells Cell.new (cy + 1) cx).visited = false
   then [(cx, cy + 1, Direction.South)] else []) ++
  (if 0 < cx ∧ (getG cells Cell.new cy (cx - 1)).visited = false
   then [(cx - 1, cy, Direction.West)] else [])

/-- Wall removal between the current cell and the chosen neighbor
(generate_maze lines 102-120): both facing wall flags are cleared. -/
def remove_wall (cells : Grid) (cx cy nx ny : Nat) : Direction → Grid
  | .North =>
    modG (modG cells Cell.new cy cx (fun c => { c with north_wall := false }))
      Cell.new ny nx (fun c => { c with south_wall := false })
  | .East =>
    modG (modG cells Cell.new cy cx (fun c => { c with east_wall := false }))
      Cell.new ny nx (fun c => { c with west_wall := false })
  | .South =>
    modG (modG cells Cell.new cy cx (fun c => { c with south_wall := false }))
      Cell.new ny nx (fun c => { c with north_wall := false })
  | .West =>
    modG (modG cells Cell.new cy cx (fun c => { c with west_wall := false }))
      Cell.new ny nx (fun c => { c with east_wall := false })

/-- Mark a cell visited (generate_maze lines 70 and 123). -/
def set_visited (cells : Grid) (ny nx : Nat) : Grid :=
  modG cells Cell.new ny nx (fun c => { c with visited := true })

/-- The carving while loop of generate_maze (lines 73-129): look at the stack
top, collect unvisited neighbors, either carve to a random one and push it or
pop.  The head of the stack list is the Rust vector's last element. -/
def carve_loop (w h : Nat) : Nat → Grid → List (Nat × Nat) → List Nat →
    Grid × List (Nat × Nat) × List Nat
  | 0, cells, stack, tape => (cells, stack, tape)
  | fuel + 1, cells, stack, tape =>
    match stack with
    | [] => (cells, [], tape)
    | (cx, cy) :: rest =>
      match unvisited_neighbors cells w h cx cy with
      | [] => carve_loop w h fuel cells rest tape
      | ns0 :: nss =>
        let ns := ns0 :: nss
        let r := takeRand tape ns.length
        let pick := ns.getD r.1 (0, 0, Direction.North)
        let cells1 := remove_wall cells cx cy pick.1 pick.2.1 pick.2.2
        let cells2 := set_visited cells1 pick.2.1 pick.1
        carve_loop w h fuel cells2 ((pick.1, pick.2.1) :: (cx, cy) :: rest) r.2

/-- The distance grid vec![vec![None; width]; height] with the start cell at
distance 0 (find_farthest_point lines 161-165). -/
def init_dists (w h sx sy : Nat) : List (List (Option Nat)) :=
  setG (List.replicate h (List.replicate w (none : Option Nat))) sy sx (some 0)

/-- One conditional enqueue of a BFS step (one of the four direction checks
of find_farthest_point lines 178-200): if the target cell is in range behind
an open wall and has no distance yet, record distance + 1 and append it. -/
def ffp_dir (inb : Prop) [Decidable inb] (wall : Bool) (tx ty dist : Nat)
    (s : List ((Nat × Nat) × Nat) × List (List (Option Nat))) :
    List ((Nat × Nat) × Nat) × List (List (Option Nat)) :=
  if inb ∧ wall = false ∧ getG s.2 none ty tx = none
  then (s.1 ++ [((tx, ty), dist + 1)], setG s.2 ty tx (some (dist + 1)))
  else s

/-- The four conditional enqueues of one BFS step (find_farthest_point lines
178-200), in source order North, East, South, West (applied inside out). -/
def ffp_push (cells : Grid) (w h x y dist : Nat)
    (q : List ((Nat × Nat) × Nat)) (dists : List (List (Option Nat))) :
    List ((Nat × Nat) × Nat) × List (List (Option Nat)) :=
  let c := getG cells Cell.new y x
  ffp_dir (0 < x) c.west_wall (x - 1) y dist
    (ffp_dir (y < h - 1) c.south_wall x (y + 1) dist
      (ffp_dir (x < w - 1) c.east_wall (x + 1) y dist
        (ffp_dir (0 < y) c.north_wall x (y - 1) dist (q, dists))))

/-- The BFS while loop of find_farthest_point (lines 171-201): dequeue, track
the first strictly-greater distance as the farthest point, enqueue open
unvisited neighbors. -/
def ffp_loop (cells : Grid) (w h : Nat) : Nat → List ((Nat × Nat) × Nat) →
    List (List (Option Nat)) → (Nat × Nat) → Nat → Nat × Nat
  | 0, _, _, farthest, _ => farthest
  | _ + 1, [], _, farthest, _ => farthest
  | fuel + 1, ((x, y), dist) :: rest, dists, farthest, maxd =>
    let far := if maxd < dist then ((x, y), dist) else (farthest, maxd)
    let next := ffp_push cells w h x y dist rest dists
    ffp_loop cells w h fuel next.1 next.2 far.1 far.2

/-- find_farthest_point from maze_generator.rs lines 154-204.  The loop
dequeues one entry per iteration and enqueues each cell at most once, so
w * h + 1 units of fuel always drain the queue. -/
def find_farthest_point (cells : Grid) (start_x start_y w h : Nat) : Nat × Nat :=
  ffp_loop cells w h (w * h + 1) [((start_x, start_y), 0)]
    (init_dists w h start_x start_y) (start_x, start_y) 0

/-- The same BFS loop recording the dequeue order (the visit order of the
specification's exit-placement rule) instead of folding the maximum. -/
def bfs_trace_loop (cells : Grid) (w h : Nat) : Nat → List ((Nat × Nat) × Nat) →
    List (List (Option Nat)) → List ((Nat × Nat) × Nat)
  | 0, _, _ => []
  | _ + 1, [], _ => []
  | fuel + 1, ((x, y), dist) :: rest, dists =>
    let next := ffp_push cells w h x y dist rest dists
    ((x, y), dist) :: bfs_trace_loop cells w h fuel next.1 next.2

/-- The BFS visit order from a start cell, with the same fuel as
find_farthest_point. -/
def bfs_trace (cells : Grid) (start_x start_y w h : Nat) : List ((Nat × Nat) × Nat) :=
  bfs_trace_loop cells w h (w * h + 1) [((start_x, start_y), 0)]
    (init_dists w h start_x start_y)

/-- The maximum distance occurring in a BFS trace. -/
def max_dist (l : List ((Nat × Nat) × Nat)) : Nat :=
  l.foldr (fun e m => max e.2 m) 0

/-- The first-visited cell at maximum distance of a BFS trace. -/
def first_visited_at_max (l : List ((Nat × Nat) × Nat)) : Nat × Nat :=
  match l.find? (fun e => e.2 == max_dist l) with
  | some e => e.1
  | none => (0, 0)

/-- The last-visited cell at maximum distance of a BFS trace (the
specification's wording of the exit-placement rule). -/
def last_visited_at_max (l : List ((Nat × Nat) × Nat)) : Nat × Nat :=
  match l.reverse.find? (fun e => e.2 == max_dist l) with
  | some e => e.1
  | none => (0, 0)

/-- The number of hints place_hints places: (width.min(height) / 2).max(1)
(maze_generator.rs line 209). -/
def num_hints (w h : Nat) : Nat :=
  max (min w h / 2) 1

/-- The rejection-sampling inner loop of place_hints (lines 216-223): draw
positions until one is neither the exit nor already hinted. -/
def pick_hint (cells : Grid) (w h : Nat) (exit_pos : Nat × Nat) :
    Nat → List Nat → Option ((Nat × Nat) × List Nat)
  | 0, _ => none
  | fuel + 1, tape =>
    let rx := takeRand tape w
    let ry := takeRand rx.2 h
    let hint_x := rx.1
    let hint_y := ry.1
    if (hint_x ≠ exit_pos.1 ∨ hint_y ≠ exit_pos.2) ∧
        (getG cells Cell.new hint_y hint_x).has_hint = false
    then some ((hint_x, hint_y), ry.2)
    else pick_hint cells w h exit_pos fuel ry.2

/-- The outer for loop of place_hints (lines 211-226): place `n` hints, each
through the rejection-sampling loop. -/
def place_hints_loop (w h : Nat) (exit_pos : Nat × Nat) (inner_fuel : Nat) :
    Nat → Grid → List Nat → Option (Grid × List Nat)
  | 0, cells, tape => some (cells, tape)
  | n + 1, cells, tape =>
    match pick_hint cells w h exit_pos inner_fuel tape with
    | none => none
    | some (p, tape2) =>
      place_hints_loop w h exit_pos inner_fuel n
        (modG cells Cell.new p.2 p.1 (fun c => { c with has_hint := true })) tape2

/-- place_hints from maze_generator.rs lines 207-227. -/
def place_hints (cells : Grid) (w h : Nat) (exit_pos : Nat × Nat)
    (tape : List Nat) (inner_fuel : Nat) : Option (Grid × List Nat) :=
  place_hints_loop w h exit_pos inner_fuel (num_hints w h) cells tape

/-- Drop the transient visited markers (generate_maze lines 139-143). -/
def clear_visited (cells : Grid) : Grid :=
  cells.map (fun row => row.map (fun c => { c with visited := false }))

/-- generate_maze from maze_generator.rs lines 58-151: random start, carving,
farthest-point exit, hints, then clear the visited markers.  Returns none if
the carving fuel left the stack nonempty (never happens from 2 * w * h fuel
up) or the hint fuel ran out (which the rejection sampling can force). -/
def generate_maze (w h : Nat) (tape : List Nat) (carve_fuel inner_fuel : Nat) :
    Option Maze :=
  let r1 := takeRand tape w
  let r2 := takeRand r1.2 h
  let start_x := r1.1
  let start_y := r2.1
  let cells0 := set_visited (List.replicate h (List.replicate w Cell.new)) start_y start_x
  let res := carve_loop w h carve_fuel cells0 [(start_x, start_y)] r2.2
  match res.2.1 with
  | _ :: _ => none
  | [] =>
    let cells := res.1
    let ex := find_farthest_point cells start_x start_y w h
    let cells1 := modG cells Cell.new ex.2 ex.1 (fun c => { c with has_exit := true })
    match place_hints cells1 w h ex res.2.2 inner_fuel with
    | none => none
    | some (cells2, _) => some ⟨w, h, clear_visited cells2, ex⟩

/-- The exit cell generate_maze computes for a given tape: the farthest point
of the carved grid from the random start (generate_maze line 132). -/
def gm_exit (w h : Nat) (tape : List Nat) (carve_fuel : Nat) : Nat × Nat :=
  let r1 := takeRand tape w
  let r2 := takeRand r1.2 h
  let start_x := r1.1
  let start_y := r2.1
  let cells0 := set_visited (List.replicate h (List.replicate w Cell.new)) start_y start_x
  let res := carve_loop w h carve_fuel cells0 [(start_x, start_y)] r2.2
  find_farthest_point res.1 start_x start_y w h

end MazeGen

/-! ## Concrete inputs used by counterexamples and witnesses -/

namespace Server

/-- A cell with all four walls. -/
def wallCell : Cell := ⟨true, true, true, true, false, false⟩

/-- A cell with no walls. -/
def openCell : Cell := ⟨false, false, false, false, false, false⟩

/-- The 3x3 labyrinth of the server's own test_encode_radar_view (main.rs
lines 1230-1318): outer ring fully walled, center cell open. -/
def testLaby : Labyrinth :=
  ⟨3, 3, [[wallCell, wallCell, wallCell], [wallCell, openCell, wallCell],
          [wallCell, wallCell, wallCell]], (1, 1)⟩

/-- The 3x3 labyrinth of the end-to-end scenario: every cell fully walled, so
in particular the center cell (1, 1) has all four walls. -/
def laby3 : Labyrinth :=
  ⟨3, 3, [[wallCell, wallCell, wallCell], [wallCell, wallCell, wallCell],
          [wallCell, wallCell, wallCell]], (0, 0)⟩

end Server

namespace Client

/-- A map cell with a learned Open north boundary carrying the player. -/
def openNorthCell : MapCell := ⟨.Open, .Undefined, .Undefined, .Undefined, true⟩

/-- A 4x3 client map with the player at (2, 1); the player's cell has a
learned Open north boundary.  Concrete input for the update_map claim. -/
def m6 : MapGrid :=
  [[defMapCell, defMapCell, defMapCell],
   [defMapCell, defMapCell, defMapCell],
   [defMapCell, openNorthCell, defMapCell],
   [defMapCell, defMapCell, defMapCell]]

/-- An all-Undefined 3x3 patch. -/
def patch3 : MapGrid :=
  [[defMapCell, defMapCell, defMapCell],
   [defMapCell, defMapCell, defMapCell],
   [defMapCell, defMapCell, defMapCell]]

end Client

namespace MazeGen

/-- A 3x1 carved corridor, open between cells 0-1 and 1-2: from start (1, 0)
both ends are at BFS distance 1 and the first- and last-visited cells at
maximum distance differ. -/
def cexCells : Grid :=
  [[⟨true, false, true, true, false, false, false⟩,
    ⟨true, false, true, false, false, false, false⟩,
    ⟨true, true, true, false, false, false, false⟩]]

/-- The concrete maze generate_maze produces on a 2x2 grid from the all-zero
tape with carving fuel 8 and hint fuel 4 (it succeeds; see the witnesses). -/
def mz0 : Maze :=
  (generate_maze 2 2 [] 8 4).getD ⟨0, 0, [], (0, 0)⟩

/-- The number of cells place_hints can still pick: in range, not the exit,
not yet hinted. -/
def admissible_count (cells : Grid) (w h : Nat) (ep : Nat × Nat) : Nat :=
  (pairs w h).countP (fun yx =>
    decide (¬(yx.1 = ep.2 ∧ yx.2 = ep.1)) && !(getG cells Cell.new yx.1 yx.2).has_hint)

/-- One step between orthogonally adjacent in-range cells through a missing
wall, exactly the adjacencies the carving opens and the exit BFS walks.
Positions are (x, y); the grid is read cells[y][x]. -/
inductive OpenStep (cells : Grid) (w h : Nat) : Nat × Nat → Nat × Nat → Prop where
  | north (x y : Nat) (hx : x < w) (hy : y + 1 < h)
      (hw : (getG cells Cell.new (y + 1) x).north_wall = false) :
      OpenStep cells w h (x, y + 1) (x, y)
  | east (x y : Nat) (hx : x + 1 < w) (hy : y < h)
      (hw : (getG cells Cell.new y x).east_wall = false) :
      OpenStep cells w h (x, y) (x + 1, y)
  | south (x y : Nat) (hx : x < w) (hy : y + 1 < h)
      (hw : (getG cells Cell.new y x).south_wall = false) :
      OpenStep cells w h (x, y) (x, y + 1)
  | west (x y : Nat) (hx : x + 1 < w) (hy : y < h)
      (hw : (getG cells Cell.new y (x + 1)).west_wall = false) :
      OpenStep cells w h (x + 1, y) (x, y)

/-- Reachability along wall-less adjacencies. -/
def Reachable (cells : Grid) (w h : Nat) : Nat × Nat → Nat × Nat → Prop :=
  Relation.ReflTransGen (OpenStep cells w h)

/-- The number of missing north walls plus missing west walls of in-range
cells.  Under the carving's wall symmetry every opened edge is counted
exactly once (by its southern or its eastern endpoint). -/
def openEdgeCount (cells : Grid) (w h : Nat) : Nat :=
  gridCount cells Cell.new w h (fun c => !c.north_wall) +
    gridCount cells Cell.new w h (fun c => !c.west_wall)

/-- The number of visited in-range cells. -/
def visitedCount (cells : Grid) (w h : Nat) : Nat :=
  gridCount cells Cell.new w h (fun c => c.visited)

/-- The invariant of the carving loop: well-formed dimensions, the start
visited, symmetric walls, untouched walls around unvisited cells, a stack of
visited in-range cells, every visited cell reachable from the start, every
visited cell off the stack surrounded by visited neighbors, and one opened
edge fewer than there are visited cells. -/
structure CarveInv (cells : Grid) (w h sx sy : Nat) (stack : List (Nat × Nat)) : Prop where
  dims : Dims cells w h
  start_visited : (getG cells Cell.new sy sx).visited = true
  symNS : ∀ x y, x < w → y + 1 < h →
    ((getG cells Cell.new (y + 1) x).north_wall = false ↔
      (getG cells Cell.new y x).south_wall = false)
  symEW : ∀ x y, x + 1 < w → y < h →
    ((getG cells Cell.new y x).east_wall = false ↔
      (getG cells Cell.new y (x + 1)).west_wall = false)
  unvisited_walls : ∀ x y, x < w → y < h → (getG cells Cell.new y x).visited = false →
    (getG cells Cell.new y x).north_wall = true ∧ (getG cells Cell.new y x).east_wall = true ∧
    (getG cells Cell.new y x).south_wall = true ∧ (getG cells Cell.new y x).west_wall = true
  stack_ok : ∀ p ∈ stack, p.1 < w ∧ p.2 < h ∧ (getG cells Cell.new p.2 p.1).visited = true
  reach : ∀ x y, x < w → y < h → (getG cells Cell.new y x).visited = true →
    Reachable cells w h (sx, sy) (x, y)
  closed : ∀ x y, x < w → y < h → (getG cells Cell.new y x).visited = true →
    (x, y) ∈ stack ∨
      ((0 < y → (getG cells Cell.new (y - 1) x).visited = true) ∧
       (x + 1 < w → (getG cells Cell.new y (x + 1)).visited = true) ∧
       (y + 1 < h → (getG cells Cell.new (y + 1) x).visited = true) ∧
       (0 < x → (getG cells Cell.new y (x - 1)).visited = true))
  count : visitedCount cells w h = openEdgeCount cells w h + 1

end MazeGen

/-! ## Theorems -/

/-- Except equality is decidable once both components' equality is. -/
instance {ε α : Type} [DecidableEq ε] [DecidableEq α] : DecidableEq (Except ε α) := fun a b =>
  match a, b with
  | .ok x, .ok y => if h : x = y then .isTrue (by simp [h]) else .isFalse (by simp [h])
  | .ok _, .error _ => .isFalse (by simp)
  | .error _, .ok _ => .isFalse (by simp)
  | .error x, .error y => if h : x = y then .isTrue (by simp [h]) else .isFalse (by simp [h])

/-! ### List and grid access lemmas -/

theorem getD_set_self (l : List α) (i : Nat) (v d : α) (h : i < l.length) :
    (l.set i v).getD i d = v := by
  induction l generalizing i with
  | nil => simp at h
  | cons a as ih =>
    cases i with
    | zero => rfl
    | succ n => exact ih n (by simpa using h)

theorem getD_set_ne (l : List α) (i j : Nat) (v d : α) (h : i ≠ j) :
    (l.set j v).getD i d = l.getD i d := by
  induction l generalizing i j with
  | nil => simp [List.set]
  | cons a as ih =>
    cases j with
    | zero =>
      cases i with
      | zero => exact absurd rfl h
      | succ n => rfl
    | succ m =>
      cases i with
      | zero => rfl
      | succ n => exact ih n m (by omega)

theorem getD_eq_default (l : List α) (i : Nat) (d : α) (h : l.length ≤ i) :
    l.getD i d = d := by
  induction l generalizing i with
  | nil => cases i <;> rfl
  | cons a as ih =>
    cases i with
    | zero => simp at h
    | succ n => exact ih n (by simpa using h)

theorem set_of_length_le (l : List α) (i : Nat) (v : α) (h : l.length ≤ i) :
    l.set i v = l := by
  induction l generalizing i with
  | nil => rfl
  | cons a as ih =>
    cases i with
    | zero => simp at h
    | succ n => simpa using ih n (by simpa using h)

theorem set_getD_self (l : List α) (i : Nat) (d : α) :
    l.set i (l.getD i d) = l := by
  induction l generalizing i with
  | nil => rfl
  | cons a as ih =>
    cases i with
    | zero => rfl
    | succ n => simpa using ih n

theorem length_setG (g : List (List α)) (y x : Nat) (v : α) :
    (setG g y x v).length = g.length := by
  simp [setG]

theorem rowlen_setG (g : List (List α)) (y x y' : Nat) (v : α) :
    ((setG g y x v).getD y' []).length = (g.getD y' []).length := by
  unfold setG
  by_cases h : y' = y
  · subst h
    by_cases hy : y' < g.length
    · rw [getD_set_self _ _ _ _ hy]
      simp
    · rw [set_of_length_le _ _ _ (by omega)]
  · rw [getD_set_ne _ _ _ _ _ h]

/-- Full characterization of reading a grid after a write. -/
theorem getG_setG (g : List (List α)) (d : α) (y x y' x' : Nat) (v : α) :
    getG (setG g y' x' v) d y x =
      if y = y' ∧ x = x' ∧ y' < g.length ∧ x' < (g.getD y' []).length then v
      else getG g d y x := by
  unfold getG setG
  by_cases hy : y = y'
  · subst hy
    by_cases hylen : y < g.length
    · rw [getD_set_self _ _ _ _ hylen]
      by_cases hx : x = x'
      · subst hx
        by_cases hxlen : x < (g.getD y []).length
        · rw [if_pos ⟨rfl, rfl, hylen, hxlen⟩, getD_set_self _ _ _ _ hxlen]
        · rw [if_neg (by tauto), set_of_length_le _ _ _ (by omega)]
      · rw [if_neg (by tauto), getD_set_ne _ _ _ _ _ hx]
    · rw [if_neg (by tauto), set_of_length_le _ _ _ (by omega)]
  · rw [if_neg (by tauto), getD_set_ne _ _ _ _ _ hy]

theorem getG_setG_self (g : List (List α)) (d : α) (y x : Nat) (v : α)
    (hy : y < g.length) (hx : x < (g.getD y []).length) :
    getG (setG g y x v) d y x = v := by
  rw [getG_setG, if_pos ⟨rfl, rfl, hy, hx⟩]

theorem getG_setG_ne (g : List (List α)) (d : α) (y x y' x' : Nat) (v : α)
    (h : ¬(y = y' ∧ x = x')) :
    getG (setG g y' x' v) d y x = getG g d y x := by
  rw [getG_setG, if_neg (by tauto)]

theorem getG_modG (g : List (List α)) (d : α) (y x y' x' : Nat) (f : α → α) :
    getG (modG g d y' x' f) d y x =
      if y = y' ∧ x = x' ∧ y' < g.length ∧ x' < (g.getD y' []).length
      then f (getG g d y' x') else getG g d y x := by
  unfold modG
  rw [getG_setG]

theorem length_modG (g : List (List α)) (d : α) (y x : Nat) (f : α → α) :
    (modG g d y x f).length = g.length := length_setG ..

theorem rowlen_modG (g : List (List α)) (d : α) (y x y' : Nat) (f : α → α) :
    ((modG g d y x f).getD y' []).length = (g.getD y' []).length := rowlen_setG ..

/-! ### C1: symbol-codec round trip -/

namespace Codec

theorem char_to_value_alphabet : ∀ v, v < 64 → char_to_value (alphabet.getD v ' ') = some v := by
  decide

theorem byteVals_lt : ∀ b : List Nat, ∀ v ∈ byteVals b, v < 64 := by
  intro b
  induction b using byteVals.induct with
  | case1 => simp [byteVals]
  | case2 b0 =>
    simp only [byteVals, chunkVals, List.take, List.mem_cons, List.not_mem_nil, or_false]
    rintro v (rfl | rfl) <;> omega
  | case3 b0 b1 =>
    simp only [byteVals, chunkVals, List.take, List.mem_cons, List.not_mem_nil, or_false]
    rintro v (rfl | rfl | rfl) <;> omega
  | case4 b0 b1 b2 rest ih =>
    simp only [byteVals, chunkVals, List.mem_append, List.mem_cons, List.not_mem_nil, or_false]
    rintro v ((rfl | rfl | rfl | rfl) | hv)
    · omega
    · omega
    · omega
    · omega
    · exact ih v hv

theorem toValues_map : ∀ vs : List Nat, (∀ v ∈ vs, v < 64) →
    toValues (vs.map (fun v => alphabet.getD v ' ')) = .ok vs := by
  intro vs hvs
  induction vs with
  | nil => rfl
  | cons v vs ih =>
    simp only [List.map_cons, toValues]
    rw [char_to_value_alphabet v (hvs v (by simp))]
    rw [ih (fun u hu => hvs u (by simp [hu]))]

theorem decodeValues_pair (v0 v1 : Nat) :
    decodeValues [v0, v1] = .ok [v0 * 4 + v1 / 16] := rfl

theorem decodeValues_triple (v0 v1 v2 : Nat) :
    decodeValues [v0, v1, v2] = .ok [v0 * 4 + v1 / 16, v1 % 16 * 16 + v2 / 4] := rfl

theorem decodeValues_cons4 (v0 v1 v2 v3 : Nat) (rest : List Nat) :
    decodeValues (v0 :: v1 :: v2 :: v3 :: rest) =
      match decodeValues rest with
      | .error e => .error e
      | .ok bs =>
        .ok ([v0 * 4 + v1 / 16, v1 % 16 * 16 + v2 / 4, v2 % 4 * 64 + v3] ++ bs) := rfl

theorem decodeValues_byteVals : ∀ b : List Nat, (∀ x ∈ b, x < 256) →
    decodeValues (byteVals b) = .ok b := by
  intro b
  induction b using byteVals.induct with
  | case1 => intro; rfl
  | case2 b0 =>
    intro hb
    have h0 : b0 < 256 := hb b0 (by simp)
    have heq : byteVals [b0] = [b0 / 4 % 64, b0 % 4 * 16 + 0 / 16 % 16] := by
      simp [byteVals, chunkVals]
    rw [heq, decodeValues_pair]
    have e0 : b0 / 4 % 64 * 4 + (b0 % 4 * 16 + 0 / 16 % 16) / 16 = b0 := by omega
    rw [e0]
  | case3 b0 b1 =>
    intro hb
    have h0 : b0 < 256 := hb b0 (by simp)
    have h1 : b1 < 256 := hb b1 (by simp)
    have heq : byteVals [b0, b1] =
        [b0 / 4 % 64, b0 % 4 * 16 + b1 / 16 % 16, b1 % 16 * 4 + 0 / 64 % 4] := by
      simp [byteVals, chunkVals]
    rw [heq, decodeValues_triple]
    have e0 : b0 / 4 % 64 * 4 + (b0 % 4 * 16 + b1 / 16 % 16) / 16 = b0 := by omega
    have e1 : (b0 % 4 * 16 + b1 / 16 % 16) % 16 * 16 + (b1 % 16 * 4 + 0 / 64 % 4) / 4 = b1 := by
      omega
    rw [e0, e1]
  | case4 b0 b1 b2 rest ih =>
    intro hb
    have h0 : b0 < 256 := hb b0 (by simp)
    have h1 : b1 < 256 := hb b1 (by simp)
    have h2 : b2 < 256 := hb b2 (by simp)
    have hrest : ∀ x ∈ rest, x < 256 := fun x hx => hb x (by simp [hx])
    have heq : byteVals (b0 :: b1 :: b2 :: rest) =
        b0 / 4 % 64 :: (b0 % 4 * 16 + b1 / 16 % 16) :: (b1 % 16 * 4 + b2 / 64 % 4) ::
          b2 % 64 :: byteVals rest := by
      simp [byteVals, chunkVals]
    rw [heq, decodeValues_cons4, ih hrest]
    have e0 : b0 / 4 % 64 * 4 + (b0 % 4 * 16 + b1 / 16 % 16) / 16 = b0 := by omega
    have e1 : (b0 % 4 * 16 + b1 / 16 % 16) % 16 * 16 + (b1 % 16 * 4 + b2 / 64 % 4) / 4 = b1 := by
      omega
    have e2 : (b1 % 16 * 4 + b2 / 64 % 4) % 4 * 64 + b2 % 64 = b2 := by omega
    exact congrArg Except.ok (by rw [e0, e1, e2]; rfl)

theorem encode_length_mod : ∀ b : List Nat, (encode b).length % 4 ≠ 1 := by
  intro b
  unfold encode
  rw [List.length_map]
  induction b using byteVals.induct with
  | case1 => simp [byteVals]
  | case2 b0 => simp [byteVals, chunkVals]
  | case3 b0 b1 => simp [byteVals, chunkVals]
  | case4 b0 b1 b2 rest ih =>
    simp only [byteVals, List.length_append, chunkVals, List.length_cons, List.length_nil]
    omega

end Codec

/-- Claim C1: for every byte sequence b, decoding the symbol-codec encoding
of b succeeds and returns b, and the encoded text's length is never congruent
to 1 modulo 4. -/
theorem C1_codec_round_trip (b : List Nat) (hb : ∀ x ∈ b, x < 256) :
    Codec.decode (Codec.encode b) = .ok b ∧ (Codec.encode b).length % 4 ≠ 1 := by
  have hlen := Codec.encode_length_mod b
  refine ⟨?_, hlen⟩
  unfold Codec.decode
  rw [if_neg hlen]
  unfold Codec.encode
  rw [Codec.toValues_map _ (Codec.byteVals_lt b)]
  exact Codec.decodeValues_byteVals b hb

/-- Witness for C1 at the byte sequence [72, 101, 108, 108, 111] (a prefix of
the repository's own Hello, World! test vector). -/
theorem C1_codec_round_trip_witness :
    (∀ x ∈ [72, 101, 108, 108, 111], x < 256) ∧
      (Codec.decode (Codec.encode [72, 101, 108, 108, 111]) = .ok [72, 101, 108, 108, 111] ∧
        (Codec.encode [72, 101, 108, 108, 111]).length % 4 ≠ 1) :=
  ⟨by decide, C1_codec_round_trip [72, 101, 108, 108, 111] (by decide)⟩

/-! ### C4: passage extraction from the radar bytes -/

theorem getD_map_range (n i : Nat) (f : Nat → α) (d : α) (h : i < n) :
    ((List.range n).map f).getD i d = f i := by
  rw [List.getD_eq_getElem?_getD, List.getElem?_map, List.getElem?_range h]
  rfl

/-- Claim C4: for every 3-byte input, parse_passages assembles the 24-bit
integer as byte2 * 2^16 + byte1 * 2^8 + byte0, reads passage i from the two
bits at offset (11 - i) * 2, and maps the codes 00, 01, 10, 11 to Undefined
(the specification's Unknown), Open, Wall and Error (the specification's
Invalid); the four all-same-code byte vectors give the four constant passage
lists. -/
theorem C4_parse_passages_bits :
    (∀ b0 b1 b2 i : Nat, i < 12 →
      (Client.parse_passages [b0, b1, b2] 12).getD i Client.Boundary.Error =
        (match (b2 * 65536 + b1 * 256 + b0) / 2 ^ ((11 - i) * 2) % 4 with
          | 0 => Client.Boundary.Undefined
          | 1 => Client.Boundary.Open
          | 2 => Client.Boundary.Wall
          | _ => Client.Boundary.Error)) ∧
    Client.parse_passages [0, 0, 0] 12 = List.replicate 12 Client.Boundary.Undefined ∧
    Client.parse_passages [85, 85, 85] 12 = List.replicate 12 Client.Boundary.Open ∧
    Client.parse_passages [170, 170, 170] 12 = List.replicate 12 Client.Boundary.Wall ∧
    Client.parse_passages [255, 255, 255] 12 = List.replicate 12 Client.Boundary.Error := by
  refine ⟨?_, by decide, by decide, by decide, by decide⟩
  intro b0 b1 b2 i hi
  unfold Client.parse_passages
  rw [if_neg (by simp)]
  rw [getD_map_range _ _ _ _ hi]
  rfl

/-- Witness for C4 at the byte triple (21, 84, 85) (the horizontal-passage
bytes the stub radar encoder emits for an all-walls center) and slot 7, whose
2-bit code is 00. -/
theorem C4_parse_passages_bits_witness :
    (7 : Nat) < 12 ∧
      (Client.parse_passages [21, 84, 85] 12).getD 7 Client.Boundary.Error =
        (match (85 * 65536 + 84 * 256 + 21) / 2 ^ ((11 - 7) * 2) % 4 with
          | 0 => Client.Boundary.Undefined
          | 1 => Client.Boundary.Open
          | 2 => Client.Boundary.Wall
          | _ => Client.Boundary.Error) :=
  ⟨by decide, C4_parse_passages_bits.1 21 84 85 7 (by decide)⟩

/-! ### C10: the hard-coded 5x5 move clamp -/

/-- Claim C10: process_move clamps both coordinates to 0..4, so from any
position inside the 5x5 square every sequence of relative moves stays inside
it, and cells with a coordinate above 4 are unreachable by moves. -/
theorem C10_process_move_clamp :
    (∀ (x y : Nat) (cd : MapDirection) (md : Direction), x ≤ 4 → y ≤ 4 →
      (Server.process_move x y cd md).1 ≤ 4 ∧ (Server.process_move x y cd md).2.1 ≤ 4) ∧
    (∀ (start : Nat × Nat × MapDirection) (moves : List Direction),
      start.1 ≤ 4 → start.2.1 ≤ 4 →
      (Server.run_moves start moves).1 ≤ 4 ∧ (Server.run_moves start moves).2.1 ≤ 4) := by
  have step : ∀ (x y : Nat) (cd : MapDirection) (md : Direction), x ≤ 4 → y ≤ 4 →
      (Server.process_move x y cd md).1 ≤ 4 ∧ (Server.process_move x y cd md).2.1 ≤ 4 := by
    intro x y cd md hx hy
    cases cd <;> cases md <;> dsimp [Server.process_move] <;>
      constructor <;> (try split_ifs) <;> omega
  refine ⟨step, ?_⟩
  intro start moves
  induction moves generalizing start with
  | nil => intro hx hy; exact ⟨hx, hy⟩
  | cons m ms ih =>
    intro hx hy
    have h := step start.1 start.2.1 start.2.2 m hx hy
    exact ih _ h.1 h.2

/-- Witness for C10 from the corner (4, 4) facing North: a Right then Front
walk stays clamped. -/
theorem C10_process_move_clamp_witness :
    ((4 : Nat) ≤ 4 ∧ (4 : Nat) ≤ 4 ∧
      (Server.process_move 4 4 .North .Right).1 ≤ 4 ∧
        (Server.process_move 4 4 .North .Right).2.1 ≤ 4) ∧
    ((Server.run_moves (4, 4, .North) [.Right, .Front, .Left]).1 ≤ 4 ∧
      (Server.run_moves (4, 4, .North) [.Right, .Front, .Left]).2.1 ≤ 4) :=
  ⟨⟨by decide, by decide,
      (C10_process_move_clamp.1 4 4 .North .Right (by decide) (by decide)).1,
      (C10_process_move_clamp.1 4 4 .North .Right (by decide) (by decide)).2⟩,
    C10_process_move_clamp.2 (4, 4, .North) [.Right, .Front, .Left] (by decide) (by decide)⟩

/-! ### C5: the end-to-end radar scenario -/

/-- Claim C5 (code bug): for the 3x3 maze whose center cell has all four
walls, player at (1, 1) facing North, the radar pipeline does NOT mark any
passage Wall: the wall clears write the 2-bit code 00 (Undefined), not 10
(Wall), so the decoded passage lists hold only Open and Undefined.  The last
two conjuncts record that on the labyrinth of the server's own
test_encode_radar_view the encoder also disagrees with the string that test
asserts. -/
theorem C5_radar_center_walls_lost :
    Codec.decode (Server.encode_radar_view (1, 1) .North Server.laby3) =
      .ok [21, 84, 85, 5, 85, 85, 0, 0, 0, 0, 0] ∧
    Client.parse_passages [21, 84, 85] 12 =
      [.Open, .Open, .Open, .Open, .Open, .Open, .Open, .Undefined, .Undefined,
       .Open, .Open, .Open] ∧
    Client.parse_passages [5, 85, 85] 12 =
      [.Open, .Open, .Open, .Open, .Open, .Open, .Open, .Open, .Undefined,
       .Undefined, .Open, .Open] ∧
    ((Client.parse_passages [21, 84, 85] 12).all
        (fun b => !(b == Client.Boundary.Wall)) = true ∧
      (Client.parse_passages [5, 85, 85] 12).all
        (fun b => !(b == Client.Boundary.Wall)) = true) ∧
    Server.encode_radar_view (1, 1) .North Server.testLaby = "vvvvvvvvaaaaaaa".toList ∧
    "vvvvvvvvaaaaaaa".toList ≠ "beeqkcGO8p8p8pa".toList :=
  ⟨by decide, by decide, by decide, ⟨by decide, by decide⟩, by decide, by decide⟩

/-! ### C6: update_map and already-known boundaries -/

/-- Counterexample to C6 as stated: update_map overwrites the player cell's
previously learned Open north boundary with Checked during the movement
phase. -/
theorem C6_overwrite_counterexample :
    (getG Client.m6 Client.defMapCell 2 1).north = Client.Boundary.Open ∧
    (getG (Client.update_map Client.m6 Client.patch3 .North) Client.defMapCell 2 1).north =
      Client.Boundary.Checked ∧
    Client.Boundary.Open ≠ Client.Boundary.Checked :=
  ⟨by decide, by decide, by decide⟩

theorem merge_cell_fields (m : Client.MapGrid) (yy xx : Nat) (p : Client.MapCell) (y x : Nat) :
    ((getG (Client.merge_cell m yy xx p) Client.defMapCell y x).north =
        (getG m Client.defMapCell y x).north ∨
      (getG m Client.defMapCell y x).north = Client.Boundary.Undefined) ∧
    ((getG (Client.merge_cell m yy xx p) Client.defMapCell y x).east =
        (getG m Client.defMapCell y x).east ∨
      (getG m Client.defMapCell y x).east = Client.Boundary.Undefined) ∧
    ((getG (Client.merge_cell m yy xx p) Client.defMapCell y x).south =
        (getG m Client.defMapCell y x).south ∨
      (getG m Client.defMapCell y x).south = Client.Boundary.Undefined) ∧
    ((getG (Client.merge_cell m yy xx p) Client.defMapCell y x).west =
        (getG m Client.defMapCell y x).west ∨
      (getG m Client.defMapCell y x).west = Client.Boundary.Undefined) := by
  unfold Client.merge_cell
  rw [getG_modG]
  split
  case isTrue h =>
    obtain ⟨hy, hx, _, _⟩ := h
    subst hy
    subst hx
    dsimp
    refine ⟨?_, ?_, ?_, ?_⟩ <;>
      first
        | (by_cases hc : (getG m Client.defMapCell y x).north = Client.Boundary.Undefined
           · exact Or.inr hc
           · exact Or.inl (by simp [hc]))
        | (by_cases hc : (getG m Client.defMapCell y x).east = Client.Boundary.Undefined
           · exact Or.inr hc
           · exact Or.inl (by simp [hc]))
        | (by_cases hc : (getG m Client.defMapCell y x).south = Client.Boundary.Undefined
           · exact Or.inr hc
           · exact Or.inl (by simp [hc]))
        | (by_cases hc : (getG m Client.defMapCell y x).west = Client.Boundary.Undefined
           · exact Or.inr hc
           · exact Or.inl (by simp [hc]))
  case isFalse =>
    exact ⟨Or.inl rfl, Or.inl rfl, Or.inl rfl, Or.inl rfl⟩

/-- Claim C6 amended: the MERGE phase of update_map writes a boundary value
only into fields currently Undefined — every already-known field survives the
merge unchanged.  (The movement phase, by contrast, overwrites the two fields
along the traversed edge with Checked, as the counterexample shows.) -/
theorem C6_merge_writes_only_undefined (map patch : Client.MapGrid) (px py y x : Nat) :
    ((getG map Client.defMapCell y x).north ≠ Client.Boundary.Undefined →
      (getG (Client.merge_patch map patch px py) Client.defMapCell y x).north =
        (getG map Client.defMapCell y x).north) ∧
    ((getG map Client.defMapCell y x).east ≠ Client.Boundary.Undefined →
      (getG (Client.merge_patch map patch px py) Client.defMapCell y x).east =
        (getG map Client.defMapCell y x).east) ∧
    ((getG map Client.defMapCell y x).south ≠ Client.Boundary.Undefined →
      (getG (Client.merge_patch map patch px py) Client.defMapCell y x).south =
        (getG map Client.defMapCell y x).south) ∧
    ((getG map Client.defMapCell y x).west ≠ Client.Boundary.Undefined →
      (getG (Client.merge_patch map patch px py) Client.defMapCell y x).west =
        (getG map Client.defMapCell y x).west) := by
  unfold Client.merge_patch
  generalize Client.gridIdx patch 0 = l
  induction l generalizing map with
  | nil => exact ⟨fun _ => rfl, fun _ => rfl, fun _ => rfl, fun _ => rfl⟩
  | cons ij rest ih =>
    have hc := merge_cell_fields map (px + ij.1 - 1) (py + ij.2 - 1)
      (getG patch Client.defMapCell ij.1 ij.2) y x
    have ihm := ih (Client.merge_cell map (px + ij.1 - 1) (py + ij.2 - 1)
      (getG patch Client.defMapCell ij.1 ij.2))
    refine ⟨?_, ?_, ?_, ?_⟩
    · intro hne
      rcases hc.1 with he | he
      · rw [List.foldl_cons]
        rw [ihm.1 (by rw [he]; exact hne), he]
      · exact absurd he hne
    · intro hne
      rcases hc.2.1 with he | he
      · rw [List.foldl_cons]
        rw [ihm.2.1 (by rw [he]; exact hne), he]
      · exact absurd he hne
    · intro hne
      rcases hc.2.2.1 with he | he
      · rw [List.foldl_cons]
        rw [ihm.2.2.1 (by rw [he]; exact hne), he]
      · exact absurd he hne
    · intro hne
      rcases hc.2.2.2 with he | he
      · rw [List.foldl_cons]
        rw [ihm.2.2.2 (by rw [he]; exact hne), he]
      · exact absurd he hne

/-- Witness for the amended C6 at the concrete map of the counterexample:
the Open north boundary of the player's cell survives the merge phase. -/
theorem C6_merge_writes_only_undefined_witness :
    (getG Client.m6 Client.defMapCell 2 1).north ≠ Client.Boundary.Undefined ∧
      (getG (Client.merge_patch Client.m6 Client.patch3 2 1) Client.defMapCell 2 1).north =
        (getG Client.m6 Client.defMapCell 2 1).north :=
  ⟨by decide, (C6_merge_writes_only_undefined Client.m6 Client.patch3 2 1 2 1).1 (by decide)⟩

/-! ### C7: the navigator's search discipline -/

namespace Client

theorem fco_go_succ (fuel : Nat) (map : MapGrid) (prev : List Coordinates) (d : Nat) :
    fco_go (fuel + 1) map prev d =
      if 20 < d then ⟨.North, 999⟩
      else fco_body (fun m c dd => fco_go fuel m c dd) map prev d := rfl

theorem fco_try_steps_pos (r : MapGrid → NextDirection) (map : MapGrid)
    (cpm : List Coordinates) (px py : Nat) (b : Boundary) (inb : Bool) (tx ty : Nat)
    (dflt : NextDirection) (hr : ∀ m, 1 ≤ (r m).steps) (hd : 1 ≤ dflt.steps) :
    1 ≤ (fco_try r map cpm px py b inb tx ty dflt).steps := by
  unfold fco_try
  split
  · exact hr _
  · exact hd

theorem fco_select_steps_pos (n w s e : NextDirection)
    (hn : 1 ≤ n.steps) (hw : 1 ≤ w.steps) (hs : 1 ≤ s.steps) (he : 1 ≤ e.steps) :
    1 ≤ (fco_select n w s e).steps := by
  unfold fco_select
  split_ifs <;> dsimp <;> omega

theorem fco_go_steps_pos : ∀ (fuel : Nat) (map : MapGrid) (prev : List Coordinates) (d : Nat),
    1 ≤ (fco_go fuel map prev d).steps := by
  intro fuel
  induction fuel with
  | zero => intro map prev d; exact Nat.le_of_eq rfl |>.trans (by norm_num [fco_go])
  | succ k ih =>
    intro map prev d
    rw [fco_go_succ]
    split
    · norm_num
    · unfold fco_body
      dsimp only
      split_ifs <;> try norm_num
      exact fco_select_steps_pos _ _ _ _
        (fco_try_steps_pos _ _ _ _ _ _ _ _ _ _ (fun m => ih m _ _) (by norm_num))
        (fco_try_steps_pos _ _ _ _ _ _ _ _ _ _ (fun m => ih m _ _) (by norm_num))
        (fco_try_steps_pos _ _ _ _ _ _ _ _ _ _ (fun m => ih m _ _) (by norm_num))
        (fco_try_steps_pos _ _ _ _ _ _ _ _ _ _ (fun m => ih m _ _) (by norm_num))

theorem fco_select_eq_priority_min (n w s e : NextDirection)
    (hn : 1 ≤ n.steps) (hw : 1 ≤ w.steps) (hs : 1 ≤ s.steps) (he : 1 ≤ e.steps) :
    fco_select n w s e =
      ⟨(priority_min n.steps w.steps s.steps e.steps).1,
        (priority_min n.steps w.steps s.steps e.steps).2⟩ := by
  unfold fco_select priority_min
  dsimp only
  split_ifs <;>
    first
      | rfl
      | (exfalso; omega)
      | (congr 1; omega)

theorem fco_body_opens (r : MapGrid → List Coordinates → Nat → NextDirection)
    (map : MapGrid) (prev : List Coordinates) (d px py : Nat)
    (hp : locate_player map = (px, py)) :
    ((getG map defMapCell px py).north = Boundary.Open →
      fco_body r map prev d = ⟨.North, 1⟩) ∧
    ((getG map defMapCell px py).north ≠ Boundary.Open →
      (getG map defMapCell px py).east = Boundary.Open →
      fco_body r map prev d = ⟨.East, 1⟩) ∧
    ((getG map defMapCell px py).north ≠ Boundary.Open →
      (getG map defMapCell px py).east ≠ Boundary.Open →
      (getG map defMapCell px py).south = Boundary.Open →
      fco_body r map prev d = ⟨.South, 1⟩) ∧
    ((getG map defMapCell px py).north ≠ Boundary.Open →
      (getG map defMapCell px py).east ≠ Boundary.Open →
      (getG map defMapCell px py).south ≠ Boundary.Open →
      (getG map defMapCell px py).west = Boundary.Open →
      fco_body r map prev d = ⟨.West, 1⟩) := by
  unfold fco_body
  rw [hp]
  dsimp only
  refine ⟨?_, ?_, ?_, ?_⟩
  · intro h1
    rw [if_pos h1]
  · intro h1 h2
    rw [if_neg h1, if_pos h2]
  · intro h1 h2 h3
    rw [if_neg h1, if_neg h2, if_pos h3]
  · intro h1 h2 h3 h4
    rw [if_neg h1, if_neg h2, if_neg h3, if_pos h4]

theorem fco_body_rec (r : MapGrid → List Coordinates → Nat → NextDirection)
    (map : MapGrid) (prev : List Coordinates) (d px py : Nat)
    (hp : locate_player map = (px, py))
    (h1 : (getG map defMapCell px py).north ≠ Boundary.Open)
    (h2 : (getG map defMapCell px py).east ≠ Boundary.Open)
    (h3 : (getG map defMapCell px py).south ≠ Boundary.Open)
    (h4 : (getG map defMapCell px py).west ≠ Boundary.Open) :
    fco_body r map prev d =
      fco_select
        (fco_try (fun m => r m (prev ++ [⟨px, py⟩]) (d + 1)) map (prev ++ [⟨px, py⟩]) px py
          (getG map defMapCell px py).north (decide (px ≠ 0)) (px - 1) py ⟨.North, 999⟩)
        (fco_try (fun m => r m (prev ++ [⟨px, py⟩]) (d + 1)) map (prev ++ [⟨px, py⟩]) px py
          (getG map defMapCell px py).west (decide (py ≠ 0)) px (py - 1) ⟨.West, 999⟩)
        (fco_try (fun m => r m (prev ++ [⟨px, py⟩]) (d + 1)) map (prev ++ [⟨px, py⟩]) px py
          (getG map defMapCell px py).south (decide (px ≠ map.length - 1)) (px + 1) py
          ⟨.South, 999⟩)
        (fco_try (fun m => r m (prev ++ [⟨px, py⟩]) (d + 1)) map (prev ++ [⟨px, py⟩]) px py
          (getG map defMapCell px py).east (decide (py ≠ (map.getD 0 []).length - 1)) px
          (py + 1) ⟨.East, 999⟩) := by
  unfold fco_body
  rw [hp]
  dsimp only
  rw [if_neg h1, if_neg h2, if_neg h3, if_neg h4]

end Client

/-- Claim C7: find_closest_open (1) returns the 999 sentinel whenever the
recursion depth exceeds 20; (2) if a boundary of the player's cell is Open it
returns that direction with cost 1 (scanning North, East, South, West);
(3) otherwise it returns the direction whose recursive sub-search (at depth
+ 1, 999 for untried directions) has minimum cost, plus 1, ties broken in the
priority order North, West, South, East. -/
theorem C7_find_closest_open_search :
    (∀ (map : Client.MapGrid) (prev : List Client.Coordinates) (d : Nat), 20 < d →
      Client.find_closest_open map prev d = ⟨.North, 999⟩) ∧
    (∀ (map : Client.MapGrid) (prev : List Client.Coordinates) (d px py : Nat),
      d ≤ 20 → Client.locate_player map = (px, py) →
      (((getG map Client.defMapCell px py).north = Client.Boundary.Open →
          Client.find_closest_open map prev d = ⟨.North, 1⟩) ∧
        ((getG map Client.defMapCell px py).north ≠ Client.Boundary.Open →
          (getG map Client.defMapCell px py).east = Client.Boundary.Open →
          Client.find_closest_open map prev d = ⟨.East, 1⟩) ∧
        ((getG map Client.defMapCell px py).north ≠ Client.Boundary.Open →
          (getG map Client.defMapCell px py).east ≠ Client.Boundary.Open →
          (getG map Client.defMapCell px py).south = Client.Boundary.Open →
          Client.find_closest_open map prev d = ⟨.South, 1⟩) ∧
        ((getG map Client.defMapCell px py).north ≠ Client.Boundary.Open →
          (getG map Client.defMapCell px py).east ≠ Client.Boundary.Open →
          (getG map Client.defMapCell px py).south ≠ Client.Boundary.Open →
          (getG map Client.defMapCell px py).west = Client.Boundary.Open →
          Client.find_closest_open map prev d = ⟨.West, 1⟩))) ∧
    (∀ (map : Client.MapGrid) (prev : List Client.Coordinates) (d px py : Nat),
      d ≤ 20 → Client.locate_player map = (px, py) →
      (getG map Client.defMapCell px py).north ≠ Client.Boundary.Open →
      (getG map Client.defMapCell px py).east ≠ Client.Boundary.Open →
      (getG map Client.defMapCell px py).south ≠ Client.Boundary.Open →
      (getG map Client.defMapCell px py).west ≠ Client.Boundary.Open →
      Client.find_closest_open map prev d =
        ⟨(Client.priority_min
            (Client.fco_candidate map prev d px py (getG map Client.defMapCell px py).north
              (decide (px ≠ 0)) (px - 1) py .North).steps
            (Client.fco_candidate map prev d px py (getG map Client.defMapCell px py).west
              (decide (py ≠ 0)) px (py - 1) .West).steps
            (Client.fco_candidate map prev d px py (getG map Client.defMapCell px py).south
              (decide (px ≠ map.length - 1)) (px + 1) py .South).steps
            (Client.fco_candidate map prev d px py (getG map Client.defMapCell px py).east
              (decide (py ≠ (map.getD 0 []).length - 1)) px (py + 1) .East).steps).1,
          (Client.priority_min
            (Client.fco_candidate map prev d px py (getG map Client.defMapCell px py).north
              (decide (px ≠ 0)) (px - 1) py .North).steps
            (Client.fco_candidate map prev d px py (getG map Client.defMapCell px py).west
              (decide (py ≠ 0)) px (py - 1) .West).steps
            (Client.fco_candidate map prev d px py (getG map Client.defMapCell px py).south
              (decide (px ≠ map.length - 1)) (px + 1) py .South).steps
            (Client.fco_candidate map prev d px py (getG map Client.defMapCell px py).east
              (decide (py ≠ (map.getD 0 []).length - 1)) px (py + 1) .East).steps).2⟩) := by
  refine ⟨?_, ?_, ?_⟩
  · intro map prev d hd
    unfold Client.find_closest_open
    rw [show 21 - d = 0 from by omega]
    rfl
  · intro map prev d px py hd hp
    obtain ⟨k, hk21⟩ : ∃ k, 21 - d = k + 1 := ⟨20 - d, by omega⟩
    unfold Client.find_closest_open
    rw [hk21, Client.fco_go_succ, if_neg (by omega)]
    exact Client.fco_body_opens _ map prev d px py hp
  · intro map prev d px py hd hp h1 h2 h3 h4
    obtain ⟨k, hk21⟩ : ∃ k, 21 - d = k + 1 := ⟨20 - d, by omega⟩
    have hk : k = 21 - (d + 1) := by omega
    subst hk
    unfold Client.find_closest_open
    rw [hk21, Client.fco_go_succ, if_neg (by omega)]
    rw [Client.fco_body_rec _ map prev d px py hp h1 h2 h3 h4]
    exact Client.fco_select_eq_priority_min _ _ _ _
      (Client.fco_try_steps_pos _ _ _ _ _ _ _ _ _ _
        (fun m => Client.fco_go_steps_pos _ m _ _) (by norm_num))
      (Client.fco_try_steps_pos _ _ _ _ _ _ _ _ _ _
        (fun m => Client.fco_go_steps_pos _ m _ _) (by norm_num))
      (Client.fco_try_steps_pos _ _ _ _ _ _ _ _ _ _
        (fun m => Client.fco_go_steps_pos _ m _ _) (by norm_num))
      (Client.fco_try_steps_pos _ _ _ _ _ _ _ _ _ _
        (fun m => Client.fco_go_steps_pos _ m _ _) (by norm_num))

/-- Witness for C7: the depth sentinel beyond depth 20, the immediate Open
return on the counterexample map (player at (2, 1), north Open), and the
recursive selection on the all-Undefined 3x3 patch. -/
theorem C7_find_closest_open_search_witness :
    Client.find_closest_open Client.patch3 [] 21 = ⟨.North, 999⟩ ∧
    Client.find_closest_open Client.m6 [] 0 = ⟨.North, 1⟩ ∧
    Client.find_closest_open Client.patch3 [] 0 =
      ⟨(Client.priority_min
          (Client.fco_candidate Client.patch3 [] 0 0 0 Client.Boundary.Undefined
            (decide ((0 : Nat) ≠ 0)) (0 - 1) 0 .North).steps
          (Client.fco_candidate Client.patch3 [] 0 0 0 Client.Boundary.Undefined
            (decide ((0 : Nat) ≠ 0)) 0 (0 - 1) .West).steps
          (Client.fco_candidate Client.patch3 [] 0 0 0 Client.Boundary.Undefined
            (decide ((0 : Nat) ≠ Client.patch3.length - 1)) (0 + 1) 0 .South).steps
          (Client.fco_candidate Client.patch3 [] 0 0 0 Client.Boundary.Undefined
            (decide ((0 : Nat) ≠ (Client.patch3.getD 0 []).length - 1)) 0 (0 + 1) .East).steps).1,
        (Client.priority_min
          (Client.fco_candidate Client.patch3 [] 0 0 0 Client.Boundary.Undefined
            (decide ((0 : Nat) ≠ 0)) (0 - 1) 0 .North).steps
          (Client.fco_candidate Client.patch3 [] 0 0 0 Client.Boundary.Undefined
            (decide ((0 : Nat) ≠ 0)) 0 (0 - 1) .West).steps
          (Client.fco_candidate Client.patch3 [] 0 0 0 Client.Boundary.Undefined
            (decide ((0 : Nat) ≠ Client.patch3.length - 1)) (0 + 1) 0 .South).steps
          (Client.fco_candidate Client.patch3 [] 0 0 0 Client.Boundary.Undefined
            (decide ((0 : Nat) ≠ (Client.patch3.getD 0 []).length - 1)) 0 (0 + 1) .East).steps).2⟩ :=
  ⟨C7_find_closest_open_search.1 Client.patch3 [] 21 (by decide),
    (C7_find_closest_open_search.2.1 Client.m6 [] 0 2 1 (by decide) (by decide)).1 (by decide),
    C7_find_closest_open_search.2.2 Client.patch3 [] 0 0 0 (by decide) (by decide)
      (by decide) (by decide) (by decide) (by decide)⟩

/-! ### C2: exit placement by farthest point -/

namespace MazeGen

/-- The max-tracking BFS loop is the strict-improvement fold over the BFS
dequeue trace. -/
theorem ffp_loop_eq_foldl (cells : Grid) (w h : Nat) :
    ∀ (fuel : Nat) (q : List ((Nat × Nat) × Nat)) (dists : List (List (Option Nat)))
      (best : Nat × Nat) (maxd : Nat),
      ffp_loop cells w h fuel q dists best maxd =
        (List.foldl (fun (bm : (Nat × Nat) × Nat) e => if bm.2 < e.2 then e else bm)
          (best, maxd) (bfs_trace_loop cells w h fuel q dists)).1 := by
  intro fuel
  induction fuel with
  | zero => intros; rfl
  | succ k ih =>
    intro q dists best maxd
    cases q with
    | nil => rfl
    | cons e rest =>
      obtain ⟨⟨x, y⟩, dist⟩ := e
      show ffp_loop cells w h k _ _
          (if maxd < dist then ((x, y), dist) else (best, maxd)).1
          (if maxd < dist then ((x, y), dist) else (best, maxd)).2 = _
      rw [ih]
      congr 1

/-- A fold that only improves strictly never moves once the running maximum
dominates the rest of the trace. -/
theorem foldl_max_no_update :
    ∀ (l : List ((Nat × Nat) × Nat)) (p : (Nat × Nat) × Nat), max_dist l ≤ p.2 →
      List.foldl (fun (bm : (Nat × Nat) × Nat) e => if bm.2 < e.2 then e else bm) p l = p := by
  intro l
  induction l with
  | nil => intro p _; rfl
  | cons e rest ih =>
    intro p hp
    have he : e.2 ≤ p.2 := le_trans (le_max_left _ _) hp
    have hrest : max_dist rest ≤ p.2 := le_trans (le_max_right _ _) hp
    show List.foldl _ (if p.2 < e.2 then e else p) rest = p
    rw [if_neg (by omega)]
    exact ih p hrest

/-- The strict-improvement fold lands on the FIRST entry of maximum
distance, unless the initial maximum already dominates the whole trace. -/
theorem foldl_max_spec :
    ∀ (l : List ((Nat × Nat) × Nat)) (b : Nat × Nat) (m : Nat),
      (max_dist l ≤ m →
        List.foldl (fun (bm : (Nat × Nat) × Nat) e => if bm.2 < e.2 then e else bm) (b, m) l
          = (b, m)) ∧
      (m < max_dist l →
        ∃ e, l.find? (fun e => e.2 == max_dist l) = some e ∧
          List.foldl (fun (bm : (Nat × Nat) × Nat) e => if bm.2 < e.2 then e else bm) (b, m) l
            = e) := by
  intro l
  induction l with
  | nil =>
    intro b m
    exact ⟨fun _ => rfl, fun h => absurd h (by simp [max_dist])⟩
  | cons e rest ih =>
    intro b m
    constructor
    · intro hle
      exact foldl_max_no_update (e :: rest) (b, m) hle
    · intro hlt
      have hmax : max_dist (e :: rest) = max e.2 (max_dist rest) := rfl
      by_cases hcase : max_dist rest ≤ e.2
      · -- the head achieves the maximum
        have hme : max_dist (e :: rest) = e.2 := by rw [hmax]; omega
        have hfind : (e :: rest).find? (fun e' => e'.2 == max_dist (e :: rest)) = some e := by
          rw [List.find?_cons_of_pos _ (by simp [hme])]
        refine ⟨e, hfind, ?_⟩
        show List.foldl _ (if m < e.2 then e else (b, m)) rest = e
        rw [if_pos (by omega)]
        exact foldl_max_no_update rest e (by omega)
      · -- the maximum is reached strictly later
        have hme : max_dist (e :: rest) = max_dist rest := by rw [hmax]; omega
        have hfind : (e :: rest).find? (fun e' => e'.2 == max_dist (e :: rest)) =
            rest.find? (fun e' => e'.2 == max_dist (e :: rest)) :=
          List.find?_cons_of_neg _ (by simp [hme]; omega)
        by_cases hm : m < e.2
        · obtain ⟨d, hfind', hfold⟩ := (ih e.1 e.2).2 (by omega)
          refine ⟨d, ?_, ?_⟩
          · rw [hfind]
            simpa [hme] using hfind'
          · show List.foldl _ (if m < e.2 then e else (b, m)) rest = d
            rw [if_pos hm]
            rw [show e = (e.1, e.2) from rfl]
            exact hfold
        · obtain ⟨d, hfind', hfold⟩ := (ih b m).2 (by omega)
          refine ⟨d, ?_, ?_⟩
          · rw [hfind]
            simpa [hme] using hfind'
          · show List.foldl _ (if m < e.2 then e else (b, m)) rest = d
            rw [if_neg hm]
            exact hfold

end MazeGen

/-- Counterexample to C2 as stated: on the 3x1 open corridor with start
(1, 0), both ends sit at the maximum BFS distance 1; find_farthest_point
returns the FIRST-visited one, (2, 0), not the last-visited one, (0, 0) —
its tracker updates only on strictly greater distances. -/
theorem C2_last_visited_counterexample :
    MazeGen.find_farthest_point MazeGen.cexCells 1 0 3 1 = (2, 0) ∧
    MazeGen.last_visited_at_max (MazeGen.bfs_trace MazeGen.cexCells 1 0 3 1) = (0, 0) ∧
    ((2, 0) : Nat × Nat) ≠ ((0, 0) : Nat × Nat) :=
  ⟨by decide, by decide, by decide⟩

/-- Claim C2 amended: the exit cell is the FIRST-visited cell, in BFS
dequeue order, at maximum breadth-first-search distance from the start
(following only wall-less adjacencies), and generate_maze records exactly
the farthest point of the carved grid as its exit position. -/
theorem C2_exit_is_first_visited_at_max :
    (∀ (cells : MazeGen.Grid) (sx sy w h : Nat),
      MazeGen.find_farthest_point cells sx sy w h =
        MazeGen.first_visited_at_max (MazeGen.bfs_trace cells sx sy w h)) ∧
    (∀ (w h : Nat) (tape : List Nat) (cf hf : Nat) (maze : MazeGen.Maze),
      MazeGen.generate_maze w h tape cf hf = some maze →
      maze.exit_position = MazeGen.gm_exit w h tape cf) := by
  constructor
  · intro cells sx sy w h
    unfold MazeGen.find_farthest_point MazeGen.first_visited_at_max MazeGen.bfs_trace
    rw [MazeGen.ffp_loop_eq_foldl]
    rcases le_or_lt (MazeGen.max_dist (MazeGen.bfs_trace_loop cells w h (w * h + 1)
      [((sx, sy), 0)] (MazeGen.init_dists w h sx sy))) 0 with hle | hlt
    · rw [(MazeGen.foldl_max_spec _ (sx, sy) 0).1 hle]
      have h0 : MazeGen.max_dist (MazeGen.bfs_trace_loop cells w h (w * h + 1)
          [((sx, sy), 0)] (MazeGen.init_dists w h sx sy)) = 0 := by omega
      have hhead : MazeGen.bfs_trace_loop cells w h (w * h + 1) [((sx, sy), 0)]
          (MazeGen.init_dists w h sx sy) =
            ((sx, sy), 0) :: MazeGen.bfs_trace_loop cells w h (w * h)
              (MazeGen.ffp_push cells w h sx sy 0 [] (MazeGen.init_dists w h sx sy)).1
              (MazeGen.ffp_push cells w h sx sy 0 [] (MazeGen.init_dists w h sx sy)).2 := rfl
      rw [hhead] at h0 ⊢
      rw [List.find?_cons_of_pos _ (by simp [h0])]
    · obtain ⟨e, hfind, hfold⟩ := (MazeGen.foldl_max_spec _ (sx, sy) 0).2 hlt
      rw [hfold, hfind]
  · intro w h tape cf hf maze hsome
    unfold MazeGen.generate_maze at hsome
    dsimp only at hsome
    split at hsome
    · exact absurd hsome (by simp)
    · split at hsome
      · exact absurd hsome (by simp)
      · cases hsome
        rfl

/-- Witness for the second part of the amended C2 at the concrete 2x2
generation run. -/
theorem C2_exit_is_first_visited_at_max_witness :
    MazeGen.generate_maze 2 2 [] 8 4 = some MazeGen.mz0 ∧
      MazeGen.mz0.exit_position = MazeGen.gm_exit 2 2 [] 8 :=
  ⟨by decide, C2_exit_is_first_visited_at_max.2 2 2 [] 8 4 MazeGen.mz0 (by decide)⟩

/-! ### Counting cells over a grid -/

theorem mem_pairs (w : Nat) : ∀ (h y x : Nat), (y, x) ∈ pairs w h ↔ y < h ∧ x < w := by
  intro h
  induction h with
  | zero => simp [pairs]
  | succ k ih =>
    intro y x
    simp only [pairs, List.mem_append, List.mem_map, List.mem_range, ih, Prod.mk.injEq]
    constructor
    · rintro (⟨hy, hx⟩ | ⟨a, ha, rfl, rfl⟩)
      · exact ⟨by omega, hx⟩
      · exact ⟨by omega, ha⟩
    · rintro ⟨hy, hx⟩
      by_cases hyk : y < k
      · exact Or.inl ⟨hyk, hx⟩
      · exact Or.inr ⟨x, hx, by omega, rfl⟩

theorem length_pairs (w : Nat) : ∀ h, (pairs w h).length = h * w := by
  intro h
  induction h with
  | zero => simp [pairs]
  | succ k ih => simp [pairs, ih, Nat.succ_mul]

theorem nodup_pairs (w : Nat) : ∀ h, (pairs w h).Nodup := by
  intro h
  induction h with
  | zero => simp [pairs]
  | succ k ih =>
    refine List.Nodup.append ih ?_ ?_
    · exact (List.nodup_range w).map (fun a b hab => by simpa using hab)
    · intro a ha hb
      obtain ⟨y, x⟩ := a
      have h1 := (mem_pairs w k y x).1 ha
      simp only [List.mem_map, List.mem_range, Prod.mk.injEq] at hb
      omega

/-- Counting a predicate that differs at exactly one list member, flipping it
from false to true, adds one. -/
theorem countP_flip (q q' : β → Bool) :
    ∀ (l : List β) (b : β), l.Nodup → b ∈ l → (∀ a ∈ l, a ≠ b → q' a = q a) →
      q b = false → q' b = true → l.countP q' = l.countP q + 1 := by
  intro l
  induction l with
  | nil => intro b _ hb; simp at hb
  | cons a rest ih =>
    intro b hnd hmem hother hqb hqb'
    rcases List.mem_cons.1 hmem with rfl | hb
    · have hrest : ∀ x ∈ rest, q' x = q x := by
        intro x hx
        exact hother x (List.mem_cons_of_mem _ hx)
          (fun hxb => (List.nodup_cons.1 hnd).1 (hxb ▸ hx))
      rw [List.countP_cons, List.countP_cons, hqb, hqb',
        List.countP_congr (fun x hx => by rw [hrest x hx])]
      simp
    · have hab : a ≠ b := fun hab => (List.nodup_cons.1 hnd).1 (hab ▸ hb)
      rw [List.countP_cons, List.countP_cons,
        ih b (List.nodup_cons.1 hnd).2 hb
          (fun x hx hxb => hother x (List.mem_cons_of_mem _ hx) hxb) hqb hqb',
        hother a (List.mem_cons_self a rest) hab]
      omega

/-- Pointwise-equal predicates over the grid count equally. -/
theorem gridCount_congr (g g' : List (List α)) (d : α) (w h : Nat) (p : α → Bool)
    (hpt : ∀ y x, y < h → x < w → p (getG g' d y x) = p (getG g d y x)) :
    gridCount g' d w h p = gridCount g d w h p := by
  unfold gridCount
  refine List.countP_congr ?_
  intro yx hyx
  obtain ⟨y, x⟩ := yx
  have hm := (mem_pairs w h y x).1 hyx
  rw [hpt y x hm.1 hm.2]

/-- A field-preserving cell update leaves every grid read's image under `P`
unchanged. -/
theorem getG_modG_pres (g : List (List α)) (d : α) (y x : Nat) (f : α → α)
    (P : α → β) (hf : ∀ c, P (f c) = P c) (y' x' : Nat) :
    P (getG (modG g d y x f) d y' x') = P (getG g d y' x') := by
  rw [getG_modG]
  split
  case isTrue hcond =>
    obtain ⟨rfl, rfl, _, _⟩ := hcond
    exact hf _
  case isFalse => rfl

/-- A field-preserving cell update leaves every grid count unchanged. -/
theorem gridCount_modG_pres (g : List (List α)) (d : α) (w h : Nat) (p : α → Bool)
    (y x : Nat) (f : α → α) (hf : ∀ c, p (f c) = p c) :
    gridCount (modG g d y x f) d w h p = gridCount g d w h p :=
  gridCount_congr g (modG g d y x f) d w h p
    (fun y' x' _ _ => getG_modG_pres g d y x f p hf y' x')

/-- Updating one in-range cell so that the predicate flips from false to true
adds exactly one to the grid count. -/
theorem gridCount_modG_flip (g : List (List α)) (d : α) (w h : Nat) (p : α → Bool)
    (y x : Nat) (f : α → α) (hdims : Dims g w h) (hy : y < h) (hx : x < w)
    (hold : p (getG g d y x) = false) (hnew : p (f (getG g d y x)) = true) :
    gridCount (modG g d y x f) d w h p = gridCount g d w h p + 1 := by
  unfold gridCount
  refine countP_flip _ _ (pairs w h) (y, x) (nodup_pairs w h)
    ((mem_pairs w h y x).2 ⟨hy, hx⟩) ?_ hold ?_
  · intro a ha hab
    obtain ⟨y', x'⟩ := a
    have hne : ¬(y' = y ∧ x' = x) := by
      intro hc
      exact hab (by rw [hc.1, hc.2])
    dsimp only
    rw [getG_modG, if_neg (by tauto)]
  · dsimp only
    rw [getG_modG, if_pos ⟨rfl, rfl, by rw [hdims.1]; exact hy,
      by rw [hdims.2 y hy]; exact hx⟩]
    exact hnew

theorem dims_setG (g : List (List α)) (w h y x : Nat) (v : α) (hd : Dims g w h) :
    Dims (setG g y x v) w h := by
  refine ⟨by rw [length_setG]; exact hd.1, ?_⟩
  intro y' hy'
  rw [rowlen_setG]
  exact hd.2 y' hy'

theorem dims_modG (g : List (List α)) (d : α) (w h y x : Nat) (f : α → α)
    (hd : Dims g w h) : Dims (modG g d y x f) w h :=
  dims_setG g w h y x _ hd

theorem getD_replicate (n i : Nat) (a d : α) :
    (List.replicate n a).getD i d = if i < n then a else d := by
  induction n generalizing i with
  | zero => cases i <;> simp
  | succ k ih =>
    cases i with
    | zero => simp
    | succ j =>
      rw [List.replicate_succ]
      show (List.replicate k a).getD j d = _
      rw [ih]
      simp only [Nat.succ_lt_succ_iff]

theorem getG_replicate (w h : Nat) (c : α) (y x : Nat) :
    getG (List.replicate h (List.replicate w c)) c y x = c := by
  unfold getG
  rw [getD_replicate]
  split
  · rw [getD_replicate]
    split <;> rfl
  · cases x <;> rfl

theorem dims_replicate (w h : Nat) (c : α) :
    Dims (List.replicate h (List.replicate w c)) w h := by
  refine ⟨by simp, ?_⟩
  intro y hy
  rw [getD_replicate, if_pos hy]
  simp

/-- A grid whose reads never satisfy the predicate counts zero. -/
theorem gridCount_eq_zero (g : List (List α)) (d : α) (w h : Nat) (p : α → Bool)
    (hpt : ∀ y x, y < h → x < w → p (getG g d y x) = false) :
    gridCount g d w h p = 0 := by
  unfold gridCount
  rw [List.countP_eq_zero]
  intro a ha
  obtain ⟨y, x⟩ := a
  have := (mem_pairs w h y x).1 ha
  simp [hpt y x this.1 this.2]

theorem countP_lt_length (l : List β) (q : β → Bool) (b : β) (hb : b ∈ l)
    (hqb : q b = false) : l.countP q < l.length := by
  induction l with
  | nil => simp at hb
  | cons a rest ih =>
    rw [List.countP_cons, List.length_cons]
    rcases List.mem_cons.1 hb with rfl | hbr
    · have := List.countP_le_length (l := rest) (p := q)
      simp [hqb]
      omega
    · have := ih hbr
      by_cases hqa : q a = true <;> simp [hqa] <;> omega

theorem countP_ne_nodup [DecidableEq β] (b : β) :
    ∀ l : List β, l.Nodup → b ∈ l →
      l.countP (fun a => decide (¬a = b)) + 1 = l.length := by
  intro l
  induction l with
  | nil => intro _ hb; simp at hb
  | cons a rest ih =>
    intro hnd hb
    rw [List.countP_cons, List.length_cons]
    rcases List.mem_cons.1 hb with rfl | hbr
    · have hrest : rest.countP (fun a => decide (¬a = b)) = rest.length := by
        rw [List.countP_eq_length]
        intro x hx
        simp only [decide_eq_true_eq]
        exact fun hxb => (List.nodup_cons.1 hnd).1 (hxb ▸ hx)
      rw [hrest]
      simp
    · have hab : ¬a = b := fun hab => (List.nodup_cons.1 hnd).1 (hab ▸ hbr)
      have hih := ih (List.nodup_cons.1 hnd).2 hbr
      simp only [decide_not] at hih
      simp [hab]
      omega

/-! ### C9: termination of place_hints -/

namespace MazeGen

theorem pick_hint_spec (cells : Grid) (w h : Nat) (ep : Nat × Nat)
    (hw : 0 < w) (hh : 0 < h) :
    ∀ (fuel : Nat) (tape : List Nat) (p : Nat × Nat) (t2 : List Nat),
      pick_hint cells w h ep fuel tape = some (p, t2) →
      p.1 < w ∧ p.2 < h ∧ p ≠ ep ∧ (getG cells Cell.new p.2 p.1).has_hint = false := by
  intro fuel
  induction fuel with
  | zero => intro tape p t2 hp; exact absurd hp (by simp [pick_hint])
  | succ k ih =>
    intro tape p t2 hp
    unfold pick_hint at hp
    dsimp only at hp
    split at hp
    case isTrue hcond =>
      cases hp
      refine ⟨Nat.mod_lt _ hw, Nat.mod_lt _ hh, ?_, hcond.2⟩
      intro hpe
      have h1 : tape.headD 0 % w = ep.1 := congrArg Prod.fst hpe
      have h2 : tape.tail.headD 0 % h = ep.2 := congrArg Prod.snd hpe
      rcases hcond.1 with hne | hne
      · exact hne h1
      · exact hne h2
    case isFalse => exact ih _ p t2 hp

theorem place_hints_loop_spec (w h : Nat) (ep : Nat × Nat) (ifuel : Nat)
    (hw : 0 < w) (hh : 0 < h) :
    ∀ (n : Nat) (cells : Grid) (tape : List Nat) (cells2 : Grid) (t2 : List Nat),
      Dims cells w h →
      place_hints_loop w h ep ifuel n cells tape = some (cells2, t2) →
      Dims cells2 w h ∧
      gridCount cells2 Cell.new w h (fun c => c.has_hint) =
        gridCount cells Cell.new w h (fun c => c.has_hint) + n ∧
      (∀ y x, (getG cells2 Cell.new y x).has_exit = (getG cells Cell.new y x).has_exit) ∧
      (getG cells2 Cell.new ep.2 ep.1).has_hint =
        (getG cells Cell.new ep.2 ep.1).has_hint := by
  intro n
  induction n with
  | zero =>
    intro cells tape cells2 t2 hd hp
    unfold place_hints_loop at hp
    cases hp
    exact ⟨hd, by omega, fun _ _ => rfl, rfl⟩
  | succ k ih =>
    intro cells tape cells2 t2 hd hp
    unfold place_hints_loop at hp
    split at hp
    case h_1 => exact absurd hp (by simp)
    case h_2 p tape2 hpick =>
      obtain ⟨hpw, hph, hpne, hpf⟩ := pick_hint_spec cells w h ep hw hh ifuel tape p tape2 hpick
      have hd1 : Dims (modG cells Cell.new p.2 p.1 (fun c => { c with has_hint := true })) w h :=
        dims_modG cells Cell.new w h p.2 p.1 _ hd
      obtain ⟨hd2, hcount, hexit, hhint⟩ := ih _ tape2 cells2 t2 hd1 hp
      refine ⟨hd2, ?_, ?_, ?_⟩
      · rw [hcount,
          gridCount_modG_flip cells Cell.new w h (fun c => c.has_hint) p.2 p.1
            (fun c => { c with has_hint := true }) hd hph hpw hpf (by rfl)]
        omega
      · intro y x
        rw [hexit y x,
          getG_modG_pres cells Cell.new p.2 p.1 (fun c => { c with has_hint := true })
            (fun c => c.has_exit) (fun _ => rfl) y x]
      · rw [hhint]
        show (getG (setG cells p.2 p.1 _) Cell.new ep.2 ep.1).has_hint = _
        rw [getG_setG_ne]
        intro hc
        exact hpne (Prod.ext hc.2.symm hc.1.symm)

/-- The termination construction: enough admissible cells let a suitable tape
drive place_hints_loop to success with inner fuel 1 (the tape spells out the
successive picks directly). -/
theorem place_hints_loop_exists (w h : Nat) (ep : Nat × Nat) :
    ∀ (n : Nat) (cells : Grid), Dims cells w h → n ≤ admissible_count cells w h ep →
      ∃ tape, (place_hints_loop w h ep 1 n cells tape).isSome = true := by
  intro n
  induction n with
  | zero =>
    intro cells _ _
    exact ⟨[], by simp [place_hints_loop]⟩
  | succ k ih =>
    intro cells hd hcard
    have hpos : 0 < admissible_count cells w h ep := by omega
    obtain ⟨yx, hmem, hpred⟩ := List.countP_pos_iff.1 hpos
    obtain ⟨y, x⟩ := yx
    have hbounds := (mem_pairs w h y x).1 hmem
    simp only [Bool.and_eq_true, decide_eq_true_eq, Bool.not_eq_true'] at hpred
    set cells1 := modG cells Cell.new y x (fun c => { c with has_hint := true }) with hc1
    have hd1 : Dims cells1 w h := dims_modG cells Cell.new w h y x _ hd
    have hdrop : admissible_count cells w h ep = admissible_count cells1 w h ep + 1 := by
      unfold admissible_count
      refine countP_flip _ _ (pairs w h) (y, x) (nodup_pairs w h) hmem ?_ ?_ ?_
      · intro a ha hab
        obtain ⟨y', x'⟩ := a
        have hgg : getG cells1 Cell.new y' x' = getG cells Cell.new y' x' := by
          rw [hc1]
          unfold modG
          rw [getG_setG_ne]
          intro hc
          exact hab (by rw [hc.1, hc.2])
        simp [hgg]
      · simp only [Bool.and_eq_false_iff, Bool.not_eq_false']
        right
        rw [hc1, getG_modG, if_pos ⟨rfl, rfl, by rw [hd.1]; exact hbounds.1,
          by rw [hd.2 y hbounds.1]; exact hbounds.2⟩]
      · simp [hpred.1, hpred.2]
    obtain ⟨tape1, hsome1⟩ := ih cells1 hd1 (by omega)
    refine ⟨x :: y :: tape1, ?_⟩
    have hpick : pick_hint cells w h ep 1 (x :: y :: tape1) = some ((x, y), tape1) := by
      unfold pick_hint
      dsimp only [takeRand, List.headD, List.tail]
      rw [Nat.mod_eq_of_lt hbounds.2, Nat.mod_eq_of_lt hbounds.1]
      rw [if_pos]
      exact ⟨by tauto, hpred.2⟩
    unfold place_hints_loop
    rw [hpick]
    exact hsome1

/-- The rejection loop on a 1x1 grid with the exit at (0, 0) never finds an
admissible cell. -/
theorem pick_hint_1x1_none (cells : Grid) :
    ∀ (fuel : Nat) (tape : List Nat), pick_hint cells 1 1 (0, 0) fuel tape = none := by
  intro fuel
  induction fuel with
  | zero => intro tape; rfl
  | succ k ih =>
    intro tape
    unfold pick_hint
    dsimp only [takeRand]
    rw [if_neg]
    · exact ih _
    · rw [Nat.mod_one, Nat.mod_one]
      rintro ⟨hne | hne, _⟩ <;> exact hne rfl

/-- place_hints on any 1x1 grid with the exit at (0, 0) fails for every tape
and every fuel: there is no admissible cell. -/
theorem place_hints_1x1_none (cells : Grid) (t : List Nat) (hf : Nat) :
    place_hints cells 1 1 (0, 0) t hf = none := by
  unfold place_hints
  rw [show num_hints 1 1 = 1 from rfl]
  unfold place_hints_loop
  rw [pick_hint_1x1_none]

theorem carve_loop_1x1_empty (c : Grid) (t : List Nat) :
    ∀ k, carve_loop 1 1 k c [] t = (c, [], t) := by
  intro k
  cases k <;> rfl

/-- Claim C9: place_hints (started, as generate_maze starts it, on a grid
with no hints and the exit in range) can terminate if and only if the grid
has at least num_hints cells other than the exit cell, i.e.
num_hints w h + 1 <= w * h; and on the 1x1 grid the rejection-sampling loop
never finds an admissible cell, so generate_maze 1 1 never returns a maze,
whatever the random tape and however much fuel. -/
theorem C9_place_hints_termination :
    (∀ (w h : Nat) (cells : Grid) (ep : Nat × Nat), 0 < w → 0 < h →
      Dims cells w h → ep.1 < w → ep.2 < h →
      (∀ y x, y < h → x < w → (getG cells Cell.new y x).has_hint = false) →
      ((∃ tape ifuel, (place_hints cells w h ep tape ifuel).isSome = true) ↔
        num_hints w h + 1 ≤ w * h)) ∧
    (∀ (tape : List Nat) (cf hf : Nat), generate_maze 1 1 tape cf hf = none) := by
  constructor
  · intro w h cells ep hw hh hd hep1 hep2 hno
    constructor
    · rintro ⟨tape, ifuel, hsome⟩
      obtain ⟨⟨cells2, t2⟩, hres⟩ := Option.isSome_iff_exists.1 hsome
      obtain ⟨hd2, hcount, _, hhint⟩ :=
        place_hints_loop_spec w h ep ifuel hw hh (num_hints w h) cells tape cells2 t2 hd hres
      have h0 : gridCount cells Cell.new w h (fun c => c.has_hint) = 0 :=
        gridCount_eq_zero _ _ _ _ _ hno
      have hef : (getG cells2 Cell.new ep.2 ep.1).has_hint = false := by
        rw [hhint]
        exact hno ep.2 ep.1 hep2 hep1
      have hlt : gridCount cells2 Cell.new w h (fun c => c.has_hint) < (pairs w h).length := by
        unfold gridCount
        exact countP_lt_length _ _ (ep.2, ep.1) ((mem_pairs w h ep.2 ep.1).2 ⟨hep2, hep1⟩)
          (by simpa using hef)
      rw [length_pairs, Nat.mul_comm] at hlt
      omega
    · intro hcard
      have hinit : admissible_count cells w h ep = h * w - 1 := by
        unfold admissible_count
        have hcg : (pairs w h).countP (fun yx =>
            decide (¬(yx.1 = ep.2 ∧ yx.2 = ep.1)) &&
              !(getG cells Cell.new yx.1 yx.2).has_hint) =
            (pairs w h).countP (fun yx => decide (¬yx = (ep.2, ep.1))) := by
          refine List.countP_congr ?_
          intro a ha
          obtain ⟨y, x⟩ := a
          have hb := (mem_pairs w h y x).1 ha
          simp [hno y x hb.1 hb.2, Prod.ext_iff]
        rw [hcg]
        have := countP_ne_nodup (β := Nat × Nat) (ep.2, ep.1) (pairs w h) (nodup_pairs w h)
          ((mem_pairs w h ep.2 ep.1).2 ⟨hep2, hep1⟩)
        rw [length_pairs] at this
        omega
      obtain ⟨tape, hsome⟩ := place_hints_loop_exists w h ep (num_hints w h) cells hd
        (by rw [hinit]; rw [Nat.mul_comm w h] at hcard; omega)
      exact ⟨tape, 1, hsome⟩
  · intro tape cf hf
    unfold generate_maze
    simp only [takeRand, Nat.mod_one]
    cases cf with
    | zero => rfl
    | succ k =>
      rw [show carve_loop 1 1 (k + 1)
          (set_visited (List.replicate 1 (List.replicate 1 Cell.new)) 0 0) [(0, 0)]
          tape.tail.tail =
        carve_loop 1 1 k
          (set_visited (List.replicate 1 (List.replicate 1 Cell.new)) 0 0) [] tape.tail.tail
        from rfl]
      rw [carve_loop_1x1_empty]
      split
      · rfl
      · split
        · rfl
        · rename_i heq
          exact Option.noConfusion ((place_hints_1x1_none _ _ _).symm.trans heq)

end MazeGen

/-- Witness for C9: the 2x2 all-new grid with exit (0, 0) satisfies the iff
(and indeed 2 + 1 <= 4 holds), and generate_maze 1 1 diverges on a concrete
tape and fuel. -/
theorem C9_place_hints_termination_witness :
    ((0 : Nat) < 2 ∧ Dims (List.replicate 2 (List.replicate 2 MazeGen.Cell.new)) 2 2) ∧
    ((∃ tape ifuel, (MazeGen.place_hints (List.replicate 2 (List.replicate 2 MazeGen.Cell.new))
        2 2 (0, 0) tape ifuel).isSome = true) ↔
      MazeGen.num_hints 2 2 + 1 ≤ 2 * 2) ∧
    MazeGen.generate_maze 1 1 [3, 1, 4, 1, 5] 9 2 = none :=
  ⟨⟨by decide, ⟨by decide, fun y hy => by interval_cases y <;> decide⟩⟩,
    MazeGen.C9_place_hints_termination.1 2 2
      (List.replicate 2 (List.replicate 2 MazeGen.Cell.new)) (0, 0) (by decide) (by decide)
      ⟨by decide, fun y hy => by interval_cases y <;> decide⟩ (by decide) (by decide)
      (fun y x hy hx => by interval_cases y <;> interval_cases x <;> decide),
    MazeGen.C9_place_hints_termination.2 [3, 1, 4, 1, 5] 9 2⟩

/-! ### C8: exit uniqueness and hint count of generated mazes -/

theorem getD_map (f : α → β) : ∀ (l : List α) (i : Nat) (d : α),
    (l.map f).getD i (f d) = f (l.getD i d) := by
  intro l
  induction l with
  | nil => intro i d; cases i <;> rfl
  | cons a as ih =>
    intro i d
    cases i with
    | zero => rfl
    | succ j => exact ih j d

namespace MazeGen

theorem getG_clear_visited (cells : Grid) (y x : Nat) :
    getG (clear_visited cells) Cell.new y x =
      { getG cells Cell.new y x with visited := false } := by
  unfold clear_visited getG
  have houter : (cells.map (List.map (fun c => { c with visited := false }))).getD y [] =
      (cells.getD y []).map (fun c => { c with visited := false }) :=
    getD_map (List.map (fun c : Cell => { c with visited := false })) cells y []
  rw [houter]
  exact getD_map (fun c : Cell => { c with visited := false }) (cells.getD y []) x Cell.new

theorem dims_clear_visited (cells : Grid) (w h : Nat) (hd : Dims cells w h) :
    Dims (clear_visited cells) w h := by
  refine ⟨by simp [clear_visited, hd.1], ?_⟩
  intro y hy
  have houter : (cells.map (List.map (fun c : Cell => { c with visited := false }))).getD y [] =
      (cells.getD y []).map (fun c => { c with visited := false }) :=
    getD_map (List.map (fun c : Cell => { c with visited := false })) cells y []
  unfold clear_visited
  rw [houter, List.length_map]
  exact hd.2 y hy

theorem modG2_pres (w h : Nat) (g : Grid) (y1 x1 y2 x2 : Nat) (f1 f2 : Cell → Cell)
    (hf1h : ∀ c, (f1 c).has_hint = c.has_hint) (hf1e : ∀ c, (f1 c).has_exit = c.has_exit)
    (hf2h : ∀ c, (f2 c).has_hint = c.has_hint) (hf2e : ∀ c, (f2 c).has_exit = c.has_exit)
    (hd : Dims g w h) :
    Dims (modG (modG g Cell.new y1 x1 f1) Cell.new y2 x2 f2) w h ∧
    ∀ y x, (getG (modG (modG g Cell.new y1 x1 f1) Cell.new y2 x2 f2) Cell.new y x).has_hint =
        (getG g Cell.new y x).has_hint ∧
      (getG (modG (modG g Cell.new y1 x1 f1) Cell.new y2 x2 f2) Cell.new y x).has_exit =
        (getG g Cell.new y x).has_exit := by
  refine ⟨dims_modG _ _ _ _ _ _ _ (dims_modG _ _ _ _ _ _ _ hd), fun y x => ⟨?_, ?_⟩⟩
  · exact (getG_modG_pres (modG g Cell.new y1 x1 f1) Cell.new y2 x2 f2
        (fun c => c.has_hint) hf2h y x).trans
      (getG_modG_pres g Cell.new y1 x1 f1 (fun c => c.has_hint) hf1h y x)
  · exact (getG_modG_pres (modG g Cell.new y1 x1 f1) Cell.new y2 x2 f2
        (fun c => c.has_exit) hf2e y x).trans
      (getG_modG_pres g Cell.new y1 x1 f1 (fun c => c.has_exit) hf1e y x)

theorem remove_wall_pres (w h : Nat) (cells : Grid) (cx cy nx ny : Nat) (d : Direction)
    (hd : Dims cells w h) :
    Dims (remove_wall cells cx cy nx ny d) w h ∧
    ∀ y x, (getG (remove_wall cells cx cy nx ny d) Cell.new y x).has_hint =
        (getG cells Cell.new y x).has_hint ∧
      (getG (remove_wall cells cx cy nx ny d) Cell.new y x).has_exit =
        (getG cells Cell.new y x).has_exit := by
  cases d with
  | North =>
    exact modG2_pres w h cells cy cx ny nx (fun c => { c with north_wall := false })
      (fun c => { c with south_wall := false })
      (fun _ => rfl) (fun _ => rfl) (fun _ => rfl) (fun _ => rfl) hd
  | East =>
    exact modG2_pres w h cells cy cx ny nx (fun c => { c with east_wall := false })
      (fun c => { c with west_wall := false })
      (fun _ => rfl) (fun _ => rfl) (fun _ => rfl) (fun _ => rfl) hd
  | South =>
    exact modG2_pres w h cells cy cx ny nx (fun c => { c with south_wall := false })
      (fun c => { c with north_wall := false })
      (fun _ => rfl) (fun _ => rfl) (fun _ => rfl) (fun _ => rfl) hd
  | West =>
    exact modG2_pres w h cells cy cx ny nx (fun c => { c with west_wall := false })
      (fun c => { c with east_wall := false })
      (fun _ => rfl) (fun _ => rfl) (fun _ => rfl) (fun _ => rfl) hd

/-- The carving loop touches only walls and visited markers: dimensions are
kept and every cell's has_hint and has_exit are untouched. -/
theorem carve_loop_pres (w h : Nat) :
    ∀ (fuel : Nat) (cells : Grid) (stack : List (Nat × Nat)) (tape : List Nat),
      Dims cells w h →
      Dims (carve_loop w h fuel cells stack tape).1 w h ∧
      (∀ y x,
        (getG (carve_loop w h fuel cells stack tape).1 Cell.new y x).has_hint =
          (getG cells Cell.new y x).has_hint ∧
        (getG (carve_loop w h fuel cells stack tape).1 Cell.new y x).has_exit =
          (getG cells Cell.new y x).has_exit) := by
  intro fuel
  induction fuel with
  | zero => intro cells stack tape hd; exact ⟨hd, fun y x => ⟨rfl, rfl⟩⟩
  | succ k ih =>
    intro cells stack tape hd
    cases stack with
    | nil => exact ⟨hd, fun y x => ⟨rfl, rfl⟩⟩
    | cons top rest =>
      obtain ⟨cx, cy⟩ := top
      unfold carve_loop
      dsimp only
      rcases hne : unvisited_neighbors cells w h cx cy with _ | ⟨n0, ns⟩
      · exact ih cells rest tape hd
      · have h1 := remove_wall_pres w h cells cx cy
          (((n0 :: ns).getD (takeRand tape (n0 :: ns).length).1 (0, 0, Direction.North)).1)
          (((n0 :: ns).getD (takeRand tape (n0 :: ns).length).1 (0, 0, Direction.North)).2.1)
          (((n0 :: ns).getD (takeRand tape (n0 :: ns).length).1 (0, 0, Direction.North)).2.2)
          hd
        have hd2 : Dims (set_visited
            (remove_wall cells cx cy
              (((n0 :: ns).getD (takeRand tape (n0 :: ns).length).1 (0, 0, Direction.North)).1)
              (((n0 :: ns).getD (takeRand tape (n0 :: ns).length).1 (0, 0, Direction.North)).2.1)
              (((n0 :: ns).getD (takeRand tape (n0 :: ns).length).1 (0, 0, Direction.North)).2.2))
            (((n0 :: ns).getD (takeRand tape (n0 :: ns).length).1 (0, 0, Direction.North)).2.1)
            (((n0 :: ns).getD (takeRand tape (n0 :: ns).length).1 (0, 0, Direction.North)).1))
            w h := dims_modG _ _ _ _ _ _ _ h1.1
      /- the recursive carve on the updated grid finishes the argument -/
        have hih := ih _ ((((n0 :: ns).getD (takeRand tape (n0 :: ns).length).1
            (0, 0, Direction.North)).1,
            (((n0 :: ns).getD (takeRand tape (n0 :: ns).length).1 (0, 0, Direction.North)).2.1))
            :: (cx, cy) :: rest)
          (takeRand tape (n0 :: ns).length).2 hd2
        refine ⟨hih.1, ?_⟩
        intro y x
        refine ⟨(hih.2 y x).1.trans ?_, (hih.2 y x).2.trans ?_⟩
        · exact (getG_modG_pres _ Cell.new _ _ (fun c => { c with visited := true })
            (fun c => c.has_hint) (fun _ => rfl) y x).trans ((h1.2 y x).1)
        · exact (getG_modG_pres _ Cell.new _ _ (fun c => { c with visited := true })
            (fun c => c.has_exit) (fun _ => rfl) y x).trans ((h1.2 y x).2)

/-- Every entry the BFS step appends is either from the old queue or one of
the four neighbor entries, with the guards that bound them. -/
theorem mem_ffp_dir (inb : Prop) [Decidable inb] (wall : Bool) (tx ty dist : Nat)
    (s : List ((Nat × Nat) × Nat) × List (List (Option Nat))) (e : (Nat × Nat) × Nat) :
    e ∈ (ffp_dir inb wall tx ty dist s).1 → e ∈ s.1 ∨ (inb ∧ e = ((tx, ty), dist + 1)) := by
  unfold ffp_dir
  split
  case isTrue hcond =>
    intro he
    rcases List.mem_append.1 he with hq | hx
    · exact Or.inl hq
    · exact Or.inr ⟨hcond.1, List.mem_singleton.1 hx⟩
  case isFalse => exact Or.inl

theorem mem_ffp_push (cells : Grid) (w h x y dist : Nat) (q : List ((Nat × Nat) × Nat))
    (dists : List (List (Option Nat))) (e : (Nat × Nat) × Nat) :
    e ∈ (ffp_push cells w h x y dist q dists).1 →
      e ∈ q ∨ e = ((x, y - 1), dist + 1) ∨ (x < w - 1 ∧ e = ((x + 1, y), dist + 1)) ∨
        (y < h - 1 ∧ e = ((x, y + 1), dist + 1)) ∨ e = ((x - 1, y), dist + 1) := by
  intro he
  rcases mem_ffp_dir _ _ _ _ _ _ _ he with he | ⟨_, rfl⟩
  · rcases mem_ffp_dir _ _ _ _ _ _ _ he with he | ⟨hg, rfl⟩
    · rcases mem_ffp_dir _ _ _ _ _ _ _ he with he | ⟨hg, rfl⟩
      · rcases mem_ffp_dir _ _ _ _ _ _ _ he with he | ⟨_, rfl⟩
        · exact Or.inl he
        · exact Or.inr (Or.inl rfl)
      · exact Or.inr (Or.inr (Or.inl ⟨hg, rfl⟩))
    · exact Or.inr (Or.inr (Or.inr (Or.inl ⟨hg, rfl⟩)))
  · exact Or.inr (Or.inr (Or.inr (Or.inr rfl)))

/-- The BFS loop's result stays inside the grid whenever the queue and the
running best do. -/
theorem ffp_loop_bounds (cells : Grid) (w h : Nat) :
    ∀ (fuel : Nat) (q : List ((Nat × Nat) × Nat)) (dists : List (List (Option Nat)))
      (best : Nat × Nat) (maxd : Nat),
      (∀ e ∈ q, e.1.1 < w ∧ e.1.2 < h) → best.1 < w → best.2 < h →
      (ffp_loop cells w h fuel q dists best maxd).1 < w ∧
        (ffp_loop cells w h fuel q dists best maxd).2 < h := by
  intro fuel
  induction fuel with
  | zero => intro q dists best maxd hq hb1 hb2; exact ⟨hb1, hb2⟩
  | succ k ih =>
    intro q dists best maxd hq hb1 hb2
    cases q with
    | nil => exact ⟨hb1, hb2⟩
    | cons e rest =>
      obtain ⟨⟨x, y⟩, dist⟩ := e
      have hxy := hq ((x, y), dist) (List.mem_cons_self _ _)
      show (ffp_loop cells w h k (ffp_push cells w h x y dist rest dists).1
          (ffp_push cells w h x y dist rest dists).2
          (if maxd < dist then ((x, y), dist) else (best, maxd)).1
          (if maxd < dist then ((x, y), dist) else (best, maxd)).2).1 < w ∧
        (ffp_loop cells w h k (ffp_push cells w h x y dist rest dists).1
          (ffp_push cells w h x y dist rest dists).2
          (if maxd < dist then ((x, y), dist) else (best, maxd)).1
          (if maxd < dist then ((x, y), dist) else (best, maxd)).2).2 < h
      refine ih _ _ _ _ ?_ ?_ ?_
      · intro e' he'
        have hx : x < w := hxy.1
        have hy : y < h := hxy.2
        rcases mem_ffp_push cells w h x y dist rest dists e' he' with
          hq' | rfl | ⟨hg, rfl⟩ | ⟨hg, rfl⟩ | rfl
        · exact hq e' (List.mem_cons_of_mem _ hq')
        · exact ⟨hx, (by omega : y - 1 < h)⟩
        · exact ⟨(by omega : x + 1 < w), hy⟩
        · exact ⟨hx, (by omega : y + 1 < h)⟩
        · exact ⟨(by omega : x - 1 < w), hy⟩
      · by_cases hc : maxd < dist
        · rw [if_pos hc]; exact hxy.1
        · rw [if_neg hc]; exact hb1
      · by_cases hc : maxd < dist
        · rw [if_pos hc]; exact hxy.2
        · rw [if_neg hc]; exact hb2

theorem find_farthest_point_bounds (cells : Grid) (sx sy w h : Nat)
    (hsx : sx < w) (hsy : sy < h) :
    (find_farthest_point cells sx sy w h).1 < w ∧
      (find_farthest_point cells sx sy w h).2 < h := by
  refine ffp_loop_bounds cells w h (w * h + 1) _ _ (sx, sy) 0 ?_ hsx hsy
  intro e he
  rw [List.mem_singleton] at he
  rw [he]
  exact ⟨hsx, hsy⟩

end MazeGen

/-- Claim C8: every maze generate_maze returns has exactly one cell with
has_exit (namely the recorded exit position), that cell carries no hint, and
exactly max 1 (min w h / 2) distinct cells carry has_hint. -/
theorem C8_generate_maze_exit_and_hints :
    ∀ (w h : Nat) (tape : List Nat) (cf hf : Nat) (maze : MazeGen.Maze),
      1 ≤ w → 1 ≤ h → MazeGen.generate_maze w h tape cf hf = some maze →
      gridCount maze.cells MazeGen.Cell.new w h (fun c => c.has_exit) = 1 ∧
      (getG maze.cells MazeGen.Cell.new maze.exit_position.2
        maze.exit_position.1).has_exit = true ∧
      (getG maze.cells MazeGen.Cell.new maze.exit_position.2
        maze.exit_position.1).has_hint = false ∧
      gridCount maze.cells MazeGen.Cell.new w h (fun c => c.has_hint) =
        max 1 (min w h / 2) := by
  intro w h tape cf hf maze hw hh hsome
  unfold MazeGen.generate_maze at hsome
  dsimp only at hsome
  split at hsome
  · exact absurd hsome (by simp)
  · split at hsome
    · exact absurd hsome (by simp)
    · rename_i cells2 t2 hplace
      cases hsome
      dsimp only
      -- stage facts
      have hsxw : (takeRand tape w).1 < w := Nat.mod_lt _ hw
      have hsyh : (takeRand (takeRand tape w).2 h).1 < h := Nat.mod_lt _ hh
      have hd0 : Dims (MazeGen.set_visited
          (List.replicate h (List.replicate w MazeGen.Cell.new))
          (takeRand (takeRand tape w).2 h).1 (takeRand tape w).1) w h :=
        dims_modG _ _ _ _ _ _ _ (dims_replicate w h MazeGen.Cell.new)
      have hfalse0 : ∀ y x,
          (getG (MazeGen.set_visited (List.replicate h (List.replicate w MazeGen.Cell.new))
            (takeRand (takeRand tape w).2 h).1 (takeRand tape w).1)
            MazeGen.Cell.new y x).has_hint = false ∧
          (getG (MazeGen.set_visited (List.replicate h (List.replicate w MazeGen.Cell.new))
            (takeRand (takeRand tape w).2 h).1 (takeRand tape w).1)
            MazeGen.Cell.new y x).has_exit = false := by
        intro y x
        unfold MazeGen.set_visited
        constructor
        · rw [getG_modG_pres _ MazeGen.Cell.new _ _ (fun c => { c with visited := true })
            (fun c => c.has_hint) (fun _ => rfl) y x, getG_replicate]
          rfl
        · rw [getG_modG_pres _ MazeGen.Cell.new _ _ (fun c => { c with visited := true })
            (fun c => c.has_exit) (fun _ => rfl) y x, getG_replicate]
          rfl
      have hcp := MazeGen.carve_loop_pres w h cf
        (MazeGen.set_visited (List.replicate h (List.replicate w MazeGen.Cell.new))
          (takeRand (takeRand tape w).2 h).1 (takeRand tape w).1)
        [((takeRand tape w).1, (takeRand (takeRand tape w).2 h).1)]
        (takeRand (takeRand tape w).2 h).2 hd0
      set rescells := (MazeGen.carve_loop w h cf
        (MazeGen.set_visited (List.replicate h (List.replicate w MazeGen.Cell.new))
          (takeRand (takeRand tape w).2 h).1 (takeRand tape w).1)
        [((takeRand tape w).1, (takeRand (takeRand tape w).2 h).1)]
        (takeRand (takeRand tape w).2 h).2).1 with hresc
      have hfalse1 : ∀ y x, (getG rescells MazeGen.Cell.new y x).has_hint = false ∧
          (getG rescells MazeGen.Cell.new y x).has_exit = false := by
        intro y x
        exact ⟨((hcp.2 y x).1).trans (hfalse0 y x).1, ((hcp.2 y x).2).trans (hfalse0 y x).2⟩
      set ex := MazeGen.find_farthest_point rescells (takeRand tape w).1
        (takeRand (takeRand tape w).2 h).1 w h with hex
      have hexb : ex.1 < w ∧ ex.2 < h :=
        MazeGen.find_farthest_point_bounds rescells _ _ w h hsxw hsyh
      set cells1 := modG rescells MazeGen.Cell.new ex.2 ex.1
        (fun c => { c with has_exit := true }) with hc1
      have hd1 : Dims cells1 w h := dims_modG _ _ _ _ _ _ _ hcp.1
      have hceq : gridCount cells1 MazeGen.Cell.new w h (fun c => c.has_exit) = 1 := by
        rw [hc1, gridCount_modG_flip rescells MazeGen.Cell.new w h (fun c => c.has_exit)
          ex.2 ex.1 (fun c => { c with has_exit := true }) hcp.1 hexb.2 hexb.1
          (hfalse1 ex.2 ex.1).2 (by rfl)]
        rw [gridCount_eq_zero rescells MazeGen.Cell.new w h _
          (fun y x _ _ => (hfalse1 y x).2)]
      have hhint1 : gridCount cells1 MazeGen.Cell.new w h (fun c => c.has_hint) = 0 := by
        rw [hc1, gridCount_modG_pres rescells MazeGen.Cell.new w h (fun c => c.has_hint)
          ex.2 ex.1 (fun c => { c with has_exit := true }) (fun _ => rfl)]
        exact gridCount_eq_zero rescells MazeGen.Cell.new w h _
          (fun y x _ _ => (hfalse1 y x).1)
      have hgexit1 : (getG cells1 MazeGen.Cell.new ex.2 ex.1).has_exit = true := by
        rw [hc1, getG_modG, if_pos ⟨rfl, rfl, by rw [hcp.1.1]; exact hexb.2,
          by rw [hcp.1.2 ex.2 hexb.2]; exact hexb.1⟩]
      have hghint1 : (getG cells1 MazeGen.Cell.new ex.2 ex.1).has_hint = false := by
        rw [hc1, getG_modG_pres rescells MazeGen.Cell.new ex.2 ex.1
          (fun c => { c with has_exit := true }) (fun c => c.has_hint) (fun _ => rfl)]
        exact (hfalse1 ex.2 ex.1).1
      obtain ⟨hd2, hcount2, hexit2, hhint2⟩ :=
        MazeGen.place_hints_loop_spec w h ex hf hw hh (MazeGen.num_hints w h) cells1 _
          cells2 t2 hd1 hplace
      have hclear : ∀ y x, getG (MazeGen.clear_visited cells2) MazeGen.Cell.new y x =
          { getG cells2 MazeGen.Cell.new y x with visited := false } :=
        fun y x => MazeGen.getG_clear_visited cells2 y x
      refine ⟨?_, ?_, ?_, ?_⟩
      · rw [gridCount_congr cells2 (MazeGen.clear_visited cells2) MazeGen.Cell.new w h
          (fun c => c.has_exit) (fun y x _ _ => by rw [hclear y x])]
        rw [gridCount_congr cells1 cells2 MazeGen.Cell.new w h (fun c => c.has_exit)
          (fun y x _ _ => hexit2 y x)]
        exact hceq
      · rw [hclear]
        show (getG cells2 MazeGen.Cell.new ex.2 ex.1).has_exit = true
        rw [hexit2 ex.2 ex.1]
        exact hgexit1
      · rw [hclear]
        show (getG cells2 MazeGen.Cell.new ex.2 ex.1).has_hint = false
        rw [hhint2]
        exact hghint1
      · rw [gridCount_congr cells2 (MazeGen.clear_visited cells2) MazeGen.Cell.new w h
          (fun c => c.has_hint) (fun y x _ _ => by rw [hclear y x])]
        rw [hcount2, hhint1]
        unfold MazeGen.num_hints
        omega

/-- Witness for C8 at the concrete 2x2 generation run. -/
theorem C8_generate_maze_exit_and_hints_witness :
    MazeGen.generate_maze 2 2 [] 8 4 = some MazeGen.mz0 ∧
    (gridCount MazeGen.mz0.cells MazeGen.Cell.new 2 2 (fun c => c.has_exit) = 1 ∧
      (getG MazeGen.mz0.cells MazeGen.Cell.new MazeGen.mz0.exit_position.2
        MazeGen.mz0.exit_position.1).has_exit = true ∧
      (getG MazeGen.mz0.cells MazeGen.Cell.new MazeGen.mz0.exit_position.2
        MazeGen.mz0.exit_position.1).has_hint = false ∧
      gridCount MazeGen.mz0.cells MazeGen.Cell.new 2 2 (fun c => c.has_hint) =
        max 1 (min 2 2 / 2)) :=
  ⟨by decide,
    C8_generate_maze_exit_and_hints 2 2 [] 8 4 MazeGen.mz0 (by decide) (by decide) (by decide)⟩

/-- An in-range default read is a member of the list. -/
theorem getD_mem (l : List β) (i : Nat) (d : β) (hi : i < l.length) : l.getD i d ∈ l := by
  induction l generalizing i with
  | nil => simp at hi
  | cons a t ih =>
    cases i with
    | zero => exact List.mem_cons_self _ _
    | succ j =>
      rw [List.getD_cons_succ]
      exact List.mem_cons_of_mem _ (ih j (by simpa using hi))

/-- getG after modG on a well-dimensioned grid at an in-range target. -/
theorem getG_modG_in (g : List (List α)) (d : α) (w h y x y' x' : Nat) (f : α → α)
    (hd : Dims g w h) (hy' : y' < h) (hx' : x' < w) :
    getG (modG g d y' x' f) d y x =
      if y = y' ∧ x = x' then f (getG g d y' x') else getG g d y x := by
  rw [getG_modG]
  by_cases hc : y = y' ∧ x = x'
  · rw [if_pos ⟨hc.1, hc.2, hd.1 ▸ hy', by rw [hd.2 y' hy']; exact hx'⟩, if_pos hc]
  · rw [if_neg (by tauto), if_neg hc]

namespace MazeGen

/-- Every entry of the unvisited-neighbor list is one of the four in-range
unvisited neighbors, with its guard. -/
theorem mem_unvisited_neighbors (cells : Grid) (w h cx cy : Nat) (e : Nat × Nat × Direction)
    (he : e ∈ unvisited_neighbors cells w h cx cy) :
    (0 < cy ∧ (getG cells Cell.new (cy - 1) cx).visited = false ∧
      e = (cx, cy - 1, Direction.North)) ∨
    (cx < w - 1 ∧ (getG cells Cell.new cy (cx + 1)).visited = false ∧
      e = (cx + 1, cy, Direction.East)) ∨
    (cy < h - 1 ∧ (getG cells Cell.new (cy + 1) cx).visited = false ∧
      e = (cx, cy + 1, Direction.South)) ∨
    (0 < cx ∧ (getG cells Cell.new cy (cx - 1)).visited = false ∧
      e = (cx - 1, cy, Direction.West)) := by
  unfold unvisited_neighbors at he
  rcases List.mem_append.1 he with he | h4
  · rcases List.mem_append.1 he with he | h3
    · rcases List.mem_append.1 he with h1 | h2
      · split at h1
        · rename_i hc
          exact Or.inl ⟨hc.1, hc.2, List.mem_singleton.1 h1⟩
        · simp at h1
      · split at h2
        · rename_i hc
          exact Or.inr (Or.inl ⟨hc.1, hc.2, List.mem_singleton.1 h2⟩)
        · simp at h2
    · split at h3
      · rename_i hc
        exact Or.inr (Or.inr (Or.inl ⟨hc.1, hc.2, List.mem_singleton.1 h3⟩))
      · simp at h3
  · split at h4
    · rename_i hc
      exact Or.inr (Or.inr (Or.inr ⟨hc.1, hc.2, List.mem_singleton.1 h4⟩))
    · simp at h4

/-- An empty unvisited-neighbor list means every in-range neighbor is
visited. -/
theorem unvisited_neighbors_nil (cells : Grid) (w h cx cy : Nat)
    (hn : unvisited_neighbors cells w h cx cy = []) :
    (0 < cy → (getG cells Cell.new (cy - 1) cx).visited = true) ∧
    (cx < w - 1 → (getG cells Cell.new cy (cx + 1)).visited = true) ∧
    (cy < h - 1 → (getG cells Cell.new (cy + 1) cx).visited = true) ∧
    (0 < cx → (getG cells Cell.new cy (cx - 1)).visited = true) := by
  unfold unvisited_neighbors at hn
  simp only [List.append_eq_nil] at hn
  obtain ⟨⟨⟨h1, h2⟩, h3⟩, h4⟩ := hn
  refine ⟨fun hg => ?_, fun hg => ?_, fun hg => ?_, fun hg => ?_⟩
  · cases hv : (getG cells Cell.new (cy - 1) cx).visited
    · rw [if_pos ⟨hg, hv⟩] at h1; simp at h1
    · rfl
  · cases hv : (getG cells Cell.new cy (cx + 1)).visited
    · rw [if_pos ⟨hg, hv⟩] at h2; simp at h2
    · rfl
  · cases hv : (getG cells Cell.new (cy + 1) cx).visited
    · rw [if_pos ⟨hg, hv⟩] at h3; simp at h3
    · rfl
  · cases hv : (getG cells Cell.new cy (cx - 1)).visited
    · rw [if_pos ⟨hg, hv⟩] at h4; simp at h4
    · rfl

/-- Opening more walls never destroys a step. -/
theorem openStep_mono (cells cells2 : Grid) (w h : Nat)
    (hm : ∀ y x,
      ((getG cells Cell.new y x).north_wall = false →
        (getG cells2 Cell.new y x).north_wall = false) ∧
      ((getG cells Cell.new y x).east_wall = false →
        (getG cells2 Cell.new y x).east_wall = false) ∧
      ((getG cells Cell.new y x).south_wall = false →
        (getG cells2 Cell.new y x).south_wall = false) ∧
      ((getG cells Cell.new y x).west_wall = false →
        (getG cells2 Cell.new y x).west_wall = false))
    (p q : Nat × Nat) (hs : OpenStep cells w h p q) : OpenStep cells2 w h p q := by
  cases hs with
  | north x y hx hy hw => exact OpenStep.north x y hx hy ((hm (y + 1) x).1 hw)
  | east x y hx hy hw => exact OpenStep.east x y hx hy ((hm y x).2.1 hw)
  | south x y hx hy hw => exact OpenStep.south x y hx hy ((hm y x).2.2.1 hw)
  | west x y hx hy hw => exact OpenStep.west x y hx hy ((hm y (x + 1)).2.2.2 hw)

/-- Opening more walls never destroys reachability. -/
theorem reachable_mono (cells cells2 : Grid) (w h : Nat)
    (hm : ∀ y x,
      ((getG cells Cell.new y x).north_wall = false →
        (getG cells2 Cell.new y x).north_wall = false) ∧
      ((getG cells Cell.new y x).east_wall = false →
        (getG cells2 Cell.new y x).east_wall = false) ∧
      ((getG cells Cell.new y x).south_wall = false →
        (getG cells2 Cell.new y x).south_wall = false) ∧
      ((getG cells Cell.new y x).west_wall = false →
        (getG cells2 Cell.new y x).west_wall = false))
    (p q : Nat × Nat) (hr : Reachable cells w h p q) : Reachable cells2 w h p q :=
  Relation.ReflTransGen.mono (openStep_mono cells cells2 w h hm) hr

/-- With symmetric walls every step can be walked back. -/
theorem openStep_symm (cells : Grid) (w h : Nat)
    (hNS : ∀ x y, x < w → y + 1 < h →
      ((getG cells Cell.new (y + 1) x).north_wall = false ↔
        (getG cells Cell.new y x).south_wall = false))
    (hEW : ∀ x y, x + 1 < w → y < h →
      ((getG cells Cell.new y x).east_wall = false ↔
        (getG cells Cell.new y (x + 1)).west_wall = false))
    (p q : Nat × Nat) (hs : OpenStep cells w h p q) : OpenStep cells w h q p := by
  cases hs with
  | north x y hx hy hw => exact OpenStep.south x y hx hy ((hNS x y hx hy).mp hw)
  | east x y hx hy hw => exact OpenStep.west x y hx hy ((hEW x y hx hy).mp hw)
  | south x y hx hy hw => exact OpenStep.north x y hx hy ((hNS x y hx hy).mpr hw)
  | west x y hx hy hw => exact OpenStep.east x y hx hy ((hEW x y hx hy).mpr hw)

/-- With symmetric walls reachability is symmetric. -/
theorem reachable_symm (cells : Grid) (w h : Nat)
    (hNS : ∀ x y, x < w → y + 1 < h →
      ((getG cells Cell.new (y + 1) x).north_wall = false ↔
        (getG cells Cell.new y x).south_wall = false))
    (hEW : ∀ x y, x + 1 < w → y < h →
      ((getG cells Cell.new y x).east_wall = false ↔
        (getG cells Cell.new y (x + 1)).west_wall = false))
    (p q : Nat × Nat) (hr : Reachable cells w h p q) : Reachable cells w h q p :=
  (Relation.ReflTransGen.symmetric (openStep_symm cells w h hNS hEW)) hr

/-- One carving step: a grid that visits one new in-range unvisited neighbor
of the stack top, steps to it through an opened wall, keeps the symmetry and
unvisited-wall invariants, and adds one visited cell and one opened edge,
preserves the full carving invariant with the neighbor pushed. -/
theorem carve_inv_step (cells cells2 : Grid) (w h sx sy cx cy nx ny : Nat)
    (rest : List (Nat × Nat))
    (inv : CarveInv cells w h sx sy ((cx, cy) :: rest))
    (hnx : nx < w) (hny : ny < h)
    (hdims2 : Dims cells2 w h)
    (eV : ∀ y x, (getG cells2 Cell.new y x).visited =
      if y = ny ∧ x = nx then true else (getG cells Cell.new y x).visited)
    (hm : ∀ y x,
      ((getG cells Cell.new y x).north_wall = false →
        (getG cells2 Cell.new y x).north_wall = false) ∧
      ((getG cells Cell.new y x).east_wall = false →
        (getG cells2 Cell.new y x).east_wall = false) ∧
      ((getG cells Cell.new y x).south_wall = false →
        (getG cells2 Cell.new y x).south_wall = false) ∧
      ((getG cells Cell.new y x).west_wall = false →
        (getG cells2 Cell.new y x).west_wall = false))
    (hsymNS2 : ∀ x y, x < w → y + 1 < h →
      ((getG cells2 Cell.new (y + 1) x).north_wall = false ↔
        (getG cells2 Cell.new y x).south_wall = false))
    (hsymEW2 : ∀ x y, x + 1 < w → y < h →
      ((getG cells2 Cell.new y x).east_wall = false ↔
        (getG cells2 Cell.new y (x + 1)).west_wall = false))
    (hunv2 : ∀ x y, x < w → y < h → (getG cells2 Cell.new y x).visited = false →
      (getG cells2 Cell.new y x).north_wall = true ∧
      (getG cells2 Cell.new y x).east_wall = true ∧
      (getG cells2 Cell.new y x).south_wall = true ∧
      (getG cells2 Cell.new y x).west_wall = true)
    (hstep : OpenStep cells2 w h (cx, cy) (nx, ny))
    (hcount2 : visitedCount cells2 w h = visitedCount cells w h + 1)
    (hedge2 : openEdgeCount cells2 w h = openEdgeCount cells w h + 1) :
    CarveInv cells2 w h sx sy ((nx, ny) :: (cx, cy) :: rest) := by
  obtain ⟨hcx, hcy, hcurv⟩ := inv.stack_ok (cx, cy) (List.mem_cons_self _ _)
  have hVmono : ∀ y x, (getG cells Cell.new y x).visited = true →
      (getG cells2 Cell.new y x).visited = true := by
    intro y x hv
    rw [eV]
    split_ifs
    · rfl
    · exact hv
  have hreach2 : ∀ x y, x < w → y < h → (getG cells Cell.new y x).visited = true →
      Reachable cells2 w h (sx, sy) (x, y) :=
    fun x y hx hy hv => reachable_mono cells cells2 w h hm _ _ (inv.reach x y hx hy hv)
  refine ⟨hdims2, hVmono sy sx inv.start_visited, hsymNS2, hsymEW2, hunv2, ?_, ?_, ?_, ?_⟩
  · intro p hp
    rcases List.mem_cons.1 hp with rfl | hp'
    · exact ⟨hnx, hny, by rw [eV, if_pos ⟨rfl, rfl⟩]⟩
    · obtain ⟨h1, h2, h3⟩ := inv.stack_ok p hp'
      exact ⟨h1, h2, hVmono _ _ h3⟩
  · intro x y hx hy hv2
    rw [eV] at hv2
    split_ifs at hv2 with hc
    · obtain ⟨rfl, rfl⟩ := hc
      exact Relation.ReflTransGen.tail (hreach2 cx cy hcx hcy hcurv) hstep
    · exact hreach2 x y hx hy hv2
  · intro x y hx hy hv2
    rw [eV] at hv2
    split_ifs at hv2 with hc
    · obtain ⟨rfl, rfl⟩ := hc
      exact Or.inl (List.mem_cons_self _ _)
    · rcases inv.closed x y hx hy hv2 with hmem | hnb
      · exact Or.inl (List.mem_cons_of_mem _ hmem)
      · exact Or.inr ⟨fun hg => hVmono _ _ (hnb.1 hg), fun hg => hVmono _ _ (hnb.2.1 hg),
          fun hg => hVmono _ _ (hnb.2.2.1 hg), fun hg => hVmono _ _ (hnb.2.2.2 hg)⟩
  · rw [hcount2, hedge2, inv.count]

/-- Carving north from the stack top preserves the invariant and visits one
new cell. -/
theorem carve_step_north (cells : Grid) (w h sx sy cx cy : Nat) (rest : List (Nat × Nat))
    (inv : CarveInv cells w h sx sy ((cx, cy) :: rest))
    (hcy0 : 0 < cy) (hnv : (getG cells Cell.new (cy - 1) cx).visited = false) :
    CarveInv (set_visited (remove_wall cells cx cy cx (cy - 1) Direction.North) (cy - 1) cx)
        w h sx sy ((cx, cy - 1) :: (cx, cy) :: rest) ∧
    visitedCount (set_visited (remove_wall cells cx cy cx (cy - 1) Direction.North) (cy - 1) cx)
        w h = visitedCount cells w h + 1 := by
  obtain ⟨hcx, hcy, hcurv⟩ := inv.stack_ok (cx, cy) (List.mem_cons_self _ _)
  have hnyh : cy - 1 < h := by omega
  have e2 : cy - 1 + 1 = cy := Nat.succ_pred_eq_of_pos hcy0
  show CarveInv (modG (modG (modG cells Cell.new cy cx (fun c => { c with north_wall := false }))
      Cell.new (cy - 1) cx (fun c => { c with south_wall := false }))
      Cell.new (cy - 1) cx (fun c => { c with visited := true })) w h sx sy _ ∧
    visitedCount (modG (modG (modG cells Cell.new cy cx
      (fun c => { c with north_wall := false }))
      Cell.new (cy - 1) cx (fun c => { c with south_wall := false }))
      Cell.new (cy - 1) cx (fun c => { c with visited := true })) w h = _
  set g1 := modG cells Cell.new cy cx (fun c => { c with north_wall := false }) with hg1d
  set g2 := modG g1 Cell.new (cy - 1) cx (fun c => { c with south_wall := false }) with hg2d
  set c2 := modG g2 Cell.new (cy - 1) cx (fun c => { c with visited := true }) with hc2d
  have hd0 := inv.dims
  have hd1 : Dims g1 w h := dims_modG _ _ _ _ _ _ _ hd0
  have hd2 : Dims g2 w h := dims_modG _ _ _ _ _ _ _ hd1
  have hdc : Dims c2 w h := dims_modG _ _ _ _ _ _ _ hd2
  have eN : ∀ y x, (getG c2 Cell.new y x).north_wall =
      if y = cy ∧ x = cx then false else (getG cells Cell.new y x).north_wall := by
    intro y x
    have h1 : (getG c2 Cell.new y x).north_wall = (getG g2 Cell.new y x).north_wall :=
      getG_modG_pres g2 Cell.new (cy - 1) cx (fun c => { c with visited := true })
        (fun c => c.north_wall) (fun _ => rfl) y x
    have h2 : (getG g2 Cell.new y x).north_wall = (getG g1 Cell.new y x).north_wall :=
      getG_modG_pres g1 Cell.new (cy - 1) cx (fun c => { c with south_wall := false })
        (fun c => c.north_wall) (fun _ => rfl) y x
    rw [h1, h2, hg1d, getG_modG_in cells Cell.new w h y x cy cx _ hd0 hcy hcx]
    split_ifs <;> rfl
  have eS : ∀ y x, (getG c2 Cell.new y x).south_wall =
      if y = cy - 1 ∧ x = cx then false else (getG cells Cell.new y x).south_wall := by
    intro y x
    have h1 : (getG c2 Cell.new y x).south_wall = (getG g2 Cell.new y x).south_wall :=
      getG_modG_pres g2 Cell.new (cy - 1) cx (fun c => { c with visited := true })
        (fun c => c.south_wall) (fun _ => rfl) y x
    rw [h1, hg2d, getG_modG_in g1 Cell.new w h y x (cy - 1) cx _ hd1 hnyh hcx]
    split_ifs with hc
    · rfl
    · exact getG_modG_pres cells Cell.new cy cx (fun c => { c with north_wall := false })
        (fun c => c.south_wall) (fun _ => rfl) y x
  have eE : ∀ y x, (getG c2 Cell.new y x).east_wall = (getG cells Cell.new y x).east_wall :=
    fun y x =>
      (getG_modG_pres g2 Cell.new (cy - 1) cx (fun c => { c with visited := true })
        (fun c => c.east_wall) (fun _ => rfl) y x).trans
      ((getG_modG_pres g1 Cell.new (cy - 1) cx (fun c => { c with south_wall := false })
        (fun c => c.east_wall) (fun _ => rfl) y x).trans
      (getG_modG_pres cells Cell.new cy cx (fun c => { c with north_wall := false })
        (fun c => c.east_wall) (fun _ => rfl) y x))
  have eW : ∀ y x, (getG c2 Cell.new y x).west_wall = (getG cells Cell.new y x).west_wall :=
    fun y x =>
      (getG_modG_pres g2 Cell.new (cy - 1) cx (fun c => { c with visited := true })
        (fun c => c.west_wall) (fun _ => rfl) y x).trans
      ((getG_modG_pres g1 Cell.new (cy - 1) cx (fun c => { c with south_wall := false })
        (fun c => c.west_wall) (fun _ => rfl) y x).trans
      (getG_modG_pres cells Cell.new cy cx (fun c => { c with north_wall := false })
        (fun c => c.west_wall) (fun _ => rfl) y x))
  have eV : ∀ y x, (getG c2 Cell.new y x).visited =
      if y = cy - 1 ∧ x = cx then true else (getG cells Cell.new y x).visited := by
    intro y x
    rw [hc2d, getG_modG_in g2 Cell.new w h y x (cy - 1) cx _ hd2 hnyh hcx]
    split_ifs with hc
    · rfl
    · exact (getG_modG_pres g1 Cell.new (cy - 1) cx (fun c => { c with south_wall := false })
        (fun c => c.visited) (fun _ => rfl) y x).trans
        (getG_modG_pres cells Cell.new cy cx (fun c => { c with north_wall := false })
          (fun c => c.visited) (fun _ => rfl) y x)
  have hm : ∀ y x,
      ((getG cells Cell.new y x).north_wall = false →
        (getG c2 Cell.new y x).north_wall = false) ∧
      ((getG cells Cell.new y x).east_wall = false →
        (getG c2 Cell.new y x).east_wall = false) ∧
      ((getG cells Cell.new y x).south_wall = false →
        (getG c2 Cell.new y x).south_wall = false) ∧
      ((getG cells Cell.new y x).west_wall = false →
        (getG c2 Cell.new y x).west_wall = false) := by
    intro y x
    refine ⟨fun hf => ?_, fun hf => ?_, fun hf => ?_, fun hf => ?_⟩
    · rw [eN]; split_ifs
      · rfl
      · exact hf
    · rw [eE]; exact hf
    · rw [eS]; split_ifs
      · rfl
      · exact hf
    · rw [eW]; exact hf
  have hsymNS2 : ∀ x y, x < w → y + 1 < h →
      ((getG c2 Cell.new (y + 1) x).north_wall = false ↔
        (getG c2 Cell.new y x).south_wall = false) := by
    intro x y hx hy
    rw [eN, eS]
    by_cases hc : y + 1 = cy ∧ x = cx
    · rw [if_pos hc, if_pos ⟨by omega, hc.2⟩]
    · rw [if_neg hc, if_neg (fun hc2 => hc ⟨by omega, hc2.2⟩)]
      exact inv.symNS x y hx hy
  have hsymEW2 : ∀ x y, x + 1 < w → y < h →
      ((getG c2 Cell.new y x).east_wall = false ↔
        (getG c2 Cell.new y (x + 1)).west_wall = false) := by
    intro x y hx hy
    rw [eE, eW]
    exact inv.symEW x y hx hy
  have hunv2 : ∀ x y, x < w → y < h → (getG c2 Cell.new y x).visited = false →
      (getG c2 Cell.new y x).north_wall = true ∧ (getG c2 Cell.new y x).east_wall = true ∧
      (getG c2 Cell.new y x).south_wall = true ∧ (getG c2 Cell.new y x).west_wall = true := by
    intro x y hx hy hv2
    rw [eV] at hv2
    split_ifs at hv2 with hc
    have hold := inv.unvisited_walls x y hx hy hv2
    refine ⟨?_, ?_, ?_, ?_⟩
    · rw [eN]
      split_ifs with hc2
      · exfalso
        obtain ⟨rfl, rfl⟩ := hc2
        rw [hcurv] at hv2
        exact Bool.noConfusion hv2
      · exact hold.1
    · rw [eE]; exact hold.2.1
    · rw [eS, if_neg hc]; exact hold.2.2.1
    · rw [eW]; exact hold.2.2.2
  have hstep : OpenStep c2 w h (cx, cy) (cx, cy - 1) := by
    have hn2 : (getG c2 Cell.new (cy - 1 + 1) cx).north_wall = false := by
      rw [eN, if_pos ⟨by omega, rfl⟩]
    have h0 : OpenStep c2 w h (cx, cy - 1 + 1) (cx, cy - 1) :=
      OpenStep.north cx (cy - 1) hcx (by omega) hn2
    exact e2 ▸ h0
  have hvold : (getG g2 Cell.new (cy - 1) cx).visited = false := by
    have hch := (getG_modG_pres g1 Cell.new (cy - 1) cx (fun c => { c with south_wall := false })
        (fun c => c.visited) (fun _ => rfl) (cy - 1) cx).trans
      (getG_modG_pres cells Cell.new cy cx (fun c => { c with north_wall := false })
        (fun c => c.visited) (fun _ => rfl) (cy - 1) cx)
    exact hch.trans hnv
  have hcount : visitedCount c2 w h = visitedCount cells w h + 1 := by
    unfold visitedCount
    rw [hc2d, gridCount_modG_flip g2 Cell.new w h (fun c => c.visited) (cy - 1) cx
      (fun c => { c with visited := true }) hd2 hnyh hcx hvold rfl,
      hg2d, gridCount_modG_pres g1 Cell.new w h (fun c => c.visited) (cy - 1) cx
      (fun c => { c with south_wall := false }) (fun _ => rfl),
      hg1d, gridCount_modG_pres cells Cell.new w h (fun c => c.visited) cy cx
      (fun c => { c with north_wall := false }) (fun _ => rfl)]
  have hnorth_old : (getG cells Cell.new cy cx).north_wall = true := by
    by_contra hb
    rw [Bool.not_eq_true] at hb
    have hiff := inv.symNS cx (cy - 1) hcx (by omega)
    rw [e2] at hiff
    have hsf := hiff.mp hb
    rw [(inv.unvisited_walls cx (cy - 1) hcx (by omega) hnv).2.2.1] at hsf
    exact Bool.noConfusion hsf
  have hedge : openEdgeCount c2 w h = openEdgeCount cells w h + 1 := by
    have hN : gridCount c2 Cell.new w h (fun c => !c.north_wall) =
        gridCount cells Cell.new w h (fun c => !c.north_wall) + 1 := by
      rw [hc2d, gridCount_modG_pres g2 Cell.new w h (fun c => !c.north_wall) (cy - 1) cx
        (fun c => { c with visited := true }) (fun _ => rfl),
        hg2d, gridCount_modG_pres g1 Cell.new w h (fun c => !c.north_wall) (cy - 1) cx
        (fun c => { c with south_wall := false }) (fun _ => rfl),
        hg1d, gridCount_modG_flip cells Cell.new w h (fun c => !c.north_wall) cy cx
        (fun c => { c with north_wall := false }) hd0 hcy hcx (by simp [hnorth_old]) rfl]
    have hW : gridCount c2 Cell.new w h (fun c => !c.west_wall) =
        gridCount cells Cell.new w h (fun c => !c.west_wall) := by
      rw [hc2d, gridCount_modG_pres g2 Cell.new w h (fun c => !c.west_wall) (cy - 1) cx
        (fun c => { c with visited := true }) (fun _ => rfl),
        hg2d, gridCount_modG_pres g1 Cell.new w h (fun c => !c.west_wall) (cy - 1) cx
        (fun c => { c with south_wall := false }) (fun _ => rfl),
        hg1d, gridCount_modG_pres cells Cell.new w h (fun c => !c.west_wall) cy cx
        (fun c => { c with north_wall := false }) (fun _ => rfl)]
    unfold openEdgeCount
    omega
  exact ⟨carve_inv_step cells c2 w h sx sy cx cy cx (cy - 1) rest inv hcx hnyh
    hdc eV hm hsymNS2 hsymEW2 hunv2 hstep hcount hedge, hcount⟩

/-- Carving east from the stack top preserves the invariant and visits one
new cell. -/
theorem carve_step_east (cells : Grid) (w h sx sy cx cy : Nat) (rest : List (Nat × Nat))
    (inv : CarveInv cells w h sx sy ((cx, cy) :: rest))
    (hnxw : cx + 1 < w) (hnv : (getG cells Cell.new cy (cx + 1)).visited = false) :
    CarveInv (set_visited (remove_wall cells cx cy (cx + 1) cy Direction.East) cy (cx + 1))
        w h sx sy ((cx + 1, cy) :: (cx, cy) :: rest) ∧
    visitedCount (set_visited (remove_wall cells cx cy (cx + 1) cy Direction.East) cy (cx + 1))
        w h = visitedCount cells w h + 1 := by
  obtain ⟨hcx, hcy, hcurv⟩ := inv.stack_ok (cx, cy) (List.mem_cons_self _ _)
  show CarveInv (modG (modG (modG cells Cell.new cy cx (fun c => { c with east_wall := false }))
      Cell.new cy (cx + 1) (fun c => { c with west_wall := false }))
      Cell.new cy (cx + 1) (fun c => { c with visited := true })) w h sx sy _ ∧
    visitedCount (modG (modG (modG cells Cell.new cy cx
      (fun c => { c with east_wall := false }))
      Cell.new cy (cx + 1) (fun c => { c with west_wall := false }))
      Cell.new cy (cx + 1) (fun c => { c with visited := true })) w h = _
  set g1 := modG cells Cell.new cy cx (fun c => { c with east_wall := false }) with hg1d
  set g2 := modG g1 Cell.new cy (cx + 1) (fun c => { c with west_wall := false }) with hg2d
  set c2 := modG g2 Cell.new cy (cx + 1) (fun c => { c with visited := true }) with hc2d
  have hd0 := inv.dims
  have hd1 : Dims g1 w h := dims_modG _ _ _ _ _ _ _ hd0
  have hd2 : Dims g2 w h := dims_modG _ _ _ _ _ _ _ hd1
  have hdc : Dims c2 w h := dims_modG _ _ _ _ _ _ _ hd2
  have eE : ∀ y x, (getG c2 Cell.new y x).east_wall =
      if y = cy ∧ x = cx then false else (getG cells Cell.new y x).east_wall := by
    intro y x
    have h1 : (getG c2 Cell.new y x).east_wall = (getG g2 Cell.new y x).east_wall :=
      getG_modG_pres g2 Cell.new cy (cx + 1) (fun c => { c with visited := true })
        (fun c => c.east_wall) (fun _ => rfl) y x
    have h2 : (getG g2 Cell.new y x).east_wall = (getG g1 Cell.new y x).east_wall :=
      getG_modG_pres g1 Cell.new cy (cx + 1) (fun c => { c with west_wall := false })
        (fun c => c.east_wall) (fun _ => rfl) y x
    rw [h1, h2, hg1d, getG_modG_in cells Cell.new w h y x cy cx _ hd0 hcy hcx]
    split_ifs <;> rfl
  have eW : ∀ y x, (getG c2 Cell.new y x).west_wall =
      if y = cy ∧ x = cx + 1 then false else (getG cells Cell.new y x).west_wall := by
    intro y x
    have h1 : (getG c2 Cell.new y x).west_wall = (getG g2 Cell.new y x).west_wall :=
      getG_modG_pres g2 Cell.new cy (cx + 1) (fun c => { c with visited := true })
        (fun c => c.west_wall) (fun _ => rfl) y x
    rw [h1, hg2d, getG_modG_in g1 Cell.new w h y x cy (cx + 1) _ hd1 hcy hnxw]
    split_ifs with hc
    · rfl
    · exact getG_modG_pres cells Cell.new cy cx (fun c => { c with east_wall := false })
        (fun c => c.west_wall) (fun _ => rfl) y x
  have eN : ∀ y x, (getG c2 Cell.new y x).north_wall = (getG cells Cell.new y x).north_wall :=
    fun y x =>
      (getG_modG_pres g2 Cell.new cy (cx + 1) (fun c => { c with visited := true })
        (fun c => c.north_wall) (fun _ => rfl) y x).trans
      ((getG_modG_pres g1 Cell.new cy (cx + 1) (fun c => { c with west_wall := false })
        (fun c => c.north_wall) (fun _ => rfl) y x).trans
      (getG_modG_pres cells Cell.new cy cx (fun c => { c with east_wall := false })
        (fun c => c.north_wall) (fun _ => rfl) y x))
  have eS : ∀ y x, (getG c2 Cell.new y x).south_wall = (getG cells Cell.new y x).south_wall :=
    fun y x =>
      (getG_modG_pres g2 Cell.new cy (cx + 1) (fun c => { c with visited := true })
        (fun c => c.south_wall) (fun _ => rfl) y x).trans
      ((getG_modG_pres g1 Cell.new cy (cx + 1) (fun c => { c with west_wall := false })
        (fun c => c.south_wall) (fun _ => rfl) y x).trans
      (getG_modG_pres cells Cell.new cy cx (fun c => { c with east_wall := false })
        (fun c => c.south_wall) (fun _ => rfl) y x))
  have eV : ∀ y x, (getG c2 Cell.new y x).visited =
      if y = cy ∧ x = cx + 1 then true else (getG cells Cell.new y x).visited := by
    intro y x
    rw [hc2d, getG_modG_in g2 Cell.new w h y x cy (cx + 1) _ hd2 hcy hnxw]
    split_ifs with hc
    · rfl
    · exact (getG_modG_pres g1 Cell.new cy (cx + 1) (fun c => { c with west_wall := false })
        (fun c => c.visited) (fun _ => rfl) y x).trans
        (getG_modG_pres cells Cell.new cy cx (fun c => { c with east_wall := false })
          (fun c => c.visited) (fun _ => rfl) y x)
  have hm : ∀ y x,
      ((getG cells Cell.new y x).north_wall = false →
        (getG c2 Cell.new y x).north_wall = false) ∧
      ((getG cells Cell.new y x).east_wall = false →
        (getG c2 Cell.new y x).east_wall = false) ∧
      ((getG cells Cell.new y x).south_wall = false →
        (getG c2 Cell.new y x).south_wall = false) ∧
      ((getG cells Cell.new y x).west_wall = false →
        (getG c2 Cell.new y x).west_wall = false) := by
    intro y x
    refine ⟨fun hf => ?_, fun hf => ?_, fun hf => ?_, fun hf => ?_⟩
    · rw [eN]; exact hf
    · rw [eE]; split_ifs
      · rfl
      · exact hf
    · rw [eS]; exact hf
    · rw [eW]; split_ifs
      · rfl
      · exact hf
  have hsymNS2 : ∀ x y, x < w → y + 1 < h →
      ((getG c2 Cell.new (y + 1) x).north_wall = false ↔
        (getG c2 Cell.new y x).south_wall = false) := by
    intro x y hx hy
    rw [eN, eS]
    exact inv.symNS x y hx hy
  have hsymEW2 : ∀ x y, x + 1 < w → y < h →
      ((getG c2 Cell.new y x).east_wall = false ↔
        (getG c2 Cell.new y (x + 1)).west_wall = false) := by
    intro x y hx hy
    rw [eE, eW]
    by_cases hc : y = cy ∧ x = cx
    · rw [if_pos hc, if_pos ⟨hc.1, by omega⟩]
    · rw [if_neg hc, if_neg (fun hc2 => hc ⟨hc2.1, by omega⟩)]
      exact inv.symEW x y hx hy
  have hunv2 : ∀ x y, x < w → y < h → (getG c2 Cell.new y x).visited = false →
      (getG c2 Cell.new y x).north_wall = true ∧ (getG c2 Cell.new y x).east_wall = true ∧
      (getG c2 Cell.new y x).south_wall = true ∧ (getG c2 Cell.new y x).west_wall = true := by
    intro x y hx hy hv2
    rw [eV] at hv2
    split_ifs at hv2 with hc
    have hold := inv.unvisited_walls x y hx hy hv2
    refine ⟨?_, ?_, ?_, ?_⟩
    · rw [eN]; exact hold.1
    · rw [eE]
      split_ifs with hc2
      · exfalso
        obtain ⟨rfl, rfl⟩ := hc2
        rw [hcurv] at hv2
        exact Bool.noConfusion hv2
      · exact hold.2.1
    · rw [eS]; exact hold.2.2.1
    · rw [eW, if_neg hc]; exact hold.2.2.2
  have hstep : OpenStep c2 w h (cx, cy) (cx + 1, cy) := by
    have hw2 : (getG c2 Cell.new cy cx).east_wall = false := by
      rw [eE, if_pos ⟨rfl, rfl⟩]
    exact OpenStep.east cx cy hnxw hcy hw2
  have hvold : (getG g2 Cell.new cy (cx + 1)).visited = false := by
    have hch := (getG_modG_pres g1 Cell.new cy (cx + 1) (fun c => { c with west_wall := false })
        (fun c => c.visited) (fun _ => rfl) cy (cx + 1)).trans
      (getG_modG_pres cells Cell.new cy cx (fun c => { c with east_wall := false })
        (fun c => c.visited) (fun _ => rfl) cy (cx + 1))
    exact hch.trans hnv
  have hcount : visitedCount c2 w h = visitedCount cells w h + 1 := by
    unfold visitedCount
    rw [hc2d, gridCount_modG_flip g2 Cell.new w h (fun c => c.visited) cy (cx + 1)
      (fun c => { c with visited := true }) hd2 hcy hnxw hvold rfl,
      hg2d, gridCount_modG_pres g1 Cell.new w h (fun c => c.visited) cy (cx + 1)
      (fun c => { c with west_wall := false }) (fun _ => rfl),
      hg1d, gridCount_modG_pres cells Cell.new w h (fun c => c.visited) cy cx
      (fun c => { c with east_wall := false }) (fun _ => rfl)]
  have hwest_old : (getG cells Cell.new cy (cx + 1)).west_wall = true :=
    (inv.unvisited_walls (cx + 1) cy hnxw hcy hnv).2.2.2
  have hwg1 : (getG g1 Cell.new cy (cx + 1)).west_wall = true :=
    (getG_modG_pres cells Cell.new cy cx (fun c => { c with east_wall := false })
      (fun c => c.west_wall) (fun _ => rfl) cy (cx + 1)).trans hwest_old
  have hedge : openEdgeCount c2 w h = openEdgeCount cells w h + 1 := by
    have hN : gridCount c2 Cell.new w h (fun c => !c.north_wall) =
        gridCount cells Cell.new w h (fun c => !c.north_wall) := by
      rw [hc2d, gridCount_modG_pres g2 Cell.new w h (fun c => !c.north_wall) cy (cx + 1)
        (fun c => { c with visited := true }) (fun _ => rfl),
        hg2d, gridCount_modG_pres g1 Cell.new w h (fun c => !c.north_wall) cy (cx + 1)
        (fun c => { c with west_wall := false }) (fun _ => rfl),
        hg1d, gridCount_modG_pres cells Cell.new w h (fun c => !c.north_wall) cy cx
        (fun c => { c with east_wall := false }) (fun _ => rfl)]
    have hW : gridCount c2 Cell.new w h (fun c => !c.west_wall) =
        gridCount cells Cell.new w h (fun c => !c.west_wall) + 1 := by
      rw [hc2d, gridCount_modG_pres g2 Cell.new w h (fun c => !c.west_wall) cy (cx + 1)
        (fun c => { c with visited := true }) (fun _ => rfl),
        hg2d, gridCount_modG_flip g1 Cell.new w h (fun c => !c.west_wall) cy (cx + 1)
        (fun c => { c with west_wall := false }) hd1 hcy hnxw (by simp [hwg1]) rfl,
        hg1d, gridCount_modG_pres cells Cell.new w h (fun c => !c.west_wall) cy cx
        (fun c => { c with east_wall := false }) (fun _ => rfl)]
    unfold openEdgeCount
    omega
  exact ⟨carve_inv_step cells c2 w h sx sy cx cy (cx + 1) cy rest inv hnxw hcy
    hdc eV hm hsymNS2 hsymEW2 hunv2 hstep hcount hedge, hcount⟩

/-- Carving south from the stack top preserves the invariant and visits one
new cell. -/
theorem carve_step_south (cells : Grid) (w h sx sy cx cy : Nat) (rest : List (Nat × Nat))
    (inv : CarveInv cells w h sx sy ((cx, cy) :: rest))
    (hnyh : cy + 1 < h) (hnv : (getG cells Cell.new (cy + 1) cx).visited = false) :
    CarveInv (set_visited (remove_wall cells cx cy cx (cy + 1) Direction.South) (cy + 1) cx)
        w h sx sy ((cx, cy + 1) :: (cx, cy) :: rest) ∧
    visitedCount (set_visited (remove_wall cells cx cy cx (cy + 1) Direction.South) (cy + 1) cx)
        w h = visitedCount cells w h + 1 := by
  obtain ⟨hcx, hcy, hcurv⟩ := inv.stack_ok (cx, cy) (List.mem_cons_self _ _)
  show CarveInv (modG (modG (modG cells Cell.new cy cx (fun c => { c with south_wall := false }))
      Cell.new (cy + 1) cx (fun c => { c with north_wall := false }))
      Cell.new (cy + 1) cx (fun c => { c with visited := true })) w h sx sy _ ∧
    visitedCount (modG (modG (modG cells Cell.new cy cx
      (fun c => { c with south_wall := false }))
      Cell.new (cy + 1) cx (fun c => { c with north_wall := false }))
      Cell.new (cy + 1) cx (fun c => { c with visited := true })) w h = _
  set g1 := modG cells Cell.new cy cx (fun c => { c with south_wall := false }) with hg1d
  set g2 := modG g1 Cell.new (cy + 1) cx (fun c => { c with north_wall := false }) with hg2d
  set c2 := modG g2 Cell.new (cy + 1) cx (fun c => { c with visited := true }) with hc2d
  have hd0 := inv.dims
  have hd1 : Dims g1 w h := dims_modG _ _ _ _ _ _ _ hd0
  have hd2 : Dims g2 w h := dims_modG _ _ _ _ _ _ _ hd1
  have hdc : Dims c2 w h := dims_modG _ _ _ _ _ _ _ hd2
  have eS : ∀ y x, (getG c2 Cell.new y x).south_wall =
      if y = cy ∧ x = cx then false else (getG cells Cell.new y x).south_wall := by
    intro y x
    have h1 : (getG c2 Cell.new y x).south_wall = (getG g2 Cell.new y x).south_wall :=
      getG_modG_pres g2 Cell.new (cy + 1) cx (fun c => { c with visited := true })
        (fun c => c.south_wall) (fun _ => rfl) y x
    have h2 : (getG g2 Cell.new y x).south_wall = (getG g1 Cell.new y x).south_wall :=
      getG_modG_pres g1 Cell.new (cy + 1) cx (fun c => { c with north_wall := false })
        (fun c => c.south_wall) (fun _ => rfl) y x
    rw [h1, h2, hg1d, getG_modG_in cells Cell.new w h y x cy cx _ hd0 hcy hcx]
    split_ifs <;> rfl
  have eN : ∀ y x, (getG c2 Cell.new y x).north_wall =
      if y = cy + 1 ∧ x = cx then false else (getG cells Cell.new y x).north_wall := by
    intro y x
    have h1 : (getG c2 Cell.new y x).north_wall = (getG g2 Cell.new y x).north_wall :=
      getG_modG_pres g2 Cell.new (cy + 1) cx (fun c => { c with visited := true })
        (fun c => c.north_wall) (fun _ => rfl) y x
    rw [h1, hg2d, getG_modG_in g1 Cell.new w h y x (cy + 1) cx _ hd1 hnyh hcx]
    split_ifs with hc
    · rfl
    · exact getG_modG_pres cells Cell.new cy cx (fun c => { c with south_wall := false })
        (fun c => c.north_wall) (fun _ => rfl) y x
  have eE : ∀ y x, (getG c2 Cell.new y x).east_wall = (getG cells Cell.new y x).east_wall :=
    fun y x =>
      (getG_modG_pres g2 Cell.new (cy + 1) cx (fun c => { c with visited := true })
        (fun c => c.east_wall) (fun _ => rfl) y x).trans
      ((getG_modG_pres g1 Cell.new (cy + 1) cx (fun c => { c with north_wall := false })
        (fun c => c.east_wall) (fun _ => rfl) y x).trans
      (getG_modG_pres cells Cell.new cy cx (fun c => { c with south_wall := false })
        (fun c => c.east_wall) (fun _ => rfl) y x))
  have eW : ∀ y x, (getG c2 Cell.new y x).west_wall = (getG cells Cell.new y x).west_wall :=
    fun y x =>
      (getG_modG_pres g2 Cell.new (cy + 1) cx (fun c => { c with visited := true })
        (fun c => c.west_wall) (fun _ => rfl) y x).trans
      ((getG_modG_pres g1 Cell.new (cy + 1) cx (fun c => { c with north_wall := false })
        (fun c => c.west_wall) (fun _ => rfl) y x).trans
      (getG_modG_pres cells Cell.new cy cx (fun c => { c with south_wall := false })
        (fun c => c.west_wall) (fun _ => rfl) y x))
  have eV : ∀ y x, (getG c2 Cell.new y x).visited =
      if y = cy + 1 ∧ x = cx then true else (getG cells Cell.new y x).visited := by
    intro y x
    rw [hc2d, getG_modG_in g2 Cell.new w h y x (cy + 1) cx _ hd2 hnyh hcx]
    split_ifs with hc
    · rfl
    · exact (getG_modG_pres g1 Cell.new (cy + 1) cx (fun c => { c with north_wall := false })
        (fun c => c.visited) (fun _ => rfl) y x).trans
        (getG_modG_pres cells Cell.new cy cx (fun c => { c with south_wall := false })
          (fun c => c.visited) (fun _ => rfl) y x)
  have hm : ∀ y x,
      ((getG cells Cell.new y x).north_wall = false →
        (getG c2 Cell.new y x).north_wall = false) ∧
      ((getG cells Cell.new y x).east_wall = false →
        (getG c2 Cell.new y x).east_wall = false) ∧
      ((getG cells Cell.new y x).south_wall = false →
        (getG c2 Cell.new y x).south_wall = false) ∧
      ((getG cells Cell.new y x).west_wall = false →
        (getG c2 Cell.new y x).west_wall = false) := by
    intro y x
    refine ⟨fun hf => ?_, fun hf => ?_, fun hf => ?_, fun hf => ?_⟩
    · rw [eN]; split_ifs
      · rfl
      · exact hf
    · rw [eE]; exact hf
    · rw [eS]; split_ifs
      · rfl
      · exact hf
    · rw [eW]; exact hf
  have hsymNS2 : ∀ x y, x < w → y + 1 < h →
      ((getG c2 Cell.new (y + 1) x).north_wall = false ↔
        (getG c2 Cell.new y x).south_wall = false) := by
    intro x y hx hy
    rw [eN, eS]
    by_cases hc : y = cy ∧ x = cx
    · rw [if_pos (⟨by omega, hc.2⟩ : y + 1 = cy + 1 ∧ x = cx), if_pos hc]
    · rw [if_neg (fun hc2 => hc ⟨by omega, hc2.2⟩), if_neg hc]
      exact inv.symNS x y hx hy
  have hsymEW2 : ∀ x y, x + 1 < w → y < h →
      ((getG c2 Cell.new y x).east_wall = false ↔
        (getG c2 Cell.new y (x + 1)).west_wall = false) := by
    intro x y hx hy
    rw [eE, eW]
    exact inv.symEW x y hx hy
  have hunv2 : ∀ x y, x < w → y < h → (getG c2 Cell.new y x).visited = false →
      (getG c2 Cell.new y x).north_wall = true ∧ (getG c2 Cell.new y x).east_wall = true ∧
      (getG c2 Cell.new y x).south_wall = true ∧ (getG c2 Cell.new y x).west_wall = true := by
    intro x y hx hy hv2
    rw [eV] at hv2
    split_ifs at hv2 with hc
    have hold := inv.unvisited_walls x y hx hy hv2
    refine ⟨?_, ?_, ?_, ?_⟩
    · rw [eN, if_neg hc]; exact hold.1
    · rw [eE]; exact hold.2.1
    · rw [eS]
      split_ifs with hc2
      · exfalso
        obtain ⟨rfl, rfl⟩ := hc2
        rw [hcurv] at hv2
        exact Bool.noConfusion hv2
      · exact hold.2.2.1
    · rw [eW]; exact hold.2.2.2
  have hstep : OpenStep c2 w h (cx, cy) (cx, cy + 1) := by
    have hw2 : (getG c2 Cell.new cy cx).south_wall = false := by
      rw [eS, if_pos ⟨rfl, rfl⟩]
    exact OpenStep.south cx cy hcx hnyh hw2
  have hvold : (getG g2 Cell.new (cy + 1) cx).visited = false := by
    have hch := (getG_modG_pres g1 Cell.new (cy + 1) cx (fun c => { c with north_wall := false })
        (fun c => c.visited) (fun _ => rfl) (cy + 1) cx).trans
      (getG_modG_pres cells Cell.new cy cx (fun c => { c with south_wall := false })
        (fun c => c.visited) (fun _ => rfl) (cy + 1) cx)
    exact hch.trans hnv
  have hcount : visitedCount c2 w h = visitedCount cells w h + 1 := by
    unfold visitedCount
    rw [hc2d, gridCount_modG_flip g2 Cell.new w h (fun c => c.visited) (cy + 1) cx
      (fun c => { c with visited := true }) hd2 hnyh hcx hvold rfl,
      hg2d, gridCount_modG_pres g1 Cell.new w h (fun c => c.visited) (cy + 1) cx
      (fun c => { c with north_wall := false }) (fun _ => rfl),
      hg1d, gridCount_modG_pres cells Cell.new w h (fun c => c.visited) cy cx
      (fun c => { c with south_wall := false }) (fun _ => rfl)]
  have hnorth_old : (getG cells Cell.new (cy + 1) cx).north_wall = true :=
    (inv.unvisited_walls cx (cy + 1) hcx hnyh hnv).1
  have hng1 : (getG g1 Cell.new (cy + 1) cx).north_wall = true :=
    (getG_modG_pres cells Cell.new cy cx (fun c => { c with south_wall := false })
      (fun c => c.north_wall) (fun _ => rfl) (cy + 1) cx).trans hnorth_old
  have hedge : openEdgeCount c2 w h = openEdgeCount cells w h + 1 := by
    have hN : gridCount c2 Cell.new w h (fun c => !c.north_wall) =
        gridCount cells Cell.new w h (fun c => !c.north_wall) + 1 := by
      rw [hc2d, gridCount_modG_pres g2 Cell.new w h (fun c => !c.north_wall) (cy + 1) cx
        (fun c => { c with visited := true }) (fun _ => rfl),
        hg2d, gridCount_modG_flip g1 Cell.new w h (fun c => !c.north_wall) (cy + 1) cx
        (fun c => { c with north_wall := false }) hd1 hnyh hcx (by simp [hng1]) rfl,
        hg1d, gridCount_modG_pres cells Cell.new w h (fun c => !c.north_wall) cy cx
        (fun c => { c with south_wall := false }) (fun _ => rfl)]
    have hW : gridCount c2 Cell.new w h (fun c => !c.west_wall) =
        gridCount cells Cell.new w h (fun c => !c.west_wall) := by
      rw [hc2d, gridCount_modG_pres g2 Cell.new w h (fun c => !c.west_wall) (cy + 1) cx
        (fun c => { c with visited := true }) (fun _ => rfl),
        hg2d, gridCount_modG_pres g1 Cell.new w h (fun c => !c.west_wall) (cy + 1) cx
        (fun c => { c with north_wall := false }) (fun _ => rfl),
        hg1d, gridCount_modG_pres cells Cell.new w h (fun c => !c.west_wall) cy cx
        (fun c => { c with south_wall := false }) (fun _ => rfl)]
    unfold openEdgeCount
    omega
  exact ⟨carve_inv_step cells c2 w h sx sy cx cy cx (cy + 1) rest inv hcx hnyh
    hdc eV hm hsymNS2 hsymEW2 hunv2 hstep hcount hedge, hcount⟩

/-- Carving west from the stack top preserves the invariant and visits one
new cell. -/
theorem carve_step_west (cells : Grid) (w h sx sy cx cy : Nat) (rest : List (Nat × Nat))
    (inv : CarveInv cells w h sx sy ((cx, cy) :: rest))
    (hcx0 : 0 < cx) (hnv : (getG cells Cell.new cy (cx - 1)).visited = false) :
    CarveInv (set_visited (remove_wall cells cx cy (cx - 1) cy Direction.West) cy (cx - 1))
        w h sx sy ((cx - 1, cy) :: (cx, cy) :: rest) ∧
    visitedCount (set_visited (remove_wall cells cx cy (cx - 1) cy Direction.West) cy (cx - 1))
        w h = visitedCount cells w h + 1 := by
  obtain ⟨hcx, hcy, hcurv⟩ := inv.stack_ok (cx, cy) (List.mem_cons_self _ _)
  have hnxw : cx - 1 < w := by omega
  have e2 : cx - 1 + 1 = cx := Nat.succ_pred_eq_of_pos hcx0
  show CarveInv (modG (modG (modG cells Cell.new cy cx (fun c => { c with west_wall := false }))
      Cell.new cy (cx - 1) (fun c => { c with east_wall := false }))
      Cell.new cy (cx - 1) (fun c => { c with visited := true })) w h sx sy _ ∧
    visitedCount (modG (modG (modG cells Cell.new cy cx
      (fun c => { c with west_wall := false }))
      Cell.new cy (cx - 1) (fun c => { c with east_wall := false }))
      Cell.new cy (cx - 1) (fun c => { c with visited := true })) w h = _
  set g1 := modG cells Cell.new cy cx (fun c => { c with west_wall := false }) with hg1d
  set g2 := modG g1 Cell.new cy (cx - 1) (fun c => { c with east_wall := false }) with hg2d
  set c2 := modG g2 Cell.new cy (cx - 1) (fun c => { c with visited := true }) with hc2d
  have hd0 := inv.dims
  have hd1 : Dims g1 w h := dims_modG _ _ _ _ _ _ _ hd0
  have hd2 : Dims g2 w h := dims_modG _ _ _ _ _ _ _ hd1
  have hdc : Dims c2 w h := dims_modG _ _ _ _ _ _ _ hd2
  have eW : ∀ y x, (getG c2 Cell.new y x).west_wall =
      if y = cy ∧ x = cx then false else (getG cells Cell.new y x).west_wall := by
    intro y x
    have h1 : (getG c2 Cell.new y x).west_wall = (getG g2 Cell.new y x).west_wall :=
      getG_modG_pres g2 Cell.new cy (cx - 1) (fun c => { c with visited := true })
        (fun c => c.west_wall) (fun _ => rfl) y x
    have h2 : (getG g2 Cell.new y x).west_wall = (getG g1 Cell.new y x).west_wall :=
      getG_modG_pres g1 Cell.new cy (cx - 1) (fun c => { c with east_wall := false })
        (fun c => c.west_wall) (fun _ => rfl) y x
    rw [h1, h2, hg1d, getG_modG_in cells Cell.new w h y x cy cx _ hd0 hcy hcx]
    split_ifs <;> rfl
  have eE : ∀ y x, (getG c2 Cell.new y x).east_wall =
      if y = cy ∧ x = cx - 1 then false else (getG cells Cell.new y x).east_wall := by
    intro y x
    have h1 : (getG c2 Cell.new y x).east_wall = (getG g2 Cell.new y x).east_wall :=
      getG_modG_pres g2 Cell.new cy (cx - 1) (fun c => { c with visited := true })
        (fun c => c.east_wall) (fun _ => rfl) y x
    rw [h1, hg2d, getG_modG_in g1 Cell.new w h y x cy (cx - 1) _ hd1 hcy hnxw]
    split_ifs with hc
    · rfl
    · exact getG_modG_pres cells Cell.new cy cx (fun c => { c with west_wall := false })
        (fun c => c.east_wall) (fun _ => rfl) y x
  have eN : ∀ y x, (getG c2 Cell.new y x).north_wall = (getG cells Cell.new y x).north_wall :=
    fun y x =>
      (getG_modG_pres g2 Cell.new cy (cx - 1) (fun c => { c with visited := true })
        (fun c => c.north_wall) (fun _ => rfl) y x).trans
      ((getG_modG_pres g1 Cell.new cy (cx - 1) (fun c => { c with east_wall := false })
        (fun c => c.north_wall) (fun _ => rfl) y x).trans
      (getG_modG_pres cells Cell.new cy cx (fun c => { c with west_wall := false })
        (fun c => c.north_wall) (fun _ => rfl) y x))
  have eS : ∀ y x, (getG c2 Cell.new y x).south_wall = (getG cells Cell.new y x).south_wall :=
    fun y x =>
      (getG_modG_pres g2 Cell.new cy (cx - 1) (fun c => { c with visited := true })
        (fun c => c.south_wall) (fun _ => rfl) y x).trans
      ((getG_modG_pres g1 Cell.new cy (cx - 1) (fun c => { c with east_wall := false })
        (fun c => c.south_wall) (fun _ => rfl) y x).trans
      (getG_modG_pres cells Cell.new cy cx (fun c => { c with west_wall := false })
        (fun c => c.south_wall) (fun _ => rfl) y x))
  have eV : ∀ y x, (getG c2 Cell.new y x).visited =
      if y = cy ∧ x = cx - 1 then true else (getG cells Cell.new y x).visited := by
    intro y x
    rw [hc2d, getG_modG_in g2 Cell.new w h y x cy (cx - 1) _ hd2 hcy hnxw]
    split_ifs with hc
    · rfl
    · exact (getG_modG_pres g1 Cell.new cy (cx - 1) (fun c => { c with east_wall := false })
        (fun c => c.visited) (fun _ => rfl) y x).trans
        (getG_modG_pres cells Cell.new cy cx (fun c => { c with west_wall := false })
          (fun c => c.visited) (fun _ => rfl) y x)
  have hm : ∀ y x,
      ((getG cells Cell.new y x).north_wall = false →
        (getG c2 Cell.new y x).north_wall = false) ∧
      ((getG cells Cell.new y x).east_wall = false →
        (getG c2 Cell.new y x).east_wall = false) ∧
      ((getG cells Cell.new y x).south_wall = false →
        (getG c2 Cell.new y x).south_wall = false) ∧
      ((getG cells Cell.new y x).west_wall = false →
        (getG c2 Cell.new y x).west_wall = false) := by
    intro y x
    refine ⟨fun hf => ?_, fun hf => ?_, fun hf => ?_, fun hf => ?_⟩
    · rw [eN]; exact hf
    · rw [eE]; split_ifs
      · rfl
      · exact hf
    · rw [eS]; exact hf
    · rw [eW]; split_ifs
      · rfl
      · exact hf
  have hsymNS2 : ∀ x y, x < w → y + 1 < h →
      ((getG c2 Cell.new (y + 1) x).north_wall = false ↔
        (getG c2 Cell.new y x).south_wall = false) := by
    intro x y hx hy
    rw [eN, eS]
    exact inv.symNS x y hx hy
  have hsymEW2 : ∀ x y, x + 1 < w → y < h →
      ((getG c2 Cell.new y x).east_wall = false ↔
        (getG c2 Cell.new y (x + 1)).west_wall = false) := by
    intro x y hx hy
    rw [eE, eW]
    by_cases hc : y = cy ∧ x = cx - 1
    · rw [if_pos hc, if_pos (⟨hc.1, by omega⟩ : y = cy ∧ x + 1 = cx)]
    · rw [if_neg hc, if_neg (fun hc2 => hc ⟨hc2.1, by omega⟩)]
      exact inv.symEW x y hx hy
  have hunv2 : ∀ x y, x < w → y < h → (getG c2 Cell.new y x).visited = false →
      (getG c2 Cell.new y x).north_wall = true ∧ (getG c2 Cell.new y x).east_wall = true ∧
      (getG c2 Cell.new y x).south_wall = true ∧ (getG c2 Cell.new y x).west_wall = true := by
    intro x y hx hy hv2
    rw [eV] at hv2
    split_ifs at hv2 with hc
    have hold := inv.unvisited_walls x y hx hy hv2
    refine ⟨?_, ?_, ?_, ?_⟩
    · rw [eN]; exact hold.1
    · rw [eE, if_neg hc]; exact hold.2.1
    · rw [eS]; exact hold.2.2.1
    · rw [eW]
      split_ifs with hc2
      · exfalso
        obtain ⟨rfl, rfl⟩ := hc2
        rw [hcurv] at hv2
        exact Bool.noConfusion hv2
      · exact hold.2.2.2
  have hstep : OpenStep c2 w h (cx, cy) (cx - 1, cy) := by
    have hw2 : (getG c2 Cell.new cy (cx - 1 + 1)).west_wall = false := by
      rw [eW, if_pos ⟨rfl, by omega⟩]
    have h0 : OpenStep c2 w h (cx - 1 + 1, cy) (cx - 1, cy) :=
      OpenStep.west (cx - 1) cy (by omega) hcy hw2
    exact e2 ▸ h0
  have hvold : (getG g2 Cell.new cy (cx - 1)).visited = false := by
    have hch := (getG_modG_pres g1 Cell.new cy (cx - 1) (fun c => { c with east_wall := false })
        (fun c => c.visited) (fun _ => rfl) cy (cx - 1)).trans
      (getG_modG_pres cells Cell.new cy cx (fun c => { c with west_wall := false })
        (fun c => c.visited) (fun _ => rfl) cy (cx - 1))
    exact hch.trans hnv
  have hcount : visitedCount c2 w h = visitedCount cells w h + 1 := by
    unfold visitedCount
    rw [hc2d, gridCount_modG_flip g2 Cell.new w h (fun c => c.visited) cy (cx - 1)
      (fun c => { c with visited := true }) hd2 hcy hnxw hvold rfl,
      hg2d, gridCount_modG_pres g1 Cell.new w h (fun c => c.visited) cy (cx - 1)
      (fun c => { c with east_wall := false }) (fun _ => rfl),
      hg1d, gridCount_modG_pres cells Cell.new w h (fun c => c.visited) cy cx
      (fun c => { c with west_wall := false }) (fun _ => rfl)]
  have hwest_old : (getG cells Cell.new cy cx).west_wall = true := by
    by_contra hb
    rw [Bool.not_eq_true] at hb
    have hiff := inv.symEW (cx - 1) cy (by omega) hcy
    rw [e2] at hiff
    have hef := hiff.mpr hb
    rw [(inv.unvisited_walls (cx - 1) cy hnxw hcy hnv).2.1] at hef
    exact Bool.noConfusion hef
  have hedge : openEdgeCount c2 w h = openEdgeCount cells w h + 1 := by
    have hN : gridCount c2 Cell.new w h (fun c => !c.north_wall) =
        gridCount cells Cell.new w h (fun c => !c.north_wall) := by
      rw [hc2d, gridCount_modG_pres g2 Cell.new w h (fun c => !c.north_wall) cy (cx - 1)
        (fun c => { c with visited := true }) (fun _ => rfl),
        hg2d, gridCount_modG_pres g1 Cell.new w h (fun c => !c.north_wall) cy (cx - 1)
        (fun c => { c with east_wall := false }) (fun _ => rfl),
        hg1d, gridCount_modG_pres cells Cell.new w h (fun c => !c.north_wall) cy cx
        (fun c => { c with west_wall := false }) (fun _ => rfl)]
    have hW : gridCount c2 Cell.new w h (fun c => !c.west_wall) =
        gridCount cells Cell.new w h (fun c => !c.west_wall) + 1 := by
      rw [hc2d, gridCount_modG_pres g2 Cell.new w h (fun c => !c.west_wall) cy (cx - 1)
        (fun c => { c with visited := true }) (fun _ => rfl),
        hg2d, gridCount_modG_pres g1 Cell.new w h (fun c => !c.west_wall) cy (cx - 1)
        (fun c => { c with east_wall := false }) (fun _ => rfl),
        hg1d, gridCount_modG_flip cells Cell.new w h (fun c => !c.west_wall) cy cx
        (fun c => { c with west_wall := false }) hd0 hcy hcx (by simp [hwest_old]) rfl]
    unfold openEdgeCount
    omega
  exact ⟨carve_inv_step cells c2 w h sx sy cx cy (cx - 1) cy rest inv hnxw hcy
    hdc eV hm hsymNS2 hsymEW2 hunv2 hstep hcount hedge, hcount⟩

/-- The carving loop drains its stack within the fuel bound
2 * (unvisited cells) + stack length and ends with the invariant and an empty
stack: each iteration either visits a new cell (measure drops by one) or pops
(measure drops by one). -/
theorem carve_loop_inv_run (w h sx sy : Nat) :
    ∀ (fuel : Nat) (cells : Grid) (stack : List (Nat × Nat)) (tape : List Nat),
      CarveInv cells w h sx sy stack →
      2 * (w * h - visitedCount cells w h) + stack.length ≤ fuel →
      (carve_loop w h fuel cells stack tape).2.1 = [] ∧
      CarveInv (carve_loop w h fuel cells stack tape).1 w h sx sy [] := by
  intro fuel
  induction fuel with
  | zero =>
    intro cells stack tape inv hfuel
    have hnil : stack = [] := List.length_eq_zero.mp (by omega)
    subst hnil
    exact ⟨rfl, inv⟩
  | succ k ih =>
    intro cells stack tape inv hfuel
    cases stack with
    | nil => exact ⟨rfl, inv⟩
    | cons top rest =>
      obtain ⟨cx, cy⟩ := top
      obtain ⟨hcx, hcy, hcurv⟩ := inv.stack_ok (cx, cy) (List.mem_cons_self _ _)
      unfold carve_loop
      dsimp only
      rcases hne : unvisited_neighbors cells w h cx cy with _ | ⟨n0, ns⟩
      · have hnb := unvisited_neighbors_nil cells w h cx cy hne
        have inv2 : CarveInv cells w h sx sy rest :=
          { inv with
            stack_ok := fun p hp => inv.stack_ok p (List.mem_cons_of_mem _ hp)
            closed := by
              intro x y hx hy hv
              rcases inv.closed x y hx hy hv with hmem | hcl
              · rcases List.mem_cons.1 hmem with heq | hmem2
                · rw [Prod.mk.injEq] at heq
                  obtain ⟨rfl, rfl⟩ := heq
                  exact Or.inr ⟨fun hg => hnb.1 hg, fun hg => hnb.2.1 (by omega),
                    fun hg => hnb.2.2.1 (by omega), fun hg => hnb.2.2.2 hg⟩
                · exact Or.inl hmem2
              · exact Or.inr hcl }
        refine ih cells rest tape inv2 ?_
        simp only [List.length_cons] at hfuel
        omega
      · have hlen : (takeRand tape (n0 :: ns).length).1 < (n0 :: ns).length :=
          Nat.mod_lt _ (Nat.succ_pos _)
        have hmem2 : (n0 :: ns).getD (takeRand tape (n0 :: ns).length).1
            (0, 0, Direction.North) ∈ unvisited_neighbors cells w h cx cy := by
          rw [hne]
          exact getD_mem _ _ _ hlen
        simp only [List.length_cons] at hfuel
        dsimp only
        rcases mem_unvisited_neighbors cells w h cx cy _ hmem2 with
          ⟨hg, hnv, hpe⟩ | ⟨hg, hnv, hpe⟩ | ⟨hg, hnv, hpe⟩ | ⟨hg, hnv, hpe⟩
        · rw [hpe]
          have hstep := carve_step_north cells w h sx sy cx cy rest inv hg hnv
          have hvlt : visitedCount cells w h < w * h := by
            have hlt := countP_lt_length (pairs w h)
              (fun yx => (getG cells Cell.new yx.1 yx.2).visited) (cy - 1, cx)
              ((mem_pairs w h (cy - 1) cx).2 ⟨by omega, hcx⟩) hnv
            rw [length_pairs, Nat.mul_comm] at hlt
            exact hlt
          refine ih _ _ _ hstep.1 ?_
          rw [hstep.2]
          simp only [List.length_cons]
          omega
        · rw [hpe]
          have hstep := carve_step_east cells w h sx sy cx cy rest inv (by omega) hnv
          have hvlt : visitedCount cells w h < w * h := by
            have hlt := countP_lt_length (pairs w h)
              (fun yx => (getG cells Cell.new yx.1 yx.2).visited) (cy, cx + 1)
              ((mem_pairs w h cy (cx + 1)).2 ⟨hcy, by omega⟩) hnv
            rw [length_pairs, Nat.mul_comm] at hlt
            exact hlt
          refine ih _ _ _ hstep.1 ?_
          rw [hstep.2]
          simp only [List.length_cons]
          omega
        · rw [hpe]
          have hstep := carve_step_south cells w h sx sy cx cy rest inv (by omega) hnv
          have hvlt : visitedCount cells w h < w * h := by
            have hlt := countP_lt_length (pairs w h)
              (fun yx => (getG cells Cell.new yx.1 yx.2).visited) (cy + 1, cx)
              ((mem_pairs w h (cy + 1) cx).2 ⟨by omega, hcx⟩) hnv
            rw [length_pairs, Nat.mul_comm] at hlt
            exact hlt
          refine ih _ _ _ hstep.1 ?_
          rw [hstep.2]
          simp only [List.length_cons]
          omega
        · rw [hpe]
          have hstep := carve_step_west cells w h sx sy cx cy rest inv hg hnv
          have hvlt : visitedCount cells w h < w * h := by
            have hlt := countP_lt_length (pairs w h)
              (fun yx => (getG cells Cell.new yx.1 yx.2).visited) (cy, cx - 1)
              ((mem_pairs w h cy (cx - 1)).2 ⟨hcy, by omega⟩) hnv
            rw [length_pairs, Nat.mul_comm] at hlt
            exact hlt
          refine ih _ _ _ hstep.1 ?_
          rw [hstep.2]
          simp only [List.length_cons]
          omega

/-- Once the stack is empty, the closure part of the invariant forces every
in-range cell to be visited: walk from the start along its row, then along
each column. -/
theorem carve_inv_all_visited (cells : Grid) (w h sx sy : Nat)
    (hsx : sx < w) (hsy : sy < h) (inv : CarveInv cells w h sx sy []) :
    ∀ x y, x < w → y < h → (getG cells Cell.new y x).visited = true := by
  have hnb : ∀ x y, x < w → y < h → (getG cells Cell.new y x).visited = true →
      (0 < y → (getG cells Cell.new (y - 1) x).visited = true) ∧
      (x + 1 < w → (getG cells Cell.new y (x + 1)).visited = true) ∧
      (y + 1 < h → (getG cells Cell.new (y + 1) x).visited = true) ∧
      (0 < x → (getG cells Cell.new y (x - 1)).visited = true) := by
    intro x y hx hy hv
    rcases inv.closed x y hx hy hv with hmem | hcl
    · exact absurd hmem (List.not_mem_nil _)
    · exact hcl
  have hright : ∀ d, sx + d < w → (getG cells Cell.new sy (sx + d)).visited = true := by
    intro d
    induction d with
    | zero => intro _; exact inv.start_visited
    | succ e ihe =>
      intro hlt
      exact (hnb (sx + e) sy (by omega) hsy (ihe (by omega))).2.1 (by omega)
  have hleft : ∀ d, d ≤ sx → (getG cells Cell.new sy (sx - d)).visited = true := by
    intro d
    induction d with
    | zero => intro _; exact inv.start_visited
    | succ e ihe =>
      intro hle
      exact (hnb (sx - e) sy (by omega) hsy (ihe (by omega))).2.2.2 (by omega)
  have hrow : ∀ x, x < w → (getG cells Cell.new sy x).visited = true := by
    intro x hx
    rcases le_or_lt sx x with hle | hlt
    · have hv := hright (x - sx) (by omega)
      have e : sx + (x - sx) = x := by omega
      rw [e] at hv
      exact hv
    · have hv := hleft (sx - x) (by omega)
      have e : sx - (sx - x) = x := by omega
      rw [e] at hv
      exact hv
  intro x y hx hy
  have hdown : ∀ d, sy + d < h → (getG cells Cell.new (sy + d) x).visited = true := by
    intro d
    induction d with
    | zero => intro _; exact hrow x hx
    | succ e ihe =>
      intro hlt
      exact (hnb x (sy + e) hx (by omega) (ihe (by omega))).2.2.1 (by omega)
  have hup : ∀ d, d ≤ sy → (getG cells Cell.new (sy - d) x).visited = true := by
    intro d
    induction d with
    | zero => intro _; exact hrow x hx
    | succ e ihe =>
      intro hle
      exact (hnb x (sy - e) hx (by omega) (ihe (by omega))).1 (by omega)
  rcases le_or_lt sy y with hle | hlt
  · have hv := hdown (y - sy) (by omega)
    have e : sy + (y - sy) = y := by omega
    rw [e] at hv
    exact hv
  · have hv := hup (sy - y) (by omega)
    have e : sy - (sy - y) = y := by omega
    rw [e] at hv
    exact hv

/-- The carving invariant holds for generate_maze's initial state: the fresh
fully-walled grid with only the start visited and on the stack. -/
theorem carve_inv_init (w h sx sy : Nat) (hsx : sx < w) (hsy : sy < h) :
    CarveInv (set_visited (List.replicate h (List.replicate w Cell.new)) sy sx) w h sx sy
      [(sx, sy)] ∧
    visitedCount (set_visited (List.replicate h (List.replicate w Cell.new)) sy sx) w h = 1 := by
  have hg : ∀ y x, getG (List.replicate h (List.replicate w (Cell.new : Cell))) Cell.new y x
      = Cell.new := fun y x => getG_replicate w h Cell.new y x
  have hdb : Dims (List.replicate h (List.replicate w (Cell.new : Cell))) w h :=
    dims_replicate w h Cell.new
  have hE : ∀ y x, getG (set_visited (List.replicate h (List.replicate w Cell.new)) sy sx)
      Cell.new y x =
      if y = sy ∧ x = sx then { Cell.new with visited := true } else Cell.new := by
    intro y x
    show getG (modG (List.replicate h (List.replicate w Cell.new)) Cell.new sy sx
      (fun c => { c with visited := true })) Cell.new y x = _
    rw [getG_modG_in _ Cell.new w h y x sy sx _ hdb hsy hsx, hg sy sx, hg y x]
  have hold0 : (getG (List.replicate h (List.replicate w (Cell.new : Cell)))
      Cell.new sy sx).visited = false := by
    rw [hg sy sx]
    decide
  have hvc : visitedCount (set_visited (List.replicate h (List.replicate w Cell.new)) sy sx)
      w h = 1 := by
    unfold visitedCount
    show gridCount (modG (List.replicate h (List.replicate w Cell.new)) Cell.new sy sx
      (fun c => { c with visited := true })) Cell.new w h (fun c => c.visited) = 1
    rw [gridCount_modG_flip _ Cell.new w h (fun c => c.visited) sy sx
      (fun c => { c with visited := true }) hdb hsy hsx hold0 rfl,
      gridCount_eq_zero _ Cell.new w h (fun c => c.visited)
        (fun y x _ _ => by rw [hg y x]; decide)]
  have hedge0 : openEdgeCount (set_visited (List.replicate h (List.replicate w Cell.new)) sy sx)
      w h = 0 := by
    unfold openEdgeCount
    rw [gridCount_eq_zero _ Cell.new w h (fun c => !c.north_wall)
        (fun y x _ _ => by rw [hE y x]; split_ifs <;> rfl),
      gridCount_eq_zero _ Cell.new w h (fun c => !c.west_wall)
        (fun y x _ _ => by rw [hE y x]; split_ifs <;> rfl)]
  refine ⟨⟨dims_modG _ _ _ _ _ _ _ hdb, ?_, ?_, ?_, ?_, ?_, ?_, ?_, ?_⟩, hvc⟩
  · rw [hE, if_pos ⟨rfl, rfl⟩]
  · intro x y hx hy
    rw [hE, hE]
    split_ifs <;> decide
  · intro x y hx hy
    rw [hE, hE]
    split_ifs <;> decide
  · intro x y hx hy hv
    rw [hE]
    split_ifs <;> decide
  · intro p hp
    rcases List.mem_cons.1 hp with rfl | hp2
    · exact ⟨hsx, hsy, by rw [hE, if_pos ⟨rfl, rfl⟩]⟩
    · exact absurd hp2 (List.not_mem_nil _)
  · intro x y hx hy hv
    rw [hE] at hv
    split_ifs at hv with hc
    · obtain ⟨rfl, rfl⟩ := hc
      exact Relation.ReflTransGen.refl
    · exact absurd hv (by decide)
  · intro x y hx hy hv
    rw [hE] at hv
    split_ifs at hv with hc
    · obtain ⟨rfl, rfl⟩ := hc
      exact Or.inl (List.mem_cons_self _ _)
    · exact absurd hv (by decide)
  · rw [hvc, hedge0]

end MazeGen

/-- Claim C3: for every width and height at least 1 (and any random tape,
modelled by the start cell and the draw tape), the wall-carving phase of
generate_maze, run with the canonical fuel 2 * w * h from its initial state
(fresh fully-walled grid, start visited and on the stack), drains its stack
and produces a grid whose open-adjacency graph spans all w * h cells: every
cell is visited, every cell is reachable from every other cell along
wall-less adjacencies, and the number of opened edges is w * h - 1 (stated as
openEdgeCount + 1 = w * h), so the graph is a spanning tree. -/
theorem C3_carving_spanning_tree (w h sx sy : Nat) (tape : List Nat)
    (res : MazeGen.Grid × List (Nat × Nat) × List Nat)
    (hw : 1 ≤ w) (hh : 1 ≤ h) (hsx : sx < w) (hsy : sy < h)
    (hres : MazeGen.carve_loop w h (2 * (w * h))
        (MazeGen.set_visited (List.replicate h (List.replicate w MazeGen.Cell.new)) sy sx)
        [(sx, sy)] tape = res) :
    res.2.1 = [] ∧
    (∀ x y, x < w → y < h → (getG res.1 MazeGen.Cell.new y x).visited = true) ∧
    (∀ p q : Nat × Nat, p.1 < w → p.2 < h → q.1 < w → q.2 < h →
      MazeGen.Reachable res.1 w h p q) ∧
    MazeGen.openEdgeCount res.1 w h + 1 = w * h := by
  obtain ⟨hinit, hvc⟩ := MazeGen.carve_inv_init w h sx sy hsx hsy
  have hrun := MazeGen.carve_loop_inv_run w h sx sy (2 * (w * h)) _ [(sx, sy)] tape hinit
    (by
      rw [hvc]
      have h1 : 0 < w * h := Nat.mul_pos hw hh
      simp only [List.length_cons, List.length_nil]
      omega)
  rw [hres] at hrun
  obtain ⟨hstk, hinv⟩ := hrun
  have hall := MazeGen.carve_inv_all_visited res.1 w h sx sy hsx hsy hinv
  refine ⟨hstk, fun x y hx hy => hall x y hx hy, ?_, ?_⟩
  · intro p q hp1 hp2 hq1 hq2
    have h1 : MazeGen.Reachable res.1 w h (sx, sy) p :=
      hinv.reach p.1 p.2 hp1 hp2 (hall p.1 p.2 hp1 hp2)
    have h2 : MazeGen.Reachable res.1 w h (sx, sy) q :=
      hinv.reach q.1 q.2 hq1 hq2 (hall q.1 q.2 hq1 hq2)
    exact Relation.ReflTransGen.trans
      (MazeGen.reachable_symm res.1 w h hinv.symNS hinv.symEW (sx, sy) p h1) h2
  · have h1my : MazeGen.visitedCount res.1 w h =
        (pairs w h).countP (fun yx => (getG res.1 MazeGen.Cell.new yx.1 yx.2).visited) := rfl
    have h2all : ∀ a ∈ pairs w h,
        (fun yx => (getG res.1 MazeGen.Cell.new yx.1 yx.2).visited) a = true := by
      intro a ha
      obtain ⟨ay, ax⟩ := a
      have hb := (mem_pairs w h ay ax).1 ha
      exact hall ax ay hb.2 hb.1
    have hv : MazeGen.visitedCount res.1 w h = w * h := by
      rw [h1my, List.countP_eq_length.mpr h2all, length_pairs, Nat.mul_comm]
    have hcnt := hinv.count
    omega

/-- Witness for C3 on the 2x2 grid carved from the all-zero tape. -/
theorem C3_carving_spanning_tree_witness :
    (1 ≤ 2 ∧ 0 < 2) ∧
    ((MazeGen.carve_loop 2 2 (2 * (2 * 2))
        (MazeGen.set_visited (List.replicate 2 (List.replicate 2 MazeGen.Cell.new)) 0 0)
        [(0, 0)] []).2.1 = [] ∧
      (∀ x y, x < 2 → y < 2 →
        (getG (MazeGen.carve_loop 2 2 (2 * (2 * 2))
          (MazeGen.set_visited (List.replicate 2 (List.replicate 2 MazeGen.Cell.new)) 0 0)
          [(0, 0)] []).1 MazeGen.Cell.new y x).visited = true) ∧
      (∀ p q : Nat × Nat, p.1 < 2 → p.2 < 2 → q.1 < 2 → q.2 < 2 →
        MazeGen.Reachable (MazeGen.carve_loop 2 2 (2 * (2 * 2))
          (MazeGen.set_visited (List.replicate 2 (List.replicate 2 MazeGen.Cell.new)) 0 0)
          [(0, 0)] []).1 2 2 p q) ∧
      MazeGen.openEdgeCount (MazeGen.carve_loop 2 2 (2 * (2 * 2))
        (MazeGen.set_visited (List.replicate 2 (List.replicate 2 MazeGen.Cell.new)) 0 0)
        [(0, 0)] []).1 2 2 + 1 = 2 * 2) :=
  ⟨⟨by decide, by decide⟩,
    C3_carving_spanning_tree 2 2 0 0 [] _ (by decide) (by decide) (by decide) (by decide) rfl⟩

end SQP
